import Mathlib

/-!
# Hostel allocation backend: rooms, students and allocations

A shallow embedding of the Express/Mongoose backend under `backend-nodejs/`:

* `models/Room.js`, `models/Student.js`, `models/Allocation.js` become the
  record types `Room`, `Student`, `Allocation` and the save hook `roomPreSave`;
* `routes/allocations.js`, `routes/rooms.js`, `routes/students.js` become the
  handler functions `postAllocation`, `deallocate`, `deleteAllocation`,
  `postRoom`, `putRoom`, `deleteRoom`, `postStudent`, `putStudent`,
  `deleteStudent`, each mapping a store to a `Result` (new store, HTTP
  response, emitted socket events).

Modelling conventions.

* The three Mongo collections are lists of documents; `_id` values are natural
  numbers handed out by the counter `Store.nextId` (a fresh ObjectId per
  created document).  `findById`, `saveDoc` and `deleteOne` are the point
  lookup, the write-back of a loaded document and the removal by `_id`.
* Handlers are the bodies run for an authenticated admin request (the
  `protect` / `admin` middleware is outside this development) and are executed
  one at a time, each to completion.
* Numbers are integers: `capacity` and `currentOccupancy` are naturals in the
  store (schema `min: 1` resp. `min: 0`; occupancy is only ever written as
  `0`, `+ 1` or a guarded `- 1`), a capacity arriving in a request is an
  integer checked against the bound before it is stored.
* Strings are the values after the schema setters (`trim`, `lowercase`); a
  request string is either absent or empty, written `""`, or non-blank, which
  is exactly what the JavaScript truthiness tests and `notEmpty()` distinguish.
* Documents already in the store are schema-valid, so the validation that
  `save()` runs passes on every path a handler did not assign from request
  input; the bookkeeping fields of the `timestamps` option are not modelled.
* Dates are natural numbers; `new Date()` / `Date.now` is the argument `now`.
-/

namespace Hostel

/-- Document identifier (`_id`, an ObjectId). -/
abbrev Id := Nat

/-- Point in time (`Date`). -/
abbrev Date := Nat

/-! ## models/Room.js -/

/-- The `status` enum of `roomSchema`. -/
inductive RoomStatus where
  | Available
  | Occupied
  | Maintenance
  deriving DecidableEq, Repr

/-- The enum validator of `roomSchema.status`: the three admitted strings. -/
def RoomStatus.ofString : String → Option RoomStatus
  | "Available" => some .Available
  | "Occupied" => some .Occupied
  | "Maintenance" => some .Maintenance
  | _ => none

/-- A document of `roomSchema`. -/
structure Room where
  id : Id
  roomNumber : String
  capacity : Nat
  currentOccupancy : Nat := 0
  status : RoomStatus := .Available
  floor : Option Int := none
  amenities : List String := []
  deriving DecidableEq, Repr

/-- The hook `roomSchema.pre('save', ...)`: auto-update status based on
occupancy. -/
def roomPreSave (r : Room) : Room :=
  if r.currentOccupancy ≥ r.capacity then
    { r with status := .Occupied }
  else if r.currentOccupancy = 0 ∧ r.status ≠ .Maintenance then
    { r with status := .Available }
  else
    r

/-! ## models/Student.js -/

/-- A document of `studentSchema`. -/
structure Student where
  id : Id
  name : String
  studentId : String
  course : String
  contact : String
  email : String
  userId : Option Id := none
  roomId : Option Id := none
  currentAllocation : Option Id := none
  deriving DecidableEq, Repr

/-! ## models/Allocation.js -/

/-- The `status` enum of `allocationSchema`. -/
inductive AllocationStatus where
  | Active
  | Completed
  deriving DecidableEq, Repr

/-- A document of `allocationSchema`. -/
structure Allocation where
  id : Id
  studentId : Id
  roomId : Id
  allocationDate : Date
  deallocationDate : Option Date := none
  status : AllocationStatus := .Active
  notes : Option String := none
  deriving DecidableEq, Repr

/-! ## The record store -/

/-- The three collections and the source of fresh `_id` values. -/
structure Store where
  students : List Student
  rooms : List Room
  allocations : List Allocation
  nextId : Id
  deriving DecidableEq, Repr

/-- The store before any request was served. -/
def Store.empty : Store :=
  { students := [], rooms := [], allocations := [], nextId := 0 }

/-- Lookup `Model.findById(id)`: the document with that `_id`, if any. -/
def findById {α : Type} (key : α → Id) (docs : List α) (id : Id) : Option α :=
  docs.find? (fun d => key d == id)

/-- Write-back `doc.save()` of a loaded document: the stored document with the
same `_id` is replaced. -/
def saveDoc {α : Type} (key : α → Id) (docs : List α) (doc : α) : List α :=
  docs.map (fun d => if key d = key doc then doc else d)

/-- Removal `doc.deleteOne()`: the document with that `_id` is removed. -/
def deleteOne {α : Type} (key : α → Id) (docs : List α) (id : Id) : List α :=
  docs.filter (fun d => key d != id)

/-- Lookup `Student.findById`. -/
def Store.findStudent (s : Store) (id : Id) : Option Student :=
  findById Student.id s.students id

/-- Lookup `Room.findById`. -/
def Store.findRoom (s : Store) (id : Id) : Option Room :=
  findById Room.id s.rooms id

/-- Lookup `Allocation.findById`. -/
def Store.findAllocation (s : Store) (id : Id) : Option Allocation :=
  findById Allocation.id s.allocations id

/-- Number of allocations with status `Active` whose `roomId` is the room. -/
def Store.activeInRoom (s : Store) (roomId : Id) : Nat :=
  (s.allocations.filter (fun a => a.status = .Active ∧ a.roomId = roomId)).length

/-- Number of allocations with status `Active` whose `studentId` is the
student. -/
def Store.activeOfStudent (s : Store) (studentId : Id) : Nat :=
  (s.allocations.filter (fun a => a.status = .Active ∧ a.studentId = studentId)).length

/-! ## Responses and socket events -/

/-- JSON body of a response. -/
inductive Body where
  /-- The body `{ message: text }` with a literal text. -/
  | message (text : String)
  /-- The body `{ message: error.message }` of a `catch` branch. -/
  | thrown
  /-- The body `{ errors: errors.array() }` of a failed request validation. -/
  | errors
  | allocation (a : Allocation)
  | room (r : Room)
  | student (st : Student)
  deriving DecidableEq, Repr

/-- HTTP response: status code and body. -/
structure Response where
  status : Nat
  body : Body
  deriving DecidableEq, Repr

/-- Payload of one `io.emit(name, payload)` call. -/
inductive Event where
  | allocation_created (allocation : Allocation) (room : Room) (student : Student)
  | allocation_completed (allocation : Allocation) (room : Option Room)
      (student : Option Student)
  | allocation_deleted (id : Id)
  | room_created (room : Room)
  | room_updated (room : Room)
  | room_deleted (id : Id)
  | student_created (student : Student)
  | student_updated (student : Student)
  | student_deleted (id : Id)
  deriving DecidableEq, Repr

/-- What serving one request produces. -/
structure Result where
  store : Store
  response : Response
  events : List Event := []
  deriving DecidableEq, Repr

/-- A request answered without any write or event. -/
def reject (s : Store) (status : Nat) (text : String) : Result :=
  { store := s, response := ⟨status, .message text⟩ }

/-! ## routes/allocations.js -/

/-- Body of `POST /api/allocations`; `none` is an absent (empty) field. -/
structure AllocationBody where
  studentId : Option Id
  roomId : Option Id
  notes : Option String := none
  deriving DecidableEq, Repr

/-- Handler `router.post('/')` of allocations.js: create new allocation. -/
def postAllocation (s : Store) (body : AllocationBody) (now : Date) : Result :=
  match body.studentId, body.roomId with
  | some studentId, some roomId =>
    -- Check if student exists
    match s.findStudent studentId with
    | none => reject s 404 "Student not found"
    | some student =>
      -- Check if student already has active allocation
      if student.currentAllocation.isSome then
        reject s 400 "Student already has an active allocation"
      else
        -- Check if room exists
        match s.findRoom roomId with
        | none => reject s 404 "Room not found"
        | some room =>
          -- Check room availability
          if room.currentOccupancy ≥ room.capacity then
            reject s 400 "Room is at full capacity"
          else
            -- Create allocation
            let allocation : Allocation :=
              { id := s.nextId, studentId := studentId, roomId := roomId,
                allocationDate := now, notes := body.notes }
            -- Update room occupancy
            let room := roomPreSave { room with currentOccupancy := room.currentOccupancy + 1 }
            -- Update student
            let student :=
              { student with roomId := some roomId, currentAllocation := some allocation.id }
            { store :=
                { students := saveDoc Student.id s.students student
                  rooms := saveDoc Room.id s.rooms room
                  allocations := s.allocations ++ [allocation]
                  nextId := s.nextId + 1 }
              response := ⟨201, .allocation allocation⟩
              events := [.allocation_created allocation room student] }
  | _, _ => { store := s, response := ⟨400, .errors⟩ }

/-- Handler `router.post('/:id/deallocate')`: deallocate student from room. -/
def deallocate (s : Store) (id : Id) (now : Date) : Result :=
  match s.findAllocation id with
  | none => reject s 404 "Allocation not found"
  | some found =>
    if found.status = .Completed then
      reject s 400 "Allocation already completed"
    else
      -- Update allocation
      let allocation := { found with deallocationDate := some now, status := .Completed }
      -- Update room occupancy
      let roomWrite : Option Room × List Room :=
        match s.findRoom allocation.roomId with
        | some room =>
          if room.currentOccupancy > 0 then
            let room := roomPreSave { room with currentOccupancy := room.currentOccupancy - 1 }
            (some room, saveDoc Room.id s.rooms room)
          else (some room, s.rooms)
        | none => (none, s.rooms)
      -- Update student
      let studentWrite : Option Student × List Student :=
        match s.findStudent allocation.studentId with
        | some student =>
          let student := { student with roomId := none, currentAllocation := none }
          (some student, saveDoc Student.id s.students student)
        | none => (none, s.students)
      { store :=
          { students := studentWrite.2
            rooms := roomWrite.2
            allocations := saveDoc Allocation.id s.allocations allocation
            nextId := s.nextId }
        response := ⟨200, .allocation allocation⟩
        events := [.allocation_completed allocation roomWrite.1 studentWrite.1] }

/-- Handler `router.delete('/:id')` of allocations.js. -/
def deleteAllocation (s : Store) (id : Id) : Result :=
  match s.findAllocation id with
  | none => reject s 404 "Allocation not found"
  | some allocation =>
    -- Only allow deletion of completed allocations
    if allocation.status = .Active then
      reject s 400 "Cannot delete active allocation. Deallocate first."
    else
      { store := { s with allocations := deleteOne Allocation.id s.allocations allocation.id }
        response := ⟨200, .message "Allocation deleted successfully"⟩
        events := [.allocation_deleted id] }

/-! ## routes/rooms.js -/

/-- Body of `POST /api/rooms` and `PUT /api/rooms/:id`.  An absent string is
`""`, an absent number or list is `none`; `floor` distinguishes `undefined`
(`none`) from an explicit `null` (`some none`). -/
structure RoomBody where
  roomNumber : String := ""
  capacity : Option Int := none
  status : String := ""
  floor : Option (Option Int) := none
  amenities : Option (List String) := none
  deriving DecidableEq, Repr

/-- Handler `router.post('/')` of rooms.js: create new room. -/
def postRoom (s : Store) (body : RoomBody) : Result :=
  match body.capacity with
  | none => { store := s, response := ⟨400, .errors⟩ }
  | some capacity =>
    if body.roomNumber = "" ∨ capacity < 1 then
      { store := s, response := ⟨400, .errors⟩ }
    else
      -- Check if room exists
      match s.rooms.find? (fun r => r.roomNumber == body.roomNumber) with
      | some _ => reject s 400 "Room number already exists"
      | none =>
        let room : Room := roomPreSave
          { id := s.nextId, roomNumber := body.roomNumber, capacity := capacity.toNat,
            floor := body.floor.join, amenities := body.amenities.getD [] }
        { store := { s with rooms := s.rooms ++ [room], nextId := s.nextId + 1 }
          response := ⟨201, .room room⟩
          events := [.room_created room] }

/-- Handler `router.put('/:id')` of rooms.js: update room. -/
def putRoom (s : Store) (id : Id) (body : RoomBody) : Result :=
  match s.findRoom id with
  | none => reject s 404 "Room not found"
  | some room =>
    -- Check if new room number already exists
    if body.roomNumber ≠ "" ∧ body.roomNumber ≠ room.roomNumber ∧
        (s.rooms.find? (fun r => r.roomNumber == body.roomNumber)).isSome then
      reject s 400 "Room number already exists"
    else
      let roomNumber := if body.roomNumber ≠ "" then body.roomNumber else room.roomNumber
      let capacity : Int :=
        match body.capacity with
        | some c => if c ≠ 0 then c else room.capacity
        | none => room.capacity
      let status : Option RoomStatus :=
        if body.status ≠ "" then RoomStatus.ofString body.status else some room.status
      let floor := match body.floor with
        | some f => f
        | none => room.floor
      let amenities := body.amenities.getD room.amenities
      -- save(): schema validation (enum, min: 1), then the pre-save hook
      match status with
      | none => { store := s, response := ⟨500, .thrown⟩ }
      | some status =>
        if capacity < 1 then
          { store := s, response := ⟨500, .thrown⟩ }
        else
          let room := roomPreSave
            { room with roomNumber := roomNumber, capacity := capacity.toNat, status := status,
                        floor := floor, amenities := amenities }
          { store := { s with rooms := saveDoc Room.id s.rooms room }
            response := ⟨200, .room room⟩
            events := [.room_updated room] }

/-- Handler `router.delete('/:id')` of rooms.js. -/
def deleteRoom (s : Store) (id : Id) : Result :=
  match s.findRoom id with
  | none => reject s 404 "Room not found"
  | some room =>
    if room.currentOccupancy > 0 then
      reject s 400 "Cannot delete room with occupants"
    else
      { store := { s with rooms := deleteOne Room.id s.rooms room.id }
        response := ⟨200, .message "Room deleted successfully"⟩
        events := [.room_deleted id] }

/-! ## routes/students.js -/

/-- Body of `POST /api/students` and `PUT /api/students/:id`; an absent field
is `""`. -/
structure StudentBody where
  name : String := ""
  studentId : String := ""
  course : String := ""
  contact : String := ""
  email : String := ""
  deriving DecidableEq, Repr

/-- Handler `router.post('/')` of students.js: create new student.  The
express-validator check `isEmail()` is the argument `isEmail`. -/
def postStudent (isEmail : String → Bool) (s : Store) (body : StudentBody) : Result :=
  if body.name = "" ∨ body.studentId = "" ∨ body.course = "" ∨ body.contact = "" ∨
      isEmail body.email = false then
    { store := s, response := ⟨400, .errors⟩ }
  else
    -- Check if student exists
    match s.students.find?
        (fun st => st.studentId == body.studentId || st.email == body.email) with
    | some _ => reject s 400 "Student ID or email already exists"
    | none =>
      let student : Student :=
        { id := s.nextId, name := body.name, studentId := body.studentId,
          course := body.course, contact := body.contact, email := body.email }
      { store := { s with students := s.students ++ [student], nextId := s.nextId + 1 }
        response := ⟨201, .student student⟩
        events := [.student_created student] }

/-- Handler `router.put('/:id')` of students.js: update student. -/
def putStudent (s : Store) (id : Id) (body : StudentBody) : Result :=
  match s.findStudent id with
  | none => reject s 404 "Student not found"
  | some student =>
    -- Check if new studentId or email already exists
    if body.studentId ≠ "" ∧ body.studentId ≠ student.studentId ∧
        (s.students.find? (fun st => st.studentId == body.studentId)).isSome then
      reject s 400 "Student ID already exists"
    else if body.email ≠ "" ∧ body.email ≠ student.email ∧
        (s.students.find? (fun st => st.email == body.email)).isSome then
      reject s 400 "Email already exists"
    else
      let student :=
        { student with
          name := if body.name ≠ "" then body.name else student.name
          studentId := if body.studentId ≠ "" then body.studentId else student.studentId
          course := if body.course ≠ "" then body.course else student.course
          contact := if body.contact ≠ "" then body.contact else student.contact
          email := if body.email ≠ "" then body.email else student.email }
      { store := { s with students := saveDoc Student.id s.students student }
        response := ⟨200, .student student⟩
        events := [.student_updated student] }

/-- Handler `router.delete('/:id')` of students.js. -/
def deleteStudent (s : Store) (id : Id) : Result :=
  match s.findStudent id with
  | none => reject s 404 "Student not found"
  | some student =>
    if student.currentAllocation.isSome then
      reject s 400 "Cannot delete student with active allocation"
    else
      { store := { s with students := deleteOne Student.id s.students student.id }
        response := ⟨200, .message "Student deleted successfully"⟩
        events := [.student_deleted id] }

/-! ## Sequential execution -/

/-- One mutating backend request. -/
inductive Op where
  | postRoom (body : RoomBody)
  | putRoom (id : Id) (body : RoomBody)
  | deleteRoom (id : Id)
  | postStudent (body : StudentBody)
  | putStudent (id : Id) (body : StudentBody)
  | deleteStudent (id : Id)
  | postAllocation (body : AllocationBody) (now : Date)
  | deallocate (id : Id) (now : Date)
  | deleteAllocation (id : Id)
  deriving DecidableEq, Repr

/-- Serve one request. -/
def step (isEmail : String → Bool) (s : Store) : Op → Result
  | .postRoom body => postRoom s body
  | .putRoom id body => putRoom s id body
  | .deleteRoom id => deleteRoom s id
  | .postStudent body => postStudent isEmail s body
  | .putStudent id body => putStudent s id body
  | .deleteStudent id => deleteStudent s id
  | .postAllocation body now => postAllocation s body now
  | .deallocate id now => deallocate s id now
  | .deleteAllocation id => deleteAllocation s id

/-- Serve a list of requests one after the other; the resulting store. -/
def run (isEmail : String → Bool) (s : Store) (ops : List Op) : Store :=
  ops.foldl (fun st op => (step isEmail st op).store) s

/-- The stores reachable from the empty store by serving requests one at a
time. -/
inductive Reachable (isEmail : String → Bool) : Store → Prop where
  | init : Reachable isEmail Store.empty
  | next {s : Store} (op : Op) : Reachable isEmail s → Reachable isEmail (step isEmail s op).store

/-- The `CreateLease` operation on ids: `POST /api/allocations` with both ids
present. -/
def createLease (s : Store) (studentId roomId : Id) (notes : Option String) (now : Date) :
    Result :=
  postAllocation s { studentId := some studentId, roomId := some roomId, notes := notes } now

/-- A sequence of `CreateLease` calls served one after the other. -/
def createLeases (s : Store) (calls : List (Id × Id × Option String × Date)) : Store :=
  calls.foldl (fun st c => (createLease st c.1 c.2.1 c.2.2.1 c.2.2.2).store) s

/-! ## Invariants -/

/-- The room `roomId` exists with capacity `cap`, its occupancy counter equals
its number of Active allocations, and the counter is within the capacity. -/
def RoomWithin (s : Store) (roomId : Id) (cap : Nat) : Prop :=
  ∃ r, s.findRoom roomId = some r ∧ r.capacity = cap ∧
    r.currentOccupancy = s.activeInRoom roomId ∧ r.currentOccupancy ≤ cap

/-- The consistency conditions that every reachable store satisfies: identifiers
are issued by the counter and unique per collection, every occupancy counter
equals the number of Active allocations of its room, Active allocations and
the students' back-references determine each other, and a deallocation date
is present exactly on Completed allocations. -/
structure Consistent (s : Store) : Prop where
  roomIds : ∀ r ∈ s.rooms, r.id < s.nextId
  studentIds : ∀ st ∈ s.students, st.id < s.nextId
  allocationIds : ∀ a ∈ s.allocations, a.id < s.nextId
  allocationRooms : ∀ a ∈ s.allocations, a.roomId < s.nextId
  roomNodup : (s.rooms.map Room.id).Nodup
  studentNodup : (s.students.map Student.id).Nodup
  allocationNodup : (s.allocations.map Allocation.id).Nodup
  occupancy : ∀ r ∈ s.rooms, r.currentOccupancy = s.activeInRoom r.id
  activeHasStudent : ∀ a ∈ s.allocations, a.status = .Active →
    ∃ st ∈ s.students, st.id = a.studentId ∧ st.currentAllocation = some a.id ∧
      st.roomId = some a.roomId
  currentIsActive : ∀ st ∈ s.students, ∀ aid, st.currentAllocation = some aid →
    ∃ a ∈ s.allocations, a.id = aid ∧ a.status = .Active ∧ a.studentId = st.id
  dateIffCompleted : ∀ a ∈ s.allocations, a.deallocationDate.isSome ↔ a.status = .Completed

/-! ## Sample data -/

/-- The email check used in the examples: a non-empty address passes. -/
def sampleIsEmail : String → Bool := fun e => e != ""

/-- Requests creating room `0` (capacity 2) and the students `1` and `2`, then
allocating student `1` to the room (allocation `3`). -/
def sampleOps : List Op :=
  [ .postRoom { roomNumber := "101", capacity := some 2 },
    .postStudent { name := "Asha", studentId := "S1", course := "CS", contact := "1",
                   email := "asha@hostel.test" },
    .postStudent { name := "Ravi", studentId := "S2", course := "EE", contact := "2",
                   email := "ravi@hostel.test" },
    .postAllocation { studentId := some 1, roomId := some 0 } 10 ]

/-- The store after `sampleOps`. -/
def sampleStore : Store := run sampleIsEmail Store.empty sampleOps

/-- Room `0` of `sampleStore`. -/
def sampleRoom : Room :=
  { id := 0, roomNumber := "101", capacity := 2, currentOccupancy := 1 }

/-- Student `1` of `sampleStore`. -/
def sampleStudent : Student :=
  { id := 1, name := "Asha", studentId := "S1", course := "CS", contact := "1",
    email := "asha@hostel.test", roomId := some 0, currentAllocation := some 3 }

/-- Student `2` of `sampleStore`. -/
def sampleStudent2 : Student :=
  { id := 2, name := "Ravi", studentId := "S2", course := "EE", contact := "2",
    email := "ravi@hostel.test" }

/-- Allocation `3` of `sampleStore`. -/
def sampleAllocation : Allocation :=
  { id := 3, studentId := 1, roomId := 0, allocationDate := 10 }

/-- Two further `CreateLease` calls for room `0`: student `2`, then student `1`
again. -/
def sampleCalls : List (Id × Id × Option String × Date) :=
  [(2, 0, none, 20), (1, 0, some "retry", 21)]

/-- Allocation `3` after it was completed at time `30`. -/
def sampleCompleted : Allocation :=
  { sampleAllocation with deallocationDate := some 30, status := .Completed }

/-- The store after `sampleOps` and the completion of allocation `3`. -/
def sampleStoreDone : Store := run sampleIsEmail sampleStore [.deallocate 3 30]

/-- Later requests: student `1` is allocated again, allocation `3` is
deallocated a second time, the new allocation `4` is completed. -/
def sampleLaterOps : List Op :=
  [ .postAllocation { studentId := some 1, roomId := some 0, notes := some "again" } 40,
    .deallocate 3 50,
    .deallocate 4 60 ]

/-- The store after `sampleOps` and the allocation of student `2` to room `0`
(allocation `4`): the room is full. -/
def sampleStoreFull : Store :=
  run sampleIsEmail sampleStore [.postAllocation { studentId := some 2, roomId := some 0 } 11]

/-- Room `0` of `sampleStoreFull`. -/
def sampleRoomFull : Room :=
  { id := 0, roomNumber := "101", capacity := 2, currentOccupancy := 2, status := .Occupied }

/-- The three ways a handler prepares a loaded room `room` for `save()`: one
more occupant (`POST /api/allocations`), one fewer (`deallocate`), or the
edits of a room update, which keep the occupancy, take the status of the
request (the old one when the request has none) and the capacity of the
request (the old one when the request has none or `0`). -/
def RoomWrite (op : Op) (room pre : Room) : Prop :=
  ((∃ body now, op = .postAllocation body now) ∧
    pre = { room with currentOccupancy := room.currentOccupancy + 1 } ∧
    room.currentOccupancy < room.capacity) ∨
  ((∃ id now, op = .deallocate id now) ∧
    pre = { room with currentOccupancy := room.currentOccupancy - 1 } ∧
    0 < room.currentOccupancy) ∨
  (∃ id body, op = .putRoom id body ∧ room.id = id ∧ pre.id = room.id ∧
    pre.currentOccupancy = room.currentOccupancy ∧
    (body.status = "" → pre.status = room.status) ∧
    (body.status ≠ "" → RoomStatus.ofString body.status = some pre.status) ∧
    (∀ c, body.capacity = some c → c ≠ 0 → (pre.capacity : Int) = c) ∧
    ((∀ c, body.capacity = some c → c = 0) → pre.capacity = room.capacity) ∧
    1 ≤ pre.capacity)

/-- A store with room `0` (capacity 1) put under maintenance and student `1`. -/
def sampleStoreMaint : Store :=
  run sampleIsEmail Store.empty
    [ .postRoom { roomNumber := "M1", capacity := some 1 },
      .putRoom 0 { status := "Maintenance" },
      .postStudent { name := "Asha", studentId := "S1", course := "CS", contact := "1",
                     email := "asha@hostel.test" } ]

/-- Room `0` of `sampleStoreMaint`. -/
def sampleRoomMaint : Room :=
  { id := 0, roomNumber := "M1", capacity := 1, status := .Maintenance }

/-- The document a room update of `sampleStoreFull` with capacity `1` and
status `"Available"` hands to the save hook: two occupants, capacity one. -/
def sampleOverfull : Room :=
  { id := 0, roomNumber := "101", capacity := 1, currentOccupancy := 2, status := .Available }

/-- A store with the fresh room `0` (capacity 2) and the unallocated students
`1`, `2` and `3`. -/
def sampleStoreFresh : Store :=
  run sampleIsEmail Store.empty
    [ .postRoom { roomNumber := "201", capacity := some 2 },
      .postStudent { name := "O1", studentId := "S1", course := "CS", contact := "1",
                     email := "o1@hostel.test" },
      .postStudent { name := "O2", studentId := "S2", course := "CS", contact := "2",
                     email := "o2@hostel.test" },
      .postStudent { name := "O3", studentId := "S3", course := "CS", contact := "3",
                     email := "o3@hostel.test" } ]

/-- Room `0` of `sampleStoreFresh`. -/
def sampleRoomFresh : Room :=
  { id := 0, roomNumber := "201", capacity := 2 }

/-- One `CreateLease` call for room `0` by each of the students `1`, `2`, `3`. -/
def sampleCallsFresh : List (Id × Id × Option String × Date) :=
  [(1, 0, none, 10), (2, 0, none, 11), (3, 0, none, 12)]

/-- The three ways a handler prepares a loaded student `student` for
`save()`: the back-references are set (`POST /api/allocations`, only for an
unallocated student), they are cleared (`deallocate` of an Active allocation
of that student), or the profile fields are edited (student update), which
keeps `_id`, `userId` and both back-references. -/
def StudentWrite (s : Store) (op : Op) (student post : Student) : Prop :=
  ((∃ body now, op = .postAllocation body now) ∧ student.currentAllocation = none ∧
    ∃ roomId, s.findRoom roomId ≠ none ∧
      post = { student with roomId := some roomId, currentAllocation := some s.nextId }) ∨
  ((∃ id now found, op = .deallocate id now ∧ s.findAllocation id = some found ∧
      found.status = .Active ∧ found.studentId = student.id) ∧
    post = { student with roomId := none, currentAllocation := none }) ∨
  (∃ id body, op = .putStudent id body ∧ student.id = id ∧ post.id = student.id ∧
    post.userId = student.userId ∧ post.roomId = student.roomId ∧
    post.currentAllocation = student.currentAllocation)

/-- Requests served after student `1` was allocated in `sampleStoreFresh`
(lease `4`): student `2` is allocated (lease `5`), student `1` is renamed,
lease `5` is completed. -/
def sampleRetryOps : List Op :=
  [ .postAllocation { studentId := some 2, roomId := some 0 } 20,
    .putStudent 1 { name := "Renamed" },
    .deallocate 5 30 ]

/-- A store in which allocation `3` is Active while its room `7` and its
student `8` do not exist, next to room `0` whose occupancy counter is `0`
although allocation `4` of student `1` is Active in it. -/
def sampleStoreOrphan : Store :=
  { students := [{ id := 1, name := "Asha", studentId := "S1", course := "CS", contact := "1",
                   email := "asha@hostel.test", roomId := some 0, currentAllocation := some 4 }]
    rooms := [{ id := 0, roomNumber := "101", capacity := 2 }]
    allocations := [{ id := 3, studentId := 8, roomId := 7, allocationDate := 5 },
                    { id := 4, studentId := 1, roomId := 0, allocationDate := 6 }]
    nextId := 9 }

/-- What the save hook guarantees of a stored room: a capacity of at least 1,
status Occupied when the occupancy reaches the capacity, and status Available
or Maintenance when the room is empty. -/
def StatusOk (r : Room) : Prop :=
  1 ≤ r.capacity ∧
  (r.currentOccupancy ≥ r.capacity → r.status = .Occupied) ∧
  (r.currentOccupancy = 0 → r.status = .Available ∨ r.status = .Maintenance)

/-- JSON body of `GET /api/rooms/stats/summary`; `availableBeds` is a
difference of two numbers and may be negative. -/
structure Summary where
  totalRooms : Nat
  availableRooms : Nat
  occupiedRooms : Nat
  maintenanceRooms : Nat
  totalCapacity : Nat
  totalOccupied : Nat
  availableBeds : Int
  deriving DecidableEq, Repr

/-- Count `Room.countDocuments({ status })`. -/
def countDocuments (rooms : List Room) (status : RoomStatus) : Nat :=
  (rooms.filter (fun room => room.status == status)).length

/-- Handler `router.get('/stats/summary')` of rooms.js: room statistics. -/
def statsSummary (s : Store) : Summary :=
  let totalRooms := s.rooms.length
  let availableRooms := countDocuments s.rooms .Available
  let occupiedRooms := countDocuments s.rooms .Occupied
  let maintenanceRooms := countDocuments s.rooms .Maintenance
  let rooms := s.rooms
  let totalCapacity := rooms.foldl (fun sum room => sum + room.capacity) 0
  let totalOccupied := rooms.foldl (fun sum room => sum + room.currentOccupancy) 0
  { totalRooms := totalRooms
    availableRooms := availableRooms
    occupiedRooms := occupiedRooms
    maintenanceRooms := maintenanceRooms
    totalCapacity := totalCapacity
    totalOccupied := totalOccupied
    availableBeds := (totalCapacity : Int) - (totalOccupied : Int) }

/-- The response reports success: `res.json(...)` (200) or
`res.status(201).json(...)`. -/
def Response.succeeded (r : Response) : Prop := r.status = 200 ∨ r.status = 201

/-- The event type that belongs to a request: `room_created` to room creation,
`allocation_completed` to deallocation, and so on; a `*_deleted` event carries
the id of the request. -/
def Op.publishes : Op → Event → Prop
  | .postRoom _, .room_created _ => True
  | .putRoom _ _, .room_updated _ => True
  | .deleteRoom id, .room_deleted id' => id' = id
  | .postStudent _, .student_created _ => True
  | .putStudent _ _, .student_updated _ => True
  | .deleteStudent id, .student_deleted id' => id' = id
  | .postAllocation _ _, .allocation_created _ _ _ => True
  | .deallocate _ _, .allocation_completed _ _ _ => True
  | .deleteAllocation id, .allocation_deleted id' => id' = id
  | _, _ => False

/-- The payload of an event is the state of the store `s`: the documents it
carries are stored in `s`, and no document with the id of a `*_deleted` event
is. -/
def Event.inStore (s : Store) : Event → Prop
  | .allocation_created a r st => a ∈ s.allocations ∧ r ∈ s.rooms ∧ st ∈ s.students
  | .allocation_completed a r st =>
    a ∈ s.allocations ∧ (∀ x, r = some x → x ∈ s.rooms) ∧ (∀ x, st = some x → x ∈ s.students)
  | .allocation_deleted id => ∀ a ∈ s.allocations, a.id ≠ id
  | .room_created r => r ∈ s.rooms
  | .room_updated r => r ∈ s.rooms
  | .room_deleted id => ∀ r ∈ s.rooms, r.id ≠ id
  | .student_created st => st ∈ s.students
  | .student_updated st => st ∈ s.students
  | .student_deleted id => ∀ st ∈ s.students, st.id ≠ id

/-- A result obeys the emission rule for a request: on success exactly one
event, of the request's type and with the stored documents as payload; on
failure no event. -/
def Emits (op : Op) (res : Result) : Prop :=
  (res.response.succeeded → ∃ e, res.events = [e] ∧ op.publishes e ∧ e.inStore res.store) ∧
  (¬ res.response.succeeded → res.events = [])

/-- Invariant I1 in the spec's words: for every occupant, at most one lease
with status Active references it. -/
def I1 (s : Store) : Prop :=
  ∀ st ∈ s.students, s.activeOfStudent st.id ≤ 1

/-- Invariant I2 in the spec's words: a room's `currentOccupancy` equals the
count of Active leases referencing it and is within `[0, capacity]`. -/
def I2 (s : Store) : Prop :=
  ∀ r ∈ s.rooms, r.currentOccupancy = s.activeInRoom r.id ∧
    0 ≤ r.currentOccupancy ∧ r.currentOccupancy ≤ r.capacity

/-- Invariant I3 in the spec's words: an occupant's `currentLease` is non-null
iff exactly one Active lease references the occupant, and in that case the
occupant's room equals that lease's room. -/
def I3 (s : Store) : Prop :=
  ∀ st ∈ s.students,
    (st.currentAllocation ≠ none ↔ s.activeOfStudent st.id = 1) ∧
    (st.currentAllocation ≠ none →
      ∀ a ∈ s.allocations, a.status = .Active → a.studentId = st.id →
        st.roomId = some a.roomId)

instance decidableI1 (s : Store) : Decidable (I1 s) := by
  unfold I1; infer_instance

instance decidableI2 (s : Store) : Decidable (I2 s) := by
  unfold I2; infer_instance

instance decidableI3 (s : Store) : Decidable (I3 s) := by
  unfold I3; infer_instance

/-- A store satisfying I1, I2 and I3 in which the unallocated student `1`
still carries a room reference. -/
def sampleStoreStale : Store :=
  { students := [{ id := 1, name := "Asha", studentId := "S1", course := "CS", contact := "1",
                   email := "asha@hostel.test", roomId := some 0 }]
    rooms := [{ id := 0, roomNumber := "101", capacity := 2 }]
    allocations := []
    nextId := 2 }

/-! ## Interleaved execution of `POST /api/allocations`

The handler awaits five store operations in turn: `Student.findById`,
`Room.findById`, `Allocation.create`, `room.save()` and `student.save()` (the
closing read for the response and the `io.emit` belong to the last step).
Between two awaits another request may be served, so one handler run is a
sequence of atomic steps, each a store operation together with the code that
follows it up to the next await; the documents loaded so far travel with the
handler. -/

/-- Arguments of one `CreateLease` call. -/
structure CreateCall where
  studentId : Id
  roomId : Id
  notes : Option String := none
  now : Date
  deriving DecidableEq, Repr

/-- The store operation a handler run is about to await, with the documents
it holds in memory, or the response it has sent. -/
inductive CreatePhase where
  | findStudent
  | findRoom (student : Student)
  | createAllocation (student : Student) (room : Room)
  | saveRoom (student : Student) (room : Room) (allocation : Allocation)
  | saveStudent (student : Student) (room : Room) (allocation : Allocation)
  | done (response : Response) (events : List Event)
  deriving DecidableEq, Repr

/-- One atomic step of a handler run of `POST /api/allocations`. -/
def createPhaseStep (c : CreateCall) (s : Store) : CreatePhase → Store × CreatePhase
  | .findStudent =>
    match s.findStudent c.studentId with
    | none => (s, .done ⟨404, .message "Student not found"⟩ [])
    | some student =>
      if student.currentAllocation.isSome then
        (s, .done ⟨400, .message "Student already has an active allocation"⟩ [])
      else (s, .findRoom student)
  | .findRoom student =>
    match s.findRoom c.roomId with
    | none => (s, .done ⟨404, .message "Room not found"⟩ [])
    | some room =>
      if room.currentOccupancy ≥ room.capacity then
        (s, .done ⟨400, .message "Room is at full capacity"⟩ [])
      else (s, .createAllocation student room)
  | .createAllocation student room =>
    let allocation : Allocation :=
      { id := s.nextId, studentId := c.studentId, roomId := c.roomId,
        allocationDate := c.now, notes := c.notes }
    ({ s with allocations := s.allocations ++ [allocation], nextId := s.nextId + 1 },
      .saveRoom student room allocation)
  | .saveRoom student room allocation =>
    let room := roomPreSave { room with currentOccupancy := room.currentOccupancy + 1 }
    ({ s with rooms := saveDoc Room.id s.rooms room }, .saveStudent student room allocation)
  | .saveStudent student room allocation =>
    let student :=
      { student with roomId := some c.roomId, currentAllocation := some allocation.id }
    ({ s with students := saveDoc Student.id s.students student },
      .done ⟨201, .allocation allocation⟩ [.allocation_created allocation room student])
  | .done response events => (s, .done response events)

/-- The first `n` steps of one handler run. -/
def createPhaseRun (c : CreateCall) : Nat → Store × CreatePhase → Store × CreatePhase
  | 0, state => state
  | n + 1, state => createPhaseRun c n (createPhaseStep c state.1 state.2)

/-- Two handler runs in flight over one store. -/
structure InFlight where
  store : Store
  first : CreatePhase
  second : CreatePhase
  deriving DecidableEq, Repr

/-- One scheduling decision: `true` lets the first run take its next step,
`false` the second. -/
def interleaveStep (c1 c2 : CreateCall) (state : InFlight) (pick : Bool) : InFlight :=
  if pick then
    { state with store := (createPhaseStep c1 state.store state.first).1
                 first := (createPhaseStep c1 state.store state.first).2 }
  else
    { state with store := (createPhaseStep c2 state.store state.second).1
                 second := (createPhaseStep c2 state.store state.second).2 }

/-- Execution of two concurrent handler runs under a schedule. -/
def interleave (c1 c2 : CreateCall) (s : Store) (schedule : List Bool) : InFlight :=
  schedule.foldl (interleaveStep c1 c2) { store := s, first := .findStudent, second := .findStudent }

/-- A store with the empty room `0` of capacity 1 and the unallocated students
`1` and `2`. -/
def sampleStoreOne : Store :=
  run sampleIsEmail Store.empty
    [ .postRoom { roomNumber := "S1", capacity := some 1 },
      .postStudent { name := "O1", studentId := "S1", course := "CS", contact := "1",
                     email := "o1@hostel.test" },
      .postStudent { name := "O2", studentId := "S2", course := "CS", contact := "2",
                     email := "o2@hostel.test" } ]

/-- The schedule in which both runs load their student and the room before
either writes. -/
def sampleSchedule : List Bool :=
  [true, true, false, false, true, true, true, false, false, false]

/-- The schedule that serves one call to its end (five steps) and then the
other; `firstGoes` tells whether the first call is the one served first. -/
def serialSchedule (firstGoes : Bool) : List Bool :=
  List.replicate 5 firstGoes ++ List.replicate 5 (!firstGoes)

/-! ## Store errors during the writes of a lease handler

Both lease handlers run inside `try { ... } catch (error) { res.status(500) }`
and await their record writes one after the other. When a write throws, the
writes already made stay in the store, the remaining code of the `try` block
(further writes, `io.emit`, the success response) is skipped and the `catch`
answers 500. -/

/-- The record write of a lease handler at which the store throws. -/
inductive FailingWrite where
  /-- `Allocation.create(...)` of the create handler, `allocation.save()` of
  the deallocate handler -/
  | allocation
  /-- `room.save()` -/
  | room
  /-- `student.save()` -/
  | student
  deriving DecidableEq, Repr

/-- Handler `router.post('/')` of allocations.js when the store throws at the
write `fail`. -/
def postAllocationFailing (s : Store) (body : AllocationBody) (now : Date)
    (fail : FailingWrite) : Result :=
  match body.studentId, body.roomId with
  | some studentId, some roomId =>
    match s.findStudent studentId with
    | none => reject s 404 "Student not found"
    | some student =>
      if student.currentAllocation.isSome then
        reject s 400 "Student already has an active allocation"
      else
        match s.findRoom roomId with
        | none => reject s 404 "Room not found"
        | some room =>
          if room.currentOccupancy ≥ room.capacity then
            reject s 400 "Room is at full capacity"
          else
            let allocation : Allocation :=
              { id := s.nextId, studentId := studentId, roomId := roomId,
                allocationDate := now, notes := body.notes }
            let room := roomPreSave { room with currentOccupancy := room.currentOccupancy + 1 }
            match fail with
            | .allocation =>
              -- `Allocation.create` throws
              { store := s, response := ⟨500, .thrown⟩ }
            | .room =>
              -- the allocation is created, `room.save()` throws
              { store := { s with allocations := s.allocations ++ [allocation]
                                  nextId := s.nextId + 1 }
                response := ⟨500, .thrown⟩ }
            | .student =>
              -- the allocation is created, the room is saved, `student.save()` throws
              { store := { s with rooms := saveDoc Room.id s.rooms room
                                  allocations := s.allocations ++ [allocation]
                                  nextId := s.nextId + 1 }
                response := ⟨500, .thrown⟩ }
  | _, _ => { store := s, response := ⟨400, .errors⟩ }

/-- Handler `router.post('/:id/deallocate')` when the store throws at the
write `fail`; a write that the handler does not attempt (room missing or at
occupancy 0, student missing) cannot throw, and the handler then runs as
`deallocate`. -/
def deallocateFailing (s : Store) (id : Id) (now : Date) (fail : FailingWrite) : Result :=
  match s.findAllocation id with
  | none => reject s 404 "Allocation not found"
  | some found =>
    if found.status = .Completed then
      reject s 400 "Allocation already completed"
    else
      let allocation := { found with deallocationDate := some now, status := .Completed }
      match fail with
      | .allocation =>
        -- `allocation.save()` throws
        { store := s, response := ⟨500, .thrown⟩ }
      | .room =>
        match s.findRoom allocation.roomId with
        | some room =>
          if room.currentOccupancy > 0 then
            -- the allocation is saved, `room.save()` throws
            { store := { s with allocations := saveDoc Allocation.id s.allocations allocation }
              response := ⟨500, .thrown⟩ }
          else deallocate s id now
        | none => deallocate s id now
      | .student =>
        let rooms : List Room :=
          match s.findRoom allocation.roomId with
          | some room =>
            if room.currentOccupancy > 0 then
              saveDoc Room.id s.rooms
                (roomPreSave { room with currentOccupancy := room.currentOccupancy - 1 })
            else s.rooms
          | none => s.rooms
        match s.findStudent allocation.studentId with
        | some _ =>
          -- the allocation and the room are saved, `student.save()` throws
          { store := { s with rooms := rooms
                              allocations := saveDoc Allocation.id s.allocations allocation }
            response := ⟨500, .thrown⟩ }
        | none => deallocate s id now

/-! ## Store lemmas -/

section StoreLemmas

variable {α : Type} (key : α → Id)

theorem findById_some {docs : List α} {id : Id} {d : α}
    (h : findById key docs id = some d) : key d = id ∧ d ∈ docs := by
  unfold findById at h
  exact ⟨by simpa using List.find?_some h, List.mem_of_find?_eq_some h⟩

theorem findById_eq_none {docs : List α} {id : Id} :
    findById key docs id = none ↔ ∀ d ∈ docs, key d ≠ id := by
  unfold findById
  simp

theorem findById_isSome_of_mem {docs : List α} {d : α} (h : d ∈ docs) :
    ∃ d0, findById key docs (key d) = some d0 := by
  cases hf : findById key docs (key d) with
  | some d0 => exact ⟨d0, rfl⟩
  | none => exact absurd rfl ((findById_eq_none key).1 hf d h)

theorem findById_saveDoc (docs : List α) (doc : α) (id : Id) :
    findById key (saveDoc key docs doc) id =
      if id = key doc then (findById key docs id).map (fun _ => doc)
      else findById key docs id := by
  unfold findById saveDoc
  induction docs with
  | nil => simp
  | cons d ds ih =>
    simp only [List.map_cons, List.find?_cons]
    by_cases hid : id = key doc
    · subst hid
      simp only [if_true] at ih ⊢
      by_cases hd : key d = key doc
      · simp [hd]
      · have h2 : (key d == key doc) = false := by simpa using hd
        simp [hd, h2, ih]
    · simp only [hid, if_false] at ih ⊢
      by_cases hd : key d = key doc
      · have h1 : (key doc == id) = false := by simpa using fun h => hid h.symm
        simp [hd, h1, ih]
      · simp [hd, ih]

theorem findById_saveDoc_self {docs : List α} {doc d0 : α}
    (h : findById key docs (key doc) = some d0) :
    findById key (saveDoc key docs doc) (key doc) = some doc := by
  rw [findById_saveDoc, if_pos rfl, h]; rfl

theorem findById_saveDoc_ne {docs : List α} {doc : α} {id : Id} (h : id ≠ key doc) :
    findById key (saveDoc key docs doc) id = findById key docs id := by
  rw [findById_saveDoc, if_neg h]

theorem findById_append (docs : List α) (doc : α) (id : Id) :
    findById key (docs ++ [doc]) id =
      match findById key docs id with
      | some d => some d
      | none => if key doc = id then some doc else none := by
  unfold findById
  rw [List.find?_append]
  cases h : List.find? (fun d => key d == id) docs with
  | some d => simp
  | none =>
    by_cases hk : key doc = id
    · simp [hk]
    · simp [hk]

theorem findById_deleteOne (docs : List α) (id0 id : Id) :
    findById key (deleteOne key docs id0) id =
      if id = id0 then none else findById key docs id := by
  unfold findById deleteOne
  induction docs with
  | nil => simp
  | cons d ds ih =>
    by_cases hid : id = id0
    · subst hid
      simp only [if_true] at ih ⊢
      by_cases hd : key d = id
      · have h1 : (key d != id) = false := by simp [hd]
        rw [List.filter_cons, h1]
        simp [ih]
      · have h1 : (key d != id) = true := by simp [hd]
        have h2 : (key d == id) = false := by simpa using hd
        rw [List.filter_cons, h1]
        simp [List.find?_cons, h2, ih]
    · simp only [hid, if_false] at ih ⊢
      by_cases hd : key d = id0
      · have h1 : (key d != id0) = false := by simp [hd]
        have h2 : (key d == id) = false := by
          simpa [hd] using fun h : id0 = id => hid h.symm
        rw [List.filter_cons, h1]
        simp [List.find?_cons, h2, ih]
      · have h1 : (key d != id0) = true := by simp [hd]
        rw [List.filter_cons, h1]
        simp [List.find?_cons, ih]

theorem mem_saveDoc {docs : List α} {doc d : α} :
    d ∈ saveDoc key docs doc ↔
      (d ∈ docs ∧ key d ≠ key doc) ∨ (d = doc ∧ ∃ d0 ∈ docs, key d0 = key doc) := by
  unfold saveDoc
  simp only [List.mem_map]
  constructor
  · rintro ⟨d0, hd0, hEq⟩
    by_cases hk : key d0 = key doc
    · rw [if_pos hk] at hEq
      exact Or.inr ⟨hEq.symm, d0, hd0, hk⟩
    · rw [if_neg hk] at hEq
      subst hEq
      exact Or.inl ⟨hd0, hk⟩
  · rintro (⟨hd, hk⟩ | ⟨rfl, d0, hd0, hk⟩)
    · exact ⟨d, hd, by rw [if_neg hk]⟩
    · exact ⟨d0, hd0, by rw [if_pos hk]⟩

theorem mem_deleteOne {docs : List α} {id : Id} {d : α} :
    d ∈ deleteOne key docs id ↔ d ∈ docs ∧ key d ≠ id := by
  unfold deleteOne
  simp

theorem map_key_saveDoc (docs : List α) (doc : α) :
    (saveDoc key docs doc).map key = docs.map key := by
  unfold saveDoc
  rw [List.map_map]
  apply List.map_congr_left
  intro d _
  by_cases hk : key d = key doc
  · simp [hk]
  · simp [hk]

end StoreLemmas

@[simp] theorem roomPreSave_id (r : Room) : (roomPreSave r).id = r.id := by
  unfold roomPreSave; split_ifs <;> rfl

@[simp] theorem roomPreSave_capacity (r : Room) : (roomPreSave r).capacity = r.capacity := by
  unfold roomPreSave; split_ifs <;> rfl

@[simp] theorem roomPreSave_currentOccupancy (r : Room) :
    (roomPreSave r).currentOccupancy = r.currentOccupancy := by
  unfold roomPreSave; split_ifs <;> rfl

@[simp] theorem roomPreSave_roomNumber (r : Room) :
    (roomPreSave r).roomNumber = r.roomNumber := by
  unfold roomPreSave; split_ifs <;> rfl

/-! ## Case analysis of the allocation handlers -/

/-- A `POST /api/allocations` request is either answered without a write, or
all four checks pass and the three writes are made. -/
theorem postAllocation_cases (s : Store) (body : AllocationBody) (now : Date) :
    ((postAllocation s body now).store = s ∧ (postAllocation s body now).response.status ≠ 201)
    ∨ ∃ studentId roomId student room,
        body.studentId = some studentId ∧ body.roomId = some roomId ∧
        s.findStudent studentId = some student ∧ student.currentAllocation = none ∧
        s.findRoom roomId = some room ∧ room.currentOccupancy < room.capacity ∧
        (postAllocation s body now).response.status = 201 ∧
        (postAllocation s body now).store =
          { students := saveDoc Student.id s.students
              { student with roomId := some roomId, currentAllocation := some s.nextId }
            rooms := saveDoc Room.id s.rooms
              (roomPreSave { room with currentOccupancy := room.currentOccupancy + 1 })
            allocations := s.allocations ++
              [{ id := s.nextId, studentId := studentId, roomId := roomId,
                 allocationDate := now, notes := body.notes }]
            nextId := s.nextId + 1 } := by
  unfold postAllocation
  cases hs : body.studentId with
  | none => left; simp
  | some studentId =>
    cases hr : body.roomId with
    | none => left; simp
    | some roomId =>
      simp only
      cases hst : s.findStudent studentId with
      | none => left; simp [reject]
      | some student =>
        simp only
        cases hca : student.currentAllocation with
        | some aid => left; simp [reject]
        | none =>
          simp only [Option.isSome_none, Bool.false_eq_true, if_false]
          cases hrm : s.findRoom roomId with
          | none => left; simp [reject]
          | some room =>
            simp only
            by_cases hfull : room.currentOccupancy ≥ room.capacity
            · left; simp [hfull, reject]
            · right
              refine ⟨studentId, roomId, student, room, rfl, rfl, hst, hca, hrm,
                Nat.lt_of_not_le hfull, ?_, ?_⟩
              · simp [hfull]
              · simp [hfull]

theorem activeInRoom_append (s : Store) (a : Allocation) (roomId : Id) (st : List Student)
    (rs : List Room) (n : Id) :
    Store.activeInRoom
      { students := st, rooms := rs, allocations := s.allocations ++ [a], nextId := n } roomId =
      s.activeInRoom roomId + (if a.status = .Active ∧ a.roomId = roomId then 1 else 0) := by
  unfold Store.activeInRoom
  simp only [List.filter_append, List.length_append]
  by_cases h : a.status = .Active ∧ a.roomId = roomId
  · simp [List.filter_cons, h]
  · simp [List.filter_cons, h]

theorem createLease_roomWithin (s : Store) (roomId : Id) (cap : Nat)
    (h : RoomWithin s roomId cap) (studentId rid : Id) (notes : Option String) (now : Date) :
    RoomWithin (createLease s studentId rid notes now).store roomId cap := by
  unfold createLease
  rcases postAllocation_cases s ⟨some studentId, some rid, notes⟩ now with
    ⟨hs, _⟩ | ⟨sid, rid2, student, room, hsid, hrid, _, _, hroom, hlt, _, hs⟩
  · rw [hs]; exact h
  · simp only [Option.some.injEq] at hsid hrid
    subst hsid hrid
    obtain ⟨r, hr, hcap, hocc, hle⟩ := h
    rw [hs]
    by_cases hEq : rid = roomId
    · subst hEq
      have hrr : room = r := by
        have := hroom.symm.trans hr
        exact Option.some.inj this
      subst hrr
      have hkey : room.id = rid := (findById_some Room.id hroom).1
      refine ⟨roomPreSave { room with currentOccupancy := room.currentOccupancy + 1 }, ?_, ?_, ?_, ?_⟩
      · have h0 : findById Room.id s.rooms
            (Room.id (roomPreSave { room with currentOccupancy := room.currentOccupancy + 1 }))
            = some room := by
          simpa [hkey] using hroom
        have := findById_saveDoc_self Room.id h0
        simpa [Store.findRoom, hkey] using this
      · simpa using hcap
      · rw [activeInRoom_append]
        simp [hocc]
      · simp only [roomPreSave_currentOccupancy]
        omega
    · have hkey : room.id = rid := (findById_some Room.id hroom).1
      refine ⟨r, ?_, hcap, ?_, hle⟩
      · have hne : roomId ≠
            Room.id (roomPreSave { room with currentOccupancy := room.currentOccupancy + 1 }) := by
          simpa [hkey] using fun h : roomId = rid => hEq h.symm
        have := @findById_saveDoc_ne Room Room.id s.rooms _ _ hne
        simpa [Store.findRoom] using this.trans hr
      · rw [activeInRoom_append]
        simp [hocc, hEq]

theorem createLeases_roomWithin (calls : List (Id × Id × Option String × Date)) :
    ∀ (s : Store) (roomId : Id) (cap : Nat), RoomWithin s roomId cap →
      RoomWithin (createLeases s calls) roomId cap := by
  induction calls with
  | nil => intro s roomId cap h; exact h
  | cons c cs ih =>
    intro s roomId cap h
    unfold createLeases
    rw [List.foldl_cons]
    exact ih _ roomId cap (createLease_roomWithin s roomId cap h c.1 c.2.1 c.2.2.1 c.2.2.2)

/-- C1 (capacity, P1): starting from a store in which a room's occupancy
counter equals its number of Active allocations and is at most its capacity,
after any number `k` of the calls of any sequence of `CreateLease` calls the
room still exists with the same capacity and the number of Active allocations
referencing it is at most that capacity. -/
theorem capacity_never_exceeded (s : Store) (roomId : Id) (room : Room)
    (hroom : s.findRoom roomId = some room)
    (hocc : room.currentOccupancy = s.activeInRoom roomId)
    (hcap : room.currentOccupancy ≤ room.capacity)
    (calls : List (Id × Id × Option String × Date)) (k : Nat) :
    ∃ room', (createLeases s (calls.take k)).findRoom roomId = some room' ∧
      room'.capacity = room.capacity ∧
      (createLeases s (calls.take k)).activeInRoom roomId ≤ room.capacity := by
  obtain ⟨r, hr, hc, ho, hle⟩ :=
    createLeases_roomWithin (calls.take k) s roomId room.capacity ⟨room, hroom, rfl, hocc, hcap⟩
  exact ⟨r, hr, hc, by omega⟩

/-! ## Preservation of consistency: rooms and students -/

theorem nodup_key_eq {α : Type} (key : α → Id) {docs : List α}
    (h : (docs.map key).Nodup) {a b : α} (ha : a ∈ docs) (hb : b ∈ docs)
    (hk : key a = key b) : a = b :=
  List.inj_on_of_nodup_map h ha hb hk

theorem nodup_key_append {α : Type} (key : α → Id) {docs : List α} {doc : α}
    (h : (docs.map key).Nodup) (hfresh : ∀ d ∈ docs, key d ≠ key doc) :
    ((docs ++ [doc]).map key).Nodup := by
  rw [List.map_append, List.map_singleton]
  refine List.Nodup.append h (List.nodup_singleton _) ?_
  intro x hx hx2
  simp only [List.mem_singleton] at hx2
  obtain ⟨d, hd, rfl⟩ := List.mem_map.1 hx
  exact hfresh d hd hx2

theorem nodup_key_deleteOne {α : Type} (key : α → Id) {docs : List α} (id : Id)
    (h : (docs.map key).Nodup) : ((deleteOne key docs id).map key).Nodup := by
  unfold deleteOne
  exact List.Nodup.sublist (List.Sublist.map key (List.filter_sublist docs)) h

theorem consistent_empty : Consistent Store.empty := by
  constructor <;> simp [Store.empty]

theorem postRoom_consistent (s : Store) (body : RoomBody) (h : Consistent s) :
    Consistent (postRoom s body).store := by
  unfold postRoom
  cases hc : body.capacity with
  | none => exact h
  | some capacity =>
    simp only
    split_ifs with hv
    · exact h
    · cases hf : s.rooms.find? (fun r => r.roomNumber == body.roomNumber) with
      | some r0 => exact h
      | none =>
        simp only
        have hlt : ∀ {n : Nat}, n < s.nextId → n < s.nextId + 1 := fun hn => Nat.lt_succ_of_lt hn
        constructor
        · intro r hr
          simp only [List.mem_append, List.mem_singleton] at hr
          rcases hr with hr | rfl
          · exact hlt (h.roomIds r hr)
          · simp
        · intro st hst; exact hlt (h.studentIds st hst)
        · intro a ha; exact hlt (h.allocationIds a ha)
        · intro a ha; exact hlt (h.allocationRooms a ha)
        · apply nodup_key_append Room.id h.roomNodup
          intro d hd
          simpa using Nat.ne_of_lt (h.roomIds d hd)
        · exact h.studentNodup
        · exact h.allocationNodup
        · intro r hr
          simp only [List.mem_append, List.mem_singleton] at hr
          rcases hr with hr | rfl
          · exact h.occupancy r hr
          · simp only [roomPreSave_currentOccupancy, roomPreSave_id]
            symm
            unfold Store.activeInRoom
            simp only [List.length_eq_zero, List.filter_eq_nil_iff]
            intro a ha
            have := h.allocationRooms a ha
            simp only [decide_eq_true_eq, not_and]
            intro _
            exact Nat.ne_of_lt this
        · exact h.activeHasStudent
        · exact h.currentIsActive
        · exact h.dateIffCompleted

theorem putRoom_cases (s : Store) (id : Id) (body : RoomBody) :
    (putRoom s id body).store = s ∨
    ∃ room room', s.findRoom id = some room ∧ room'.id = room.id ∧
      room'.currentOccupancy = room.currentOccupancy ∧
      (putRoom s id body).store = { s with rooms := saveDoc Room.id s.rooms room' } := by
  unfold putRoom
  cases hf : s.findRoom id with
  | none => left; rfl
  | some room =>
    simp only
    by_cases h1 : body.roomNumber ≠ "" ∧ body.roomNumber ≠ room.roomNumber ∧
        (s.rooms.find? (fun r => r.roomNumber == body.roomNumber)).isSome
    · left; rw [if_pos h1]; rfl
    · rw [if_neg h1]
      split
      · left; rfl
      · split
        · left; rfl
        · right
          exact ⟨room, _, rfl, by simp, by simp, rfl⟩

theorem putRoom_consistent (s : Store) (id : Id) (body : RoomBody) (h : Consistent s) :
    Consistent (putRoom s id body).store := by
  rcases putRoom_cases s id body with hs | ⟨room, room', hf, hid, hocc, hs⟩
  · rw [hs]; exact h
  · rw [hs]
    have hroom := findById_some Room.id hf
    constructor
    · intro r hr
      rcases (mem_saveDoc Room.id).1 hr with ⟨hr, _⟩ | ⟨rfl, _⟩
      · exact h.roomIds r hr
      · rw [hid]; exact h.roomIds room hroom.2
    · exact h.studentIds
    · exact h.allocationIds
    · exact h.allocationRooms
    · simp only [map_key_saveDoc]; exact h.roomNodup
    · exact h.studentNodup
    · exact h.allocationNodup
    · intro r hr
      rcases (mem_saveDoc Room.id).1 hr with ⟨hr, _⟩ | ⟨rfl, _⟩
      · exact h.occupancy r hr
      · rw [hid, hocc]; exact h.occupancy room hroom.2
    · exact h.activeHasStudent
    · exact h.currentIsActive
    · exact h.dateIffCompleted

theorem deleteRoom_consistent (s : Store) (id : Id) (h : Consistent s) :
    Consistent (deleteRoom s id).store := by
  unfold deleteRoom
  cases hf : s.findRoom id with
  | none => exact h
  | some room =>
    simp only
    split_ifs with h1
    · exact h
    · constructor
      · intro r hr; exact h.roomIds r ((mem_deleteOne Room.id).1 hr).1
      · exact h.studentIds
      · exact h.allocationIds
      · exact h.allocationRooms
      · exact nodup_key_deleteOne Room.id _ h.roomNodup
      · exact h.studentNodup
      · exact h.allocationNodup
      · intro r hr; exact h.occupancy r ((mem_deleteOne Room.id).1 hr).1
      · exact h.activeHasStudent
      · exact h.currentIsActive
      · exact h.dateIffCompleted

theorem postStudent_cases (isEmail : String → Bool) (s : Store) (body : StudentBody) :
    (postStudent isEmail s body).store = s ∨
    ∃ student : Student, student.id = s.nextId ∧ student.currentAllocation = none ∧
      (postStudent isEmail s body).store =
        { s with students := s.students ++ [student], nextId := s.nextId + 1 } := by
  unfold postStudent
  split_ifs with hv
  · left; rfl
  · split
    · left; rfl
    · right; exact ⟨_, rfl, rfl, rfl⟩

theorem postStudent_consistent (isEmail : String → Bool) (s : Store) (body : StudentBody)
    (h : Consistent s) : Consistent (postStudent isEmail s body).store := by
  rcases postStudent_cases isEmail s body with hs | ⟨student, hid, hcur, hs⟩
  · rw [hs]; exact h
  · rw [hs]
    have hlt : ∀ {n : Nat}, n < s.nextId → n < s.nextId + 1 := fun hn => Nat.lt_succ_of_lt hn
    constructor
    · intro r hr; exact hlt (h.roomIds r hr)
    · intro st hst
      simp only [List.mem_append, List.mem_singleton] at hst
      rcases hst with hst | rfl
      · exact hlt (h.studentIds st hst)
      · rw [hid]; exact Nat.lt_succ_self _
    · intro a ha; exact hlt (h.allocationIds a ha)
    · intro a ha; exact hlt (h.allocationRooms a ha)
    · exact h.roomNodup
    · apply nodup_key_append Student.id h.studentNodup
      intro d hd
      rw [hid]
      exact Nat.ne_of_lt (h.studentIds d hd)
    · exact h.allocationNodup
    · exact h.occupancy
    · intro a ha hact
      obtain ⟨st, hst, h1, h2, h3⟩ := h.activeHasStudent a ha hact
      exact ⟨st, List.mem_append_left _ hst, h1, h2, h3⟩
    · intro st hst aid hc
      simp only [List.mem_append, List.mem_singleton] at hst
      rcases hst with hst | rfl
      · exact h.currentIsActive st hst aid hc
      · rw [hcur] at hc; exact absurd hc (by simp)
    · exact h.dateIffCompleted

theorem putStudent_cases (s : Store) (id : Id) (body : StudentBody) :
    (putStudent s id body).store = s ∨
    ∃ student student', s.findStudent id = some student ∧ student'.id = student.id ∧
      student'.roomId = student.roomId ∧
      student'.currentAllocation = student.currentAllocation ∧
      (putStudent s id body).store =
        { s with students := saveDoc Student.id s.students student' } := by
  unfold putStudent
  cases hf : s.findStudent id with
  | none => left; rfl
  | some student =>
    simp only
    by_cases h1 : body.studentId ≠ "" ∧ body.studentId ≠ student.studentId ∧
        (s.students.find? (fun st => st.studentId == body.studentId)).isSome
    · left; rw [if_pos h1]; rfl
    · rw [if_neg h1]
      by_cases h2 : body.email ≠ "" ∧ body.email ≠ student.email ∧
          (s.students.find? (fun st => st.email == body.email)).isSome
      · left; rw [if_pos h2]; rfl
      · rw [if_neg h2]
        right
        refine ⟨student, _, rfl, ?_, ?_, ?_, rfl⟩ <;> rfl

theorem putStudent_consistent (s : Store) (id : Id) (body : StudentBody) (h : Consistent s) :
    Consistent (putStudent s id body).store := by
  rcases putStudent_cases s id body with hs | ⟨student, student', hf, hid, hroom, hcur, hs⟩
  · rw [hs]; exact h
  · rw [hs]
    have hstu := findById_some Student.id hf
    constructor
    · exact h.roomIds
    · intro st hst
      rcases (mem_saveDoc Student.id).1 hst with ⟨hst, _⟩ | ⟨rfl, _⟩
      · exact h.studentIds st hst
      · rw [hid]; exact h.studentIds student hstu.2
    · exact h.allocationIds
    · exact h.allocationRooms
    · exact h.roomNodup
    · simp only [map_key_saveDoc]; exact h.studentNodup
    · exact h.allocationNodup
    · exact h.occupancy
    · intro a ha hact
      obtain ⟨st, hst, h1, h2, h3⟩ := h.activeHasStudent a ha hact
      by_cases hk : st.id = student'.id
      · have hEq : st = student :=
          nodup_key_eq Student.id h.studentNodup hst hstu.2 (hk.trans hid)
        subst hEq
        refine ⟨student', (mem_saveDoc Student.id).2 (Or.inr ⟨rfl, st, hst, hk⟩), ?_, ?_, ?_⟩
        · rw [hid]; exact h1
        · rw [hcur]; exact h2
        · rw [hroom]; exact h3
      · exact ⟨st, (mem_saveDoc Student.id).2 (Or.inl ⟨hst, hk⟩), h1, h2, h3⟩
    · intro st hst aid hc
      rcases (mem_saveDoc Student.id).1 hst with ⟨hst, _⟩ | ⟨rfl, _⟩
      · exact h.currentIsActive st hst aid hc
      · rw [hcur] at hc
        rw [hid]
        exact h.currentIsActive student hstu.2 aid hc
    · exact h.dateIffCompleted

theorem deleteStudent_cases (s : Store) (id : Id) :
    (deleteStudent s id).store = s ∨
    ∃ student, s.findStudent id = some student ∧ student.currentAllocation = none ∧
      (deleteStudent s id).store =
        { s with students := deleteOne Student.id s.students student.id } := by
  unfold deleteStudent
  cases hf : s.findStudent id with
  | none => left; rfl
  | some student =>
    simp only
    cases hc : student.currentAllocation with
    | some aid => left; simp [reject]
    | none => right; exact ⟨student, rfl, hc, by simp⟩

theorem deleteStudent_consistent (s : Store) (id : Id) (h : Consistent s) :
    Consistent (deleteStudent s id).store := by
  rcases deleteStudent_cases s id with hs | ⟨student, hf, hcur, hs⟩
  · rw [hs]; exact h
  · rw [hs]
    have hstu := findById_some Student.id hf
    constructor
    · exact h.roomIds
    · intro st hst; exact h.studentIds st ((mem_deleteOne Student.id).1 hst).1
    · exact h.allocationIds
    · exact h.allocationRooms
    · exact h.roomNodup
    · exact nodup_key_deleteOne Student.id _ h.studentNodup
    · exact h.allocationNodup
    · exact h.occupancy
    · intro a ha hact
      obtain ⟨st, hst, h1, h2, h3⟩ := h.activeHasStudent a ha hact
      refine ⟨st, (mem_deleteOne Student.id).2 ⟨hst, ?_⟩, h1, h2, h3⟩
      intro hk
      have hEq : st = student := nodup_key_eq Student.id h.studentNodup hst hstu.2 hk
      rw [hEq, hcur] at h2
      exact absurd h2 (by simp)
    · intro st hst aid hc
      exact h.currentIsActive st ((mem_deleteOne Student.id).1 hst).1 aid hc
    · exact h.dateIffCompleted

/-! ## Preservation of consistency: allocations -/

theorem saveDoc_eq_self {α : Type} (key : α → Id) {docs : List α} {doc : α}
    (h : ∀ d ∈ docs, key d ≠ key doc) : saveDoc key docs doc = docs := by
  unfold saveDoc
  conv_rhs => rw [← List.map_id docs]
  apply List.map_congr_left
  intro d hd
  simp [h d hd]

theorem length_filter_saveDoc {α : Type} (key : α → Id) (p : α → Bool) {docs : List α}
    {d0 doc : α} (hnd : (docs.map key).Nodup) (hmem : d0 ∈ docs) (hk : key doc = key d0) :
    ((saveDoc key docs doc).filter p).length + (if p d0 then 1 else 0) =
      (docs.filter p).length + (if p doc then 1 else 0) := by
  induction docs with
  | nil => simp at hmem
  | cons d ds ih =>
    simp only [List.map_cons, List.nodup_cons, List.mem_map, not_exists, not_and] at hnd
    obtain ⟨hfresh, hnd⟩ := hnd
    by_cases hd : d0 = d
    · subst hd
      have hrest : saveDoc key ds doc = ds :=
        saveDoc_eq_self key (fun d hd h => hfresh d hd (h.trans hk))
      have : saveDoc key (d0 :: ds) doc = doc :: saveDoc key ds doc := by
        simp [saveDoc, hk]
      rw [this, hrest]
      simp only [List.filter_cons]
      cases p doc <;> cases p d0 <;> simp
    · have hmem2 : d0 ∈ ds := by
        rcases List.mem_cons.1 hmem with h | h
        · exact absurd h hd
        · exact h
      have hne : key d ≠ key doc := by
        intro h
        exact hfresh d0 hmem2 (hk.symm.trans h.symm)
      have : saveDoc key (d :: ds) doc = d :: saveDoc key ds doc := by
        simp [saveDoc, hne]
      rw [this]
      have := ih hnd hmem2
      simp only [List.filter_cons]
      cases p d <;> simp <;> omega

theorem filter_deleteOne {α : Type} (key : α → Id) (p : α → Bool) {docs : List α} {id : Id}
    (h : ∀ d ∈ docs, key d = id → p d = false) :
    (deleteOne key docs id).filter p = docs.filter p := by
  unfold deleteOne
  rw [List.filter_filter]
  apply List.filter_congr
  intro d hd
  by_cases hk : key d = id
  · simp [h d hd hk]
  · simp [hk]

/-- A deallocation request is either answered without a write, or the
allocation was Active and is written back Completed with its date, followed
by the guarded room and student writes. -/
theorem deallocate_cases (s : Store) (id : Id) (now : Date) :
    ((deallocate s id now).store = s ∧ (deallocate s id now).response.status ≠ 200)
    ∨ ∃ found, s.findAllocation id = some found ∧ found.status = .Active ∧
        (deallocate s id now).response.status = 200 ∧
        (deallocate s id now).store =
          { students :=
              match s.findStudent found.studentId with
              | some student =>
                saveDoc Student.id s.students
                  { student with roomId := none, currentAllocation := none }
              | none => s.students
            rooms :=
              match s.findRoom found.roomId with
              | some room =>
                if room.currentOccupancy > 0 then
                  saveDoc Room.id s.rooms
                    (roomPreSave { room with currentOccupancy := room.currentOccupancy - 1 })
                else s.rooms
              | none => s.rooms
            allocations := saveDoc Allocation.id s.allocations
              { found with deallocationDate := some now, status := .Completed }
            nextId := s.nextId } := by
  unfold deallocate
  cases hf : s.findAllocation id with
  | none => left; simp [reject]
  | some found =>
    simp only
    cases hst : found.status with
    | Completed => left; simp [reject]
    | Active =>
      right
      refine ⟨found, rfl, hst, ?_, ?_⟩
      · simp
      · simp only [reduceCtorEq, if_false]
        congr 1
        · cases s.findStudent found.studentId <;> rfl
        · cases s.findRoom found.roomId with
          | none => rfl
          | some room => simp only; split_ifs <;> rfl

theorem deleteAllocation_cases (s : Store) (id : Id) :
    (deleteAllocation s id).store = s ∨
    ∃ found, s.findAllocation id = some found ∧ found.status = .Completed ∧
      (deleteAllocation s id).store =
        { s with allocations := deleteOne Allocation.id s.allocations found.id } := by
  unfold deleteAllocation
  cases hf : s.findAllocation id with
  | none => left; rfl
  | some found =>
    simp only
    cases hst : found.status with
    | Active => left; simp [reject]
    | Completed => right; exact ⟨found, rfl, hst, by simp⟩

theorem postAllocation_consistent (s : Store) (body : AllocationBody) (now : Date)
    (h : Consistent s) : Consistent (postAllocation s body now).store := by
  rcases postAllocation_cases s body now with
    ⟨hs, _⟩ | ⟨sid, rid, student, room, _, _, hfs, hcur, hfr, hlt, _, hs⟩
  · rw [hs]; exact h
  · rw [hs]
    have hstu := findById_some Student.id hfs
    have hroom := findById_some Room.id hfr
    have hup : ∀ {n : Nat}, n < s.nextId → n < s.nextId + 1 := fun hn => Nat.lt_succ_of_lt hn
    constructor
    · intro r hr
      rcases (mem_saveDoc Room.id).1 hr with ⟨hr, _⟩ | ⟨rfl, _⟩
      · exact hup (h.roomIds r hr)
      · simpa using hup (h.roomIds room hroom.2)
    · intro st hst
      rcases (mem_saveDoc Student.id).1 hst with ⟨hst, _⟩ | ⟨rfl, _⟩
      · exact hup (h.studentIds st hst)
      · exact hup (h.studentIds student hstu.2)
    · intro a ha
      simp only [List.mem_append, List.mem_singleton] at ha
      rcases ha with ha | rfl
      · exact hup (h.allocationIds a ha)
      · exact Nat.lt_succ_self _
    · intro a ha
      simp only [List.mem_append, List.mem_singleton] at ha
      rcases ha with ha | rfl
      · exact hup (h.allocationRooms a ha)
      · have := h.roomIds room hroom.2
        rw [hroom.1] at this
        exact hup this
    · simp only [map_key_saveDoc]; exact h.roomNodup
    · simp only [map_key_saveDoc]; exact h.studentNodup
    · apply nodup_key_append Allocation.id h.allocationNodup
      intro d hd
      exact Nat.ne_of_lt (h.allocationIds d hd)
    · intro r hr
      rw [activeInRoom_append]
      rcases (mem_saveDoc Room.id).1 hr with ⟨hr, hne⟩ | ⟨rfl, _⟩
      · have hne2 : ¬ rid = r.id := by
          intro hEq
          apply hne
          simp only [roomPreSave_id]
          rw [hroom.1, hEq]
        simp [hne2, h.occupancy r hr]
      · simp only [roomPreSave_currentOccupancy, roomPreSave_id]
        rw [h.occupancy room hroom.2]
        simp [hroom.1]
    · intro a ha hact
      simp only [List.mem_append, List.mem_singleton] at ha
      rcases ha with ha | rfl
      · obtain ⟨st, hst, h1, h2, h3⟩ := h.activeHasStudent a ha hact
        refine ⟨st, (mem_saveDoc Student.id).2 (Or.inl ⟨hst, ?_⟩), h1, h2, h3⟩
        intro hk
        have hEq : st = student := nodup_key_eq Student.id h.studentNodup hst hstu.2 hk
        rw [hEq, hcur] at h2
        exact absurd h2 (by simp)
      · exact ⟨_, (mem_saveDoc Student.id).2 (Or.inr ⟨rfl, student, hstu.2, rfl⟩),
          hstu.1, rfl, rfl⟩
    · intro st hst aid hc
      rcases (mem_saveDoc Student.id).1 hst with ⟨hst, _⟩ | ⟨rfl, _⟩
      · obtain ⟨a, ha, h1, h2, h3⟩ := h.currentIsActive st hst aid hc
        exact ⟨a, List.mem_append_left _ ha, h1, h2, h3⟩
      · simp only [Option.some.injEq] at hc
        subst hc
        exact ⟨_, List.mem_append_right _ (List.mem_singleton_self _), rfl, rfl, hstu.1.symm⟩
    · intro a ha
      simp only [List.mem_append, List.mem_singleton] at ha
      rcases ha with ha | rfl
      · exact h.dateIffCompleted a ha
      · simp

theorem deleteAllocation_consistent (s : Store) (id : Id) (h : Consistent s) :
    Consistent (deleteAllocation s id).store := by
  rcases deleteAllocation_cases s id with hs | ⟨found, hf, hst, hs⟩
  · rw [hs]; exact h
  · rw [hs]
    have hfound := findById_some Allocation.id hf
    have hgone : ∀ a ∈ s.allocations, a.id = found.id → a = found := fun a ha hk =>
      nodup_key_eq Allocation.id h.allocationNodup ha hfound.2 hk
    constructor
    · exact h.roomIds
    · exact h.studentIds
    · intro a ha; exact h.allocationIds a ((mem_deleteOne Allocation.id).1 ha).1
    · intro a ha; exact h.allocationRooms a ((mem_deleteOne Allocation.id).1 ha).1
    · exact h.roomNodup
    · exact h.studentNodup
    · exact nodup_key_deleteOne Allocation.id _ h.allocationNodup
    · intro r hr
      rw [h.occupancy r hr]
      unfold Store.activeInRoom
      simp only
      rw [filter_deleteOne Allocation.id]
      intro a ha hk
      rw [hgone a ha hk]
      simp [hst]
    · intro a ha hact
      exact h.activeHasStudent a ((mem_deleteOne Allocation.id).1 ha).1 hact
    · intro st hstu aid hc
      obtain ⟨a, ha, h1, h2, h3⟩ := h.currentIsActive st hstu aid hc
      refine ⟨a, (mem_deleteOne Allocation.id).2 ⟨ha, ?_⟩, h1, h2, h3⟩
      intro hk
      rw [hgone a ha hk, hst] at h2
      exact absurd h2 (by simp)
    · intro a ha
      exact h.dateIffCompleted a ((mem_deleteOne Allocation.id).1 ha).1

theorem activeInRoom_pos (s : Store) {a : Allocation} (ha : a ∈ s.allocations)
    (hact : a.status = .Active) : 0 < s.activeInRoom a.roomId := by
  unfold Store.activeInRoom
  apply List.length_pos_of_mem (a := a)
  simp [List.mem_filter, ha, hact]

theorem activeInRoom_complete (s : Store) (h : Consistent s) {found : Allocation}
    (hmem : found ∈ s.allocations) (hact : found.status = .Active) (now : Date) (roomId : Id)
    (st : List Student) (rs : List Room) (n : Id) :
    Store.activeInRoom
        { students := st, rooms := rs
          allocations := saveDoc Allocation.id s.allocations
            { found with deallocationDate := some now, status := .Completed }
          nextId := n } roomId
      + (if found.roomId = roomId then 1 else 0) = s.activeInRoom roomId := by
  unfold Store.activeInRoom
  have := @length_filter_saveDoc Allocation Allocation.id
    (fun a => decide (a.status = .Active ∧ a.roomId = roomId)) s.allocations found
    { found with deallocationDate := some now, status := .Completed }
    h.allocationNodup hmem rfl
  simpa [hact] using this

theorem deallocate_rooms (s : Store) (h : Consistent s) {found : Allocation}
    (hmem : found ∈ s.allocations) (hact : found.status = .Active) :
    ((match s.findRoom found.roomId with
      | some room =>
        if room.currentOccupancy > 0 then
          saveDoc Room.id s.rooms
            (roomPreSave { room with currentOccupancy := room.currentOccupancy - 1 })
        else s.rooms
      | none => s.rooms).map Room.id = s.rooms.map Room.id) ∧
    ∀ r ∈ (match s.findRoom found.roomId with
      | some room =>
        if room.currentOccupancy > 0 then
          saveDoc Room.id s.rooms
            (roomPreSave { room with currentOccupancy := room.currentOccupancy - 1 })
        else s.rooms
      | none => s.rooms),
      r.currentOccupancy + (if found.roomId = r.id then 1 else 0) = s.activeInRoom r.id := by
  cases hfr : s.findRoom found.roomId with
  | none =>
    refine ⟨rfl, ?_⟩
    intro r hr
    have hne : ¬ found.roomId = r.id := fun hEq =>
      (findById_eq_none Room.id).1 hfr r hr hEq.symm
    simp only [hne, if_false, Nat.add_zero]
    exact h.occupancy r hr
  | some room =>
    have hroom := findById_some Room.id hfr
    have hocc := h.occupancy room hroom.2
    have hpos := activeInRoom_pos s hmem hact
    rw [← hroom.1] at hpos
    simp only
    by_cases hgt : room.currentOccupancy > 0
    · rw [if_pos hgt]
      refine ⟨map_key_saveDoc Room.id _ _, ?_⟩
      intro r hr
      rcases (mem_saveDoc Room.id).1 hr with ⟨hr, hne⟩ | ⟨rfl, _⟩
      · have hne2 : ¬ found.roomId = r.id := by
          intro hEq
          apply hne
          simp only [roomPreSave_id]
          rw [hroom.1, hEq]
        simp only [hne2, if_false, Nat.add_zero]
        exact h.occupancy r hr
      · simp only [roomPreSave_currentOccupancy, roomPreSave_id]
        rw [if_pos hroom.1.symm, ← hocc]
        exact Nat.sub_add_cancel hgt
    · exact absurd (hocc ▸ hpos) hgt

theorem deallocate_students (s : Store) {found : Allocation} :
    ((match s.findStudent found.studentId with
      | some student =>
        saveDoc Student.id s.students { student with roomId := none, currentAllocation := none }
      | none => s.students).map Student.id = s.students.map Student.id) ∧
    (∀ st ∈ (match s.findStudent found.studentId with
      | some student =>
        saveDoc Student.id s.students { student with roomId := none, currentAllocation := none }
      | none => s.students),
      st.currentAllocation ≠ none → st ∈ s.students ∧ st.id ≠ found.studentId) ∧
    (∀ st ∈ s.students, st.id ≠ found.studentId →
      st ∈ (match s.findStudent found.studentId with
      | some student =>
        saveDoc Student.id s.students { student with roomId := none, currentAllocation := none }
      | none => s.students)) := by
  cases hfs : s.findStudent found.studentId with
  | none =>
    refine ⟨rfl, ?_, fun st hst _ => hst⟩
    intro st hst _
    exact ⟨hst, (findById_eq_none Student.id).1 hfs st hst⟩
  | some student =>
    have hstu := findById_some Student.id hfs
    refine ⟨map_key_saveDoc Student.id _ _, ?_, ?_⟩
    · intro st hst hc
      rcases (mem_saveDoc Student.id).1 hst with ⟨hst, hne⟩ | ⟨rfl, _⟩
      · exact ⟨hst, fun hEq => hne (hEq.trans hstu.1.symm)⟩
      · exact absurd rfl hc
    · intro st hst hne
      exact (mem_saveDoc Student.id).2 (Or.inl ⟨hst, fun hEq => hne (hEq.trans hstu.1)⟩)

theorem mem_of_map_key_eq {α : Type} (key : α → Id) {xs ys : List α}
    (h : xs.map key = ys.map key) {x : α} (hx : x ∈ xs) : ∃ y ∈ ys, key y = key x := by
  have : key x ∈ ys.map key := h ▸ List.mem_map_of_mem key hx
  obtain ⟨y, hy, hk⟩ := List.mem_map.1 this
  exact ⟨y, hy, hk⟩

theorem deallocate_consistent (s : Store) (id : Id) (now : Date) (h : Consistent s) :
    Consistent (deallocate s id now).store := by
  rcases deallocate_cases s id now with ⟨hs, _⟩ | ⟨found, hf, hact, _, hs⟩
  · rw [hs]; exact h
  · rw [hs]
    have hfound := findById_some Allocation.id hf
    obtain ⟨hrmap, hrocc⟩ := deallocate_rooms s h hfound.2 hact
    obtain ⟨hsmap, hscur, hskeep⟩ := @deallocate_students s found
    have hsame : ∀ a ∈ s.allocations, a.id = found.id → a = found := fun a ha hk =>
      nodup_key_eq Allocation.id h.allocationNodup ha hfound.2 hk
    constructor
    · intro r hr
      obtain ⟨r0, hr0, hk⟩ := mem_of_map_key_eq Room.id hrmap hr
      rw [← hk]; exact h.roomIds r0 hr0
    · intro st hst
      obtain ⟨st0, hst0, hk⟩ := mem_of_map_key_eq Student.id hsmap hst
      rw [← hk]; exact h.studentIds st0 hst0
    · intro a ha
      rcases (mem_saveDoc Allocation.id).1 ha with ⟨ha, _⟩ | ⟨rfl, _⟩
      · exact h.allocationIds a ha
      · exact h.allocationIds found hfound.2
    · intro a ha
      rcases (mem_saveDoc Allocation.id).1 ha with ⟨ha, _⟩ | ⟨rfl, _⟩
      · exact h.allocationRooms a ha
      · exact h.allocationRooms found hfound.2
    · simp only [hrmap]; exact h.roomNodup
    · simp only [hsmap]; exact h.studentNodup
    · simp only [map_key_saveDoc]; exact h.allocationNodup
    · intro r hr
      have h1 := hrocc r hr
      have h2 := activeInRoom_complete s h hfound.2 hact now r.id
        (match s.findStudent found.studentId with
          | some student =>
            saveDoc Student.id s.students
              { student with roomId := none, currentAllocation := none }
          | none => s.students)
        (match s.findRoom found.roomId with
          | some room =>
            if room.currentOccupancy > 0 then
              saveDoc Room.id s.rooms
                (roomPreSave { room with currentOccupancy := room.currentOccupancy - 1 })
            else s.rooms
          | none => s.rooms) s.nextId
      omega
    · intro a ha hA
      rcases (mem_saveDoc Allocation.id).1 ha with ⟨ha, hne⟩ | ⟨rfl, _⟩
      · obtain ⟨st, hst, h1, h2, h3⟩ := h.activeHasStudent a ha hA
        refine ⟨st, hskeep st hst ?_, h1, h2, h3⟩
        intro hEq
        obtain ⟨st2, hst2, k1, k2, _⟩ := h.activeHasStudent found hfound.2 hact
        have : st = st2 := nodup_key_eq Student.id h.studentNodup hst hst2 (hEq.trans k1.symm)
        rw [this, k2] at h2
        exact hne (Option.some.inj h2).symm
      · exact absurd hA (by simp)
    · intro st hst aid hc
      obtain ⟨hst0, hne⟩ := hscur st hst (by rw [hc]; simp)
      obtain ⟨a, ha, h1, h2, h3⟩ := h.currentIsActive st hst0 aid hc
      refine ⟨a, (mem_saveDoc Allocation.id).2 (Or.inl ⟨ha, ?_⟩), h1, h2, h3⟩
      intro hk
      have : a = found := hsame a ha hk
      rw [this] at h3
      exact hne h3.symm
    · intro a ha
      rcases (mem_saveDoc Allocation.id).1 ha with ⟨ha, _⟩ | ⟨rfl, _⟩
      · exact h.dateIffCompleted a ha
      · simp

theorem step_consistent (isEmail : String → Bool) (s : Store) (op : Op) (h : Consistent s) :
    Consistent (step isEmail s op).store := by
  cases op with
  | postRoom body => exact postRoom_consistent s body h
  | putRoom id body => exact putRoom_consistent s id body h
  | deleteRoom id => exact deleteRoom_consistent s id h
  | postStudent body => exact postStudent_consistent isEmail s body h
  | putStudent id body => exact putStudent_consistent s id body h
  | deleteStudent id => exact deleteStudent_consistent s id h
  | postAllocation body now => exact postAllocation_consistent s body now h
  | deallocate id now => exact deallocate_consistent s id now h
  | deleteAllocation id => exact deleteAllocation_consistent s id h

theorem reachable_consistent (isEmail : String → Bool) {s : Store}
    (h : Reachable isEmail s) : Consistent s := by
  induction h with
  | init => exact consistent_empty
  | next op _ ih => exact step_consistent isEmail _ op ih

/-! ## How one request changes the allocation collection -/

theorem postRoom_frame (s : Store) (body : RoomBody) :
    (postRoom s body).store.allocations = s.allocations ∧
      s.nextId ≤ (postRoom s body).store.nextId := by
  unfold postRoom
  repeat' split
  all_goals first | exact ⟨rfl, Nat.le_refl _⟩ | exact ⟨rfl, Nat.le_succ _⟩

theorem deleteRoom_frame (s : Store) (id : Id) :
    (deleteRoom s id).store.allocations = s.allocations ∧
      (deleteRoom s id).store.nextId = s.nextId := by
  unfold deleteRoom
  repeat' split
  all_goals exact ⟨rfl, rfl⟩

/-- The allocation collection after one request is the old one, the old one
with a fresh Active allocation appended, the old one with an Active allocation
written back Completed, or the old one with a Completed allocation removed. -/
theorem step_allocations (isEmail : String → Bool) (s : Store) (op : Op) :
    (step isEmail s op).store.allocations = s.allocations
    ∨ (∃ new : Allocation, new.id = s.nextId ∧ new.status = .Active ∧
        new.deallocationDate = none ∧
        (step isEmail s op).store.allocations = s.allocations ++ [new])
    ∨ (∃ (found : Allocation) (now : Date), s.findAllocation found.id = some found ∧
        found.status = .Active ∧
        (step isEmail s op).store.allocations = saveDoc Allocation.id s.allocations
          { found with deallocationDate := some now, status := .Completed })
    ∨ (∃ found : Allocation, s.findAllocation found.id = some found ∧
        found.status = .Completed ∧
        (step isEmail s op).store.allocations =
          deleteOne Allocation.id s.allocations found.id) := by
  cases op with
  | postRoom body => left; exact (postRoom_frame s body).1
  | putRoom id body =>
    left
    rcases putRoom_cases s id body with hs | ⟨_, _, _, _, _, hs⟩ <;> simp only [step, hs]
  | deleteRoom id => left; exact (deleteRoom_frame s id).1
  | postStudent body =>
    left
    rcases postStudent_cases isEmail s body with hs | ⟨_, _, _, hs⟩ <;> simp only [step, hs]
  | putStudent id body =>
    left
    rcases putStudent_cases s id body with hs | ⟨_, _, _, _, _, _, hs⟩ <;> simp only [step, hs]
  | deleteStudent id =>
    left
    rcases deleteStudent_cases s id with hs | ⟨_, _, _, hs⟩ <;> simp only [step, hs]
  | postAllocation body now =>
    rcases postAllocation_cases s body now with
      ⟨hs, _⟩ | ⟨sid, rid, _, _, _, _, _, _, _, _, _, hs⟩
    · left; simp only [step, hs]
    · right; left
      refine ⟨{ id := s.nextId, studentId := sid, roomId := rid, allocationDate := now,
                notes := body.notes }, rfl, rfl, rfl, ?_⟩
      simp only [step, hs]
  | deallocate id now =>
    rcases deallocate_cases s id now with ⟨hs, _⟩ | ⟨found, hf, hact, _, hs⟩
    · left; simp only [step, hs]
    · right; right; left
      have hk := (findById_some Allocation.id hf).1
      refine ⟨found, now, ?_, hact, by simp only [step, hs]⟩
      rw [hk]; exact hf
  | deleteAllocation id =>
    rcases deleteAllocation_cases s id with hs | ⟨found, hf, hst, hs⟩
    · left; simp only [step, hs]
    · right; right; right
      have hk := (findById_some Allocation.id hf).1
      refine ⟨found, ?_, hst, by simp only [step, hs]⟩
      rw [hk]; exact hf

theorem step_nextId_le (isEmail : String → Bool) (s : Store) (op : Op) :
    s.nextId ≤ (step isEmail s op).store.nextId := by
  cases op with
  | postRoom body => exact (postRoom_frame s body).2
  | putRoom id body =>
    rcases putRoom_cases s id body with hs | ⟨_, _, _, _, _, hs⟩ <;> simp [step, hs]
  | deleteRoom id => exact Nat.le_of_eq (deleteRoom_frame s id).2.symm
  | postStudent body =>
    rcases postStudent_cases isEmail s body with hs | ⟨_, _, _, hs⟩ <;> simp [step, hs]
  | putStudent id body =>
    rcases putStudent_cases s id body with hs | ⟨_, _, _, _, _, _, hs⟩ <;> simp [step, hs]
  | deleteStudent id =>
    rcases deleteStudent_cases s id with hs | ⟨_, _, _, hs⟩ <;> simp [step, hs]
  | postAllocation body now =>
    rcases postAllocation_cases s body now with
      ⟨hs, _⟩ | ⟨_, _, _, _, _, _, _, _, _, _, _, hs⟩ <;> simp [step, hs]
  | deallocate id now =>
    rcases deallocate_cases s id now with ⟨hs, _⟩ | ⟨_, _, _, _, hs⟩ <;> simp [step, hs]
  | deleteAllocation id =>
    rcases deleteAllocation_cases s id with hs | ⟨_, _, _, hs⟩ <;> simp [step, hs]

theorem reachable_run (isEmail : String → Bool) (ops : List Op) :
    ∀ {s : Store}, Reachable isEmail s → Reachable isEmail (run isEmail s ops) := by
  induction ops with
  | nil => intro s h; exact h
  | cons op ops ih =>
    intro s h
    unfold run
    rw [List.foldl_cons]
    exact ih (Reachable.next op h)

theorem run_cons (isEmail : String → Bool) (s : Store) (op : Op) (ops : List Op) :
    run isEmail s (op :: ops) = run isEmail (step isEmail s op).store ops := by
  unfold run
  rw [List.foldl_cons]

/-! ## Occupancy equality and single lease -/

theorem sampleStore_reachable : Reachable sampleIsEmail sampleStore :=
  reachable_run sampleIsEmail sampleOps Reachable.init

/-- C1 at the sample store: room `0` (capacity 2, one Active allocation) and
two further calls. -/
theorem capacity_never_exceeded_witness :
    sampleStore.findRoom 0 = some sampleRoom ∧
    sampleRoom.currentOccupancy = sampleStore.activeInRoom 0 ∧
    sampleRoom.currentOccupancy ≤ sampleRoom.capacity ∧
    ∃ room', (createLeases sampleStore (sampleCalls.take 2)).findRoom 0 = some room' ∧
      room'.capacity = sampleRoom.capacity ∧
      (createLeases sampleStore (sampleCalls.take 2)).activeInRoom 0 ≤ sampleRoom.capacity :=
  ⟨by decide, by decide, by decide,
    capacity_never_exceeded sampleStore 0 sampleRoom (by decide) (by decide) (by decide)
      sampleCalls 2⟩

/-- C2 (occupancy equality, P3 / I2 first half): in every store reachable from
the empty store by serving backend requests one at a time, every room's
`currentOccupancy` equals the number of Active allocations whose `roomId` is
that room. -/
theorem occupancy_equals_active_count (isEmail : String → Bool) (s : Store)
    (h : Reachable isEmail s) :
    ∀ r ∈ s.rooms, r.currentOccupancy = s.activeInRoom r.id :=
  (reachable_consistent isEmail h).occupancy

/-- C2 at the sample store. -/
theorem occupancy_equals_active_count_witness :
    Reachable sampleIsEmail sampleStore ∧
    sampleRoom ∈ sampleStore.rooms ∧
    sampleRoom.currentOccupancy = sampleStore.activeInRoom sampleRoom.id :=
  ⟨sampleStore_reachable, by decide,
    occupancy_equals_active_count sampleIsEmail sampleStore sampleStore_reachable
      sampleRoom (by decide)⟩

theorem length_le_one_of_nodup_const {l : List Id} (hnd : l.Nodup)
    (hconst : ∀ x ∈ l, ∀ y ∈ l, x = y) : l.length ≤ 1 := by
  match l, hnd, hconst with
  | [], _, _ => simp
  | [_], _, _ => simp
  | x :: y :: rest, hnd, hconst =>
    have hxy : x = y := hconst x (by simp) y (by simp)
    rw [List.nodup_cons] at hnd
    exact absurd (by simp [hxy]) hnd.1

theorem consistent_activeOfStudent_le_one {s : Store} (h : Consistent s) (studentId : Id) :
    s.activeOfStudent studentId ≤ 1 := by
  unfold Store.activeOfStudent
  have hsub : (s.allocations.filter
      (fun a => a.status = .Active ∧ a.studentId = studentId)).Sublist s.allocations :=
    List.filter_sublist _
  have hnd := List.Nodup.sublist (List.Sublist.map Allocation.id hsub) h.allocationNodup
  have := length_le_one_of_nodup_const hnd (by
    intro x hx y hy
    obtain ⟨a, ha, rfl⟩ := List.mem_map.1 hx
    obtain ⟨b, hb, rfl⟩ := List.mem_map.1 hy
    simp only [List.mem_filter, decide_eq_true_eq] at ha hb
    obtain ⟨sa, hsa, ka1, ka2, _⟩ := h.activeHasStudent a ha.1 ha.2.1
    obtain ⟨sb, hsb, kb1, kb2, _⟩ := h.activeHasStudent b hb.1 hb.2.1
    have hEq : sa = sb := nodup_key_eq Student.id h.studentNodup hsa hsb
      (by rw [ka1, kb1, ha.2.2, hb.2.2])
    rw [hEq, kb2] at ka2
    exact (Option.some.inj ka2).symm)
  simpa using this

/-- C3 (single lease, I1 / P2): in every store reachable from the empty store by
serving backend requests one at a time, for every student (indeed for every
student id) at most one allocation with status Active has that `studentId`. -/
theorem single_active_lease (isEmail : String → Bool) (s : Store)
    (h : Reachable isEmail s) (studentId : Id) :
    s.activeOfStudent studentId ≤ 1 :=
  consistent_activeOfStudent_le_one (reachable_consistent isEmail h) studentId

/-- C3 at the sample store, for the allocated student `1`. -/
theorem single_active_lease_witness :
    Reachable sampleIsEmail sampleStore ∧ sampleStore.activeOfStudent 1 ≤ 1 :=
  ⟨sampleStore_reachable, single_active_lease sampleIsEmail sampleStore sampleStore_reachable 1⟩

theorem activeOfStudent_pos (s : Store) {a : Allocation} (ha : a ∈ s.allocations)
    (hact : a.status = .Active) : 0 < s.activeOfStudent a.studentId := by
  unfold Store.activeOfStudent
  apply List.length_pos_of_mem (a := a)
  simp [List.mem_filter, ha, hact]

/-- C4 (back-reference consistency, I3): in every store reachable from the
empty store by serving backend requests one at a time, for every student,
`currentAllocation` is non-null if and only if exactly one Active allocation
references the student, and every Active allocation referencing the student
is the one named by `currentAllocation`, with `roomId` equal to the student's
`roomId`. -/
theorem back_references_consistent (isEmail : String → Bool) (s : Store)
    (h : Reachable isEmail s) :
    ∀ st ∈ s.students,
      (st.currentAllocation ≠ none ↔ s.activeOfStudent st.id = 1) ∧
      (∀ a ∈ s.allocations, a.status = .Active → a.studentId = st.id →
        st.currentAllocation = some a.id ∧ st.roomId = some a.roomId) := by
  have hc := reachable_consistent isEmail h
  intro st hst
  have hback : ∀ a ∈ s.allocations, a.status = .Active → a.studentId = st.id →
      st.currentAllocation = some a.id ∧ st.roomId = some a.roomId := by
    intro a ha hact hsid
    obtain ⟨st2, hst2, k1, k2, k3⟩ := hc.activeHasStudent a ha hact
    have hEq : st2 = st := nodup_key_eq Student.id hc.studentNodup hst2 hst (k1.trans hsid)
    rw [← hEq]
    exact ⟨k2, k3⟩
  refine ⟨⟨?_, ?_⟩, hback⟩
  · intro hne
    cases hcur : st.currentAllocation with
    | none => exact absurd hcur hne
    | some aid =>
      obtain ⟨a, ha, _, hact, hsid⟩ := hc.currentIsActive st hst aid hcur
      have hpos := activeOfStudent_pos s ha hact
      have hle := consistent_activeOfStudent_le_one hc st.id
      rw [hsid] at hpos
      omega
  · intro hone
    have hpos : 0 < (s.allocations.filter
        (fun a => a.status = .Active ∧ a.studentId = st.id)).length := by
      unfold Store.activeOfStudent at hone
      omega
    obtain ⟨a, ha⟩ := List.exists_mem_of_length_pos hpos
    simp only [List.mem_filter, decide_eq_true_eq] at ha
    rw [(hback a ha.1 ha.2.1 ha.2.2).1]
    simp

/-- C4 at the sample store, for the allocated student `1` and allocation `3`. -/
theorem back_references_consistent_witness :
    Reachable sampleIsEmail sampleStore ∧ sampleStudent ∈ sampleStore.students ∧
    sampleAllocation ∈ sampleStore.allocations ∧
    (sampleStudent.currentAllocation ≠ none ↔ sampleStore.activeOfStudent sampleStudent.id = 1) ∧
    sampleStudent.currentAllocation = some sampleAllocation.id ∧
    sampleStudent.roomId = some sampleAllocation.roomId :=
  have hw := back_references_consistent sampleIsEmail sampleStore sampleStore_reachable
    sampleStudent (by decide)
  ⟨sampleStore_reachable, by decide, by decide, hw.1,
    hw.2 sampleAllocation (by decide) (by decide) (by decide)⟩

/-! ## CreateLease: acceptance and post-state -/

/-- C5 (CreateLease acceptance): in every store and for every student id, room
id and notes, `CreateLease` succeeds (201) if and only if the student exists
with a null `currentAllocation` and the room exists with
`currentOccupancy < capacity`; a missing student gives 404 "Student not
found", an allocated student 400 "Student already has an active allocation",
then a missing room 404 "Room not found", then a full room 400 "Room is at
full capacity". -/
theorem createLease_acceptance (s : Store) (studentId roomId : Id) (notes : Option String)
    (now : Date) :
    ((createLease s studentId roomId notes now).response.status = 201 ↔
      (∃ st, s.findStudent studentId = some st ∧ st.currentAllocation = none) ∧
      (∃ r, s.findRoom roomId = some r ∧ r.currentOccupancy < r.capacity)) ∧
    (s.findStudent studentId = none →
      (createLease s studentId roomId notes now).response =
        ⟨404, .message "Student not found"⟩) ∧
    (∀ st, s.findStudent studentId = some st → st.currentAllocation ≠ none →
      (createLease s studentId roomId notes now).response =
        ⟨400, .message "Student already has an active allocation"⟩) ∧
    (∀ st, s.findStudent studentId = some st → st.currentAllocation = none →
      s.findRoom roomId = none →
      (createLease s studentId roomId notes now).response =
        ⟨404, .message "Room not found"⟩) ∧
    (∀ st r, s.findStudent studentId = some st → st.currentAllocation = none →
      s.findRoom roomId = some r → r.currentOccupancy ≥ r.capacity →
      (createLease s studentId roomId notes now).response =
        ⟨400, .message "Room is at full capacity"⟩) := by
  unfold createLease postAllocation
  simp only
  cases hst : s.findStudent studentId with
  | none => simp [reject]
  | some st =>
    cases hca : st.currentAllocation with
    | some aid =>
      have hno : ∀ st1 : Student, some st = some st1 → st1.currentAllocation = none → False := by
        intro st1 h1 h2
        rw [← Option.some.inj h1, hca] at h2
        exact absurd h2 (by simp)
      simp only [reject, hca, Option.isSome_some, if_true]
      refine ⟨⟨fun h => absurd h (by decide), ?_⟩, fun h => absurd h (by simp),
        fun _ _ _ => trivial, ?_, ?_⟩
      · rintro ⟨⟨st1, h1, h2⟩, _⟩
        exact (hno st1 h1 h2).elim
      · intro st1 h1 h2
        exact (hno st1 h1 h2).elim
      · intro st1 r h1 h2
        exact (hno st1 h1 h2).elim
    | none =>
      cases hrm : s.findRoom roomId with
      | none => simp [reject, hca]
      | some r =>
        by_cases hfull : r.currentOccupancy ≥ r.capacity
        · simp [reject, hca, hfull]
        · simp [reject, hca, hfull]
          omega

/-- C5 at the sample store: student `2` is accepted into room `0`; student `9`
and room `9` do not exist; student `1` is already allocated. -/
theorem createLease_acceptance_witness :
    (createLease sampleStore 2 0 none 20).response.status = 201 ∧
    (createLease sampleStore 9 0 none 20).response = ⟨404, .message "Student not found"⟩ ∧
    (createLease sampleStore 1 9 none 20).response =
      ⟨400, .message "Student already has an active allocation"⟩ ∧
    (createLease sampleStore 2 9 none 20).response = ⟨404, .message "Room not found"⟩ :=
  ⟨(createLease_acceptance sampleStore 2 0 none 20).1.2 (by decide),
    (createLease_acceptance sampleStore 9 0 none 20).2.1 (by decide),
    (createLease_acceptance sampleStore 1 9 none 20).2.2.1 sampleStudent (by decide) (by decide),
    (createLease_acceptance sampleStore 2 9 none 20).2.2.2.1 sampleStudent2 (by decide)
      (by decide) (by decide)⟩

/-- C6 (CreateLease post-state): after a successful `CreateLease` the allocation
collection is the old one followed by exactly one new allocation, which is
Active, has a null `deallocationDate` and carries the given student id, room
id and notes; the room is stored with `currentOccupancy` one higher and its
status re-derived by the save hook (Occupied when the new occupancy reaches
the capacity, otherwise unchanged); the student is stored with
`currentAllocation` the new allocation's id and `roomId` the room. -/
theorem createLease_post_state (s : Store) (studentId roomId : Id) (notes : Option String)
    (now : Date) (hok : (createLease s studentId roomId notes now).response.status = 201) :
    ∃ st r, s.findStudent studentId = some st ∧ s.findRoom roomId = some r ∧
      (createLease s studentId roomId notes now).store.allocations =
        s.allocations ++
          [{ id := s.nextId, studentId := studentId, roomId := roomId, allocationDate := now,
             deallocationDate := none, status := .Active, notes := notes }] ∧
      (createLease s studentId roomId notes now).store.findRoom roomId =
        some (roomPreSave { r with currentOccupancy := r.currentOccupancy + 1 }) ∧
      (roomPreSave { r with currentOccupancy := r.currentOccupancy + 1 }).currentOccupancy =
        r.currentOccupancy + 1 ∧
      (roomPreSave { r with currentOccupancy := r.currentOccupancy + 1 }).status =
        (if r.currentOccupancy + 1 ≥ r.capacity then .Occupied else r.status) ∧
      (createLease s studentId roomId notes now).store.findStudent studentId =
        some { st with roomId := some roomId, currentAllocation := some s.nextId } := by
  unfold createLease at hok ⊢
  rcases postAllocation_cases s ⟨some studentId, some roomId, notes⟩ now with
    ⟨_, hne⟩ | ⟨sid, rid, st, r, hsid, hrid, hfs, _, hfr, _, _, hs⟩
  · exact absurd hok hne
  · simp only [Option.some.injEq] at hsid hrid
    subst hsid hrid
    have hks := (findById_some Student.id hfs).1
    have hkr := (findById_some Room.id hfr).1
    refine ⟨st, r, hfs, hfr, ?_, ?_, by simp, ?_, ?_⟩
    · rw [hs]
    · rw [hs]
      have h0 : findById Room.id s.rooms
          (Room.id (roomPreSave { r with currentOccupancy := r.currentOccupancy + 1 }))
          = some r := by
        simpa [hkr] using hfr
      have := findById_saveDoc_self Room.id h0
      simpa [Store.findRoom, hkr] using this
    · unfold roomPreSave
      by_cases hge : r.currentOccupancy + 1 ≥ r.capacity
      · simp [hge]
      · simp [hge]
    · rw [hs]
      have h1 : findById Student.id s.students
          (Student.id { st with roomId := some roomId, currentAllocation := some s.nextId })
          = some st := by
        simpa [hks] using hfs
      have := findById_saveDoc_self Student.id h1
      simpa [Store.findStudent, hks] using this

/-- C6 at the sample store: student `2` is allocated to room `0`. -/
theorem createLease_post_state_witness :
    (createLease sampleStore 2 0 none 20).response.status = 201 ∧
    ∃ st r, sampleStore.findStudent 2 = some st ∧ sampleStore.findRoom 0 = some r ∧
      (createLease sampleStore 2 0 none 20).store.allocations =
        sampleStore.allocations ++
          [{ id := sampleStore.nextId, studentId := 2, roomId := 0, allocationDate := 20,
             deallocationDate := none, status := .Active, notes := none }] ∧
      (createLease sampleStore 2 0 none 20).store.findRoom 0 =
        some (roomPreSave { r with currentOccupancy := r.currentOccupancy + 1 }) ∧
      (roomPreSave { r with currentOccupancy := r.currentOccupancy + 1 }).currentOccupancy =
        r.currentOccupancy + 1 ∧
      (roomPreSave { r with currentOccupancy := r.currentOccupancy + 1 }).status =
        (if r.currentOccupancy + 1 ≥ r.capacity then .Occupied else r.status) ∧
      (createLease sampleStore 2 0 none 20).store.findStudent 2 =
        some { st with roomId := some 0, currentAllocation := some sampleStore.nextId } :=
  ⟨by decide, createLease_post_state sampleStore 2 0 none 20 (by decide)⟩

/-! ## CompleteLease: acceptance and post-state -/

theorem deallocate_not_found (s : Store) (id : Id) (now : Date)
    (h : s.findAllocation id = none) :
    deallocate s id now = reject s 404 "Allocation not found" := by
  unfold deallocate
  rw [h]

theorem deallocate_completed (s : Store) (id : Id) (now : Date) {a : Allocation}
    (h : s.findAllocation id = some a) (hst : a.status = .Completed) :
    deallocate s id now = reject s 400 "Allocation already completed" := by
  unfold deallocate
  rw [h]
  simp [hst]

theorem deallocate_active (s : Store) (id : Id) (now : Date) {a : Allocation}
    (h : s.findAllocation id = some a) (hst : a.status = .Active) :
    (deallocate s id now).response.status = 200 ∧
    (deallocate s id now).store.findAllocation id =
      some { a with deallocationDate := some now, status := .Completed } := by
  rcases deallocate_cases s id now with ⟨_, _⟩ | ⟨found, hf, _, hok, hs⟩
  · have : (deallocate s id now).response.status = 200 := by
      unfold deallocate
      rw [h]
      simp [hst]
    contradiction
  · have hEq : found = a := Option.some.inj (hf.symm.trans h)
    subst hEq
    refine ⟨hok, ?_⟩
    rw [hs]
    have hk := (findById_some Allocation.id h).1
    have h0 : findById Allocation.id s.allocations
        (Allocation.id { found with deallocationDate := some now, status := .Completed })
        = some found := by
      simpa [hk] using h
    have := findById_saveDoc_self Allocation.id h0
    simpa [Store.findAllocation, hk] using this

/-- C7 (CompleteLease acceptance, Scenario D second half): in every store and
for every lease id, `CompleteLease` answers 404 "Allocation not found" when no
allocation has the id, 400 "Allocation already completed" when the allocation
is Completed, and succeeds (200) otherwise; for an Active allocation, a first
call succeeds and an immediately following second call fails with
"Allocation already completed". -/
theorem deallocate_acceptance (s : Store) (id : Id) (now now2 : Date) :
    (s.findAllocation id = none →
      (deallocate s id now).response = ⟨404, .message "Allocation not found"⟩) ∧
    (∀ a, s.findAllocation id = some a → a.status = .Completed →
      (deallocate s id now).response = ⟨400, .message "Allocation already completed"⟩) ∧
    (∀ a, s.findAllocation id = some a → a.status = .Active →
      (deallocate s id now).response.status = 200 ∧
      (deallocate (deallocate s id now).store id now2).response =
        ⟨400, .message "Allocation already completed"⟩) := by
  refine ⟨?_, ?_, ?_⟩
  · intro h
    rw [deallocate_not_found s id now h]; rfl
  · intro a h hst
    rw [deallocate_completed s id now h hst]; rfl
  · intro a h hst
    obtain ⟨hok, hfind⟩ := deallocate_active s id now h hst
    refine ⟨hok, ?_⟩
    rw [deallocate_completed _ id now2 hfind rfl]; rfl

/-- C7 at the sample store: allocation `3` is Active, allocation `7` does not
exist. -/
theorem deallocate_acceptance_witness :
    (deallocate sampleStore 7 30).response = ⟨404, .message "Allocation not found"⟩ ∧
    (deallocate sampleStore 3 30).response.status = 200 ∧
    (deallocate (deallocate sampleStore 3 30).store 3 31).response =
      ⟨400, .message "Allocation already completed"⟩ :=
  ⟨(deallocate_acceptance sampleStore 7 30 31).1 (by decide),
    (deallocate_acceptance sampleStore 3 30 31).2.2 sampleAllocation (by decide) (by decide)⟩

/-- C8 (CompleteLease post-state, Scenario D first half): for an Active
allocation whose room exists with `currentOccupancy >= 1` and whose student
exists, `CompleteLease` succeeds and leaves the allocation Completed with its
`deallocationDate` set to the time of the call, the room's `currentOccupancy`
one lower than before, and the student's `currentAllocation` and `roomId`
both null. -/
theorem deallocate_post_state (s : Store) (id : Id) (now : Date) (a : Allocation) (r : Room)
    (st : Student) (ha : s.findAllocation id = some a) (hact : a.status = .Active)
    (hr : s.findRoom a.roomId = some r) (hocc : 1 ≤ r.currentOccupancy)
    (hst : s.findStudent a.studentId = some st) :
    (deallocate s id now).response.status = 200 ∧
    (deallocate s id now).store.findAllocation id =
      some { a with deallocationDate := some now, status := .Completed } ∧
    (∃ r', (deallocate s id now).store.findRoom a.roomId = some r' ∧
      r'.currentOccupancy + 1 = r.currentOccupancy ∧ r'.capacity = r.capacity) ∧
    (deallocate s id now).store.findStudent a.studentId =
      some { st with roomId := none, currentAllocation := none } := by
  obtain ⟨hok, hfind⟩ := deallocate_active s id now ha hact
  refine ⟨hok, hfind, ?_, ?_⟩
  · rcases deallocate_cases s id now with ⟨_, hne⟩ | ⟨found, hf, _, _, hs⟩
    · exact absurd hok hne
    · have hEq : found = a := Option.some.inj (hf.symm.trans ha)
      subst hEq
      have hkr := (findById_some Room.id hr).1
      have hgt : r.currentOccupancy > 0 := hocc
      refine ⟨roomPreSave { r with currentOccupancy := r.currentOccupancy - 1 }, ?_, ?_, ?_⟩
      · rw [hs]
        simp only [hr, if_pos hgt]
        have h0 : findById Room.id s.rooms
            (Room.id (roomPreSave { r with currentOccupancy := r.currentOccupancy - 1 }))
            = some r := by
          simpa [hkr] using hr
        have := findById_saveDoc_self Room.id h0
        simpa [Store.findRoom, hkr] using this
      · simp only [roomPreSave_currentOccupancy]
        exact Nat.sub_add_cancel hocc
      · simp
  · rcases deallocate_cases s id now with ⟨_, hne⟩ | ⟨found, hf, _, _, hs⟩
    · exact absurd hok hne
    · have hEq : found = a := Option.some.inj (hf.symm.trans ha)
      subst hEq
      have hks := (findById_some Student.id hst).1
      rw [hs]
      simp only [hst]
      have h0 : findById Student.id s.students
          (Student.id { st with roomId := none, currentAllocation := none })
          = some st := by
        simpa [hks] using hst
      have := findById_saveDoc_self Student.id h0
      simpa [Store.findStudent, hks] using this

/-- C8 at the sample store: completing allocation `3` of student `1` in room
`0`. -/
theorem deallocate_post_state_witness :
    sampleStore.findAllocation 3 = some sampleAllocation ∧
    sampleAllocation.status = .Active ∧
    sampleStore.findRoom sampleAllocation.roomId = some sampleRoom ∧
    1 ≤ sampleRoom.currentOccupancy ∧
    sampleStore.findStudent sampleAllocation.studentId = some sampleStudent ∧
    (deallocate sampleStore 3 30).response.status = 200 ∧
    (deallocate sampleStore 3 30).store.findAllocation 3 =
      some { sampleAllocation with deallocationDate := some 30, status := .Completed } ∧
    (∃ r', (deallocate sampleStore 3 30).store.findRoom sampleAllocation.roomId = some r' ∧
      r'.currentOccupancy + 1 = sampleRoom.currentOccupancy ∧
      r'.capacity = sampleRoom.capacity) ∧
    (deallocate sampleStore 3 30).store.findStudent sampleAllocation.studentId =
      some { sampleStudent with roomId := none, currentAllocation := none } :=
  ⟨by decide, by decide, by decide, by decide, by decide,
    deallocate_post_state sampleStore 3 30 sampleAllocation sampleRoom sampleStudent
      (by decide) (by decide) (by decide) (by decide) (by decide)⟩

/-! ## Lease status and completion date over time -/

/-- C9 (monotonic lease state, P4 / I4): for every store, every backend request
and every allocation id that names an allocation both before and after the
request, if the allocation was Completed before, it is Completed after; no
request turns a Completed allocation back to Active. -/
theorem completed_stays_completed (isEmail : String → Bool) (s : Store) (op : Op) (id : Id)
    (a a' : Allocation) (hbefore : s.findAllocation id = some a)
    (hdone : a.status = .Completed)
    (hafter : (step isEmail s op).store.findAllocation id = some a') :
    a'.status = .Completed := by
  unfold Store.findAllocation at hbefore hafter
  rcases step_allocations isEmail s op with
    hsame | ⟨new, _, _, _, happ⟩ | ⟨found, now, _, _, hsave⟩ | ⟨found, _, _, hdel⟩
  · rw [hsame, hbefore] at hafter
    rw [← Option.some.inj hafter]; exact hdone
  · rw [happ, findById_append, hbefore] at hafter
    rw [← Option.some.inj hafter]; exact hdone
  · rw [hsave, findById_saveDoc] at hafter
    split_ifs at hafter with hk
    · rw [hbefore] at hafter
      rw [← Option.some.inj hafter]
    · rw [hbefore] at hafter
      rw [← Option.some.inj hafter]; exact hdone
  · rw [hdel, findById_deleteOne] at hafter
    split_ifs at hafter with hk
    rw [hbefore] at hafter
    rw [← Option.some.inj hafter]; exact hdone

/-- C9 at the sample store after allocation `3` was completed: a further
`CreateLease` for student `1` leaves allocation `3` Completed. -/
theorem completed_stays_completed_witness :
    (deallocate sampleStore 3 30).store.findAllocation 3 =
      some { sampleAllocation with deallocationDate := some 30, status := .Completed } ∧
    (step sampleIsEmail (deallocate sampleStore 3 30).store
        (.postAllocation { studentId := some 1, roomId := some 0 } 40)).store.findAllocation 3 =
      some { sampleAllocation with deallocationDate := some 30, status := .Completed } ∧
    ({ sampleAllocation with deallocationDate := some 30, status := .Completed } :
      Allocation).status = .Completed :=
  ⟨by decide, by decide,
    completed_stays_completed sampleIsEmail (deallocate sampleStore 3 30).store
      (.postAllocation { studentId := some 1, roomId := some 0 } 40) 3
      { sampleAllocation with deallocationDate := some 30, status := .Completed }
      { sampleAllocation with deallocationDate := some 30, status := .Completed }
      (by decide) (by decide) (by decide)⟩

theorem step_keeps_date (isEmail : String → Bool) (s : Store) (op : Op) (id : Id) (d : Date)
    (hc : Consistent s) (hid : id < s.nextId)
    (h : ∀ a ∈ s.allocations, a.id = id → a.deallocationDate = some d) :
    ∀ a ∈ (step isEmail s op).store.allocations, a.id = id → a.deallocationDate = some d := by
  intro a' ha' hk
  rcases step_allocations isEmail s op with
    hsame | ⟨new, hnew, _, _, happ⟩ | ⟨found, now, hf, hact, hsave⟩ | ⟨found, _, _, hdel⟩
  · rw [hsame] at ha'; exact h a' ha' hk
  · rw [happ] at ha'
    simp only [List.mem_append, List.mem_singleton] at ha'
    rcases ha' with ha' | rfl
    · exact h a' ha' hk
    · rw [hnew] at hk
      exact absurd hk (Nat.ne_of_gt hid)
  · rw [hsave] at ha'
    rcases (mem_saveDoc Allocation.id).1 ha' with ⟨ha', _⟩ | ⟨rfl, _⟩
    · exact h a' ha' hk
    · have hmem := (findById_some Allocation.id hf).2
      have hdate := h found hmem hk
      have hdone := (hc.dateIffCompleted found hmem).1 (by rw [hdate]; rfl)
      rw [hact] at hdone
      exact absurd hdone (by simp)
  · rw [hdel] at ha'
    exact h a' ((mem_deleteOne Allocation.id).1 ha').1 hk

theorem run_keeps_date (isEmail : String → Bool) (id : Id) (d : Date) (ops : List Op) :
    ∀ s : Store, Consistent s → id < s.nextId →
      (∀ a ∈ s.allocations, a.id = id → a.deallocationDate = some d) →
      ∀ a ∈ (run isEmail s ops).allocations, a.id = id → a.deallocationDate = some d := by
  induction ops with
  | nil => intro s _ _ h; exact h
  | cons op ops ih =>
    intro s hc hid h
    rw [run_cons]
    exact ih _ (step_consistent isEmail s op hc)
      (Nat.lt_of_lt_of_le hid (step_nextId_le isEmail s op))
      (step_keeps_date isEmail s op id d hc hid h)

/-- C10 (completion timestamp, I4): in every store reachable from the empty
store by serving backend requests one at a time, an allocation's
`deallocationDate` is non-null if and only if its status is Completed; and a
date that is set stays the same through every later sequence of requests, for
as long as the allocation exists. -/
theorem completion_date_invariant (isEmail : String → Bool) (s : Store)
    (h : Reachable isEmail s) :
    (∀ a ∈ s.allocations, a.deallocationDate ≠ none ↔ a.status = .Completed) ∧
    (∀ a ∈ s.allocations, ∀ d, a.deallocationDate = some d →
      ∀ (ops : List Op), ∀ a' ∈ (run isEmail s ops).allocations, a'.id = a.id →
        a'.deallocationDate = some d) := by
  have hc := reachable_consistent isEmail h
  refine ⟨?_, ?_⟩
  · intro a ha
    rw [← hc.dateIffCompleted a ha, Option.isSome_iff_ne_none]
  · intro a ha d hd ops
    apply run_keeps_date isEmail a.id d ops s hc (hc.allocationIds a ha)
    intro b hb hk
    rw [nodup_key_eq Allocation.id hc.allocationNodup hb ha hk]
    exact hd

theorem sampleStoreDone_reachable : Reachable sampleIsEmail sampleStoreDone :=
  reachable_run sampleIsEmail [.deallocate 3 30] sampleStore_reachable

/-- C10 at the sample store after allocation `3` was completed at time `30`:
the date survives a re-allocation of the student and a second deallocation
request. -/
theorem completion_date_invariant_witness :
    Reachable sampleIsEmail sampleStoreDone ∧
    sampleCompleted ∈ sampleStoreDone.allocations ∧
    (sampleCompleted.deallocationDate ≠ none ↔ sampleCompleted.status = .Completed) ∧
    sampleCompleted.deallocationDate = some 30 ∧
    sampleCompleted ∈ (run sampleIsEmail sampleStoreDone sampleLaterOps).allocations ∧
    (∀ a' ∈ (run sampleIsEmail sampleStoreDone sampleLaterOps).allocations,
      a'.id = sampleCompleted.id → a'.deallocationDate = some 30) :=
  have hw := completion_date_invariant sampleIsEmail sampleStoreDone sampleStoreDone_reachable
  ⟨sampleStoreDone_reachable, by decide, hw.1 sampleCompleted (by decide), by decide, by decide,
    hw.2 sampleCompleted (by decide) 30 (by decide) sampleLaterOps⟩

/-! ## Delete guards -/

/-- C11 (delete guards, P5 / I5): in every store, deleting a room whose
`currentOccupancy` is positive, a student whose `currentAllocation` is
non-null, or an allocation whose status is Active is answered with 400 and
the handler's message, leaves the whole store (every student, room and
allocation) unchanged and emits no event. -/
theorem delete_guards (s : Store) (id : Id) :
    (∀ r, s.findRoom id = some r → r.currentOccupancy > 0 →
      (deleteRoom s id).response = ⟨400, .message "Cannot delete room with occupants"⟩ ∧
      (deleteRoom s id).store = s ∧ (deleteRoom s id).events = []) ∧
    (∀ st, s.findStudent id = some st → st.currentAllocation ≠ none →
      (deleteStudent s id).response =
        ⟨400, .message "Cannot delete student with active allocation"⟩ ∧
      (deleteStudent s id).store = s ∧ (deleteStudent s id).events = []) ∧
    (∀ a, s.findAllocation id = some a → a.status = .Active →
      (deleteAllocation s id).response =
        ⟨400, .message "Cannot delete active allocation. Deallocate first."⟩ ∧
      (deleteAllocation s id).store = s ∧ (deleteAllocation s id).events = []) := by
  refine ⟨?_, ?_, ?_⟩
  · intro r hr hocc
    refine ⟨?_, ?_, ?_⟩ <;> simp [deleteRoom, hr, hocc, reject]
  · intro st hst hcur
    have hsome : st.currentAllocation.isSome = true := by
      cases h : st.currentAllocation with
      | none => exact absurd h hcur
      | some _ => rfl
    refine ⟨?_, ?_, ?_⟩ <;> simp [deleteStudent, hst, hsome, reject]
  · intro a ha hact
    refine ⟨?_, ?_, ?_⟩ <;> simp [deleteAllocation, ha, hact, reject]

/-- C11 at the sample store: room `0` has one occupant, student `1` is
allocated, allocation `3` is Active. -/
theorem delete_guards_witness :
    ((deleteRoom sampleStore 0).response =
        ⟨400, .message "Cannot delete room with occupants"⟩ ∧
      (deleteRoom sampleStore 0).store = sampleStore ∧ (deleteRoom sampleStore 0).events = []) ∧
    ((deleteStudent sampleStore 1).response =
        ⟨400, .message "Cannot delete student with active allocation"⟩ ∧
      (deleteStudent sampleStore 1).store = sampleStore ∧
      (deleteStudent sampleStore 1).events = []) ∧
    ((deleteAllocation sampleStore 3).response =
        ⟨400, .message "Cannot delete active allocation. Deallocate first."⟩ ∧
      (deleteAllocation sampleStore 3).store = sampleStore ∧
      (deleteAllocation sampleStore 3).events = []) :=
  ⟨(delete_guards sampleStore 0).1 sampleRoom (by decide) (by decide),
    (delete_guards sampleStore 1).2.1 sampleStudent (by decide) (by decide),
    (delete_guards sampleStore 3).2.2 sampleAllocation (by decide) (by decide)⟩

/-! ## How one request changes the room collection -/

/-- A room update is either answered without a write, or the loaded room is
written back through the save hook with the same `_id` and occupancy, the
status of the request (the old one when the request has none) and the
capacity of the request (the old one when the request has none or `0`). -/
theorem putRoom_detail (s : Store) (id : Id) (body : RoomBody) :
    ((putRoom s id body).store = s ∧ (putRoom s id body).response.status ≠ 200) ∨
    ∃ room pre, s.findRoom id = some room ∧ pre.id = room.id ∧
      pre.currentOccupancy = room.currentOccupancy ∧
      (body.status = "" → pre.status = room.status) ∧
      (body.status ≠ "" → RoomStatus.ofString body.status = some pre.status) ∧
      (∀ c, body.capacity = some c → c ≠ 0 → (pre.capacity : Int) = c) ∧
      ((∀ c, body.capacity = some c → c = 0) → pre.capacity = room.capacity) ∧
      1 ≤ pre.capacity ∧
      (putRoom s id body).response.status = 200 ∧
      (putRoom s id body).store =
        { s with rooms := saveDoc Room.id s.rooms (roomPreSave pre) } := by
  unfold putRoom
  cases hf : s.findRoom id with
  | none => left; exact ⟨rfl, by simp [reject]⟩
  | some room =>
    simp only
    by_cases h1 : body.roomNumber ≠ "" ∧ body.roomNumber ≠ room.roomNumber ∧
        (s.rooms.find? (fun r => r.roomNumber == body.roomNumber)).isSome
    · left; rw [if_pos h1]; exact ⟨rfl, by simp [reject]⟩
    · rw [if_neg h1]
      split
      · left; exact ⟨rfl, by simp⟩
      · rename_i status hstatus
        split
        · left; exact ⟨rfl, by simp⟩
        · rename_i hcap
          right
          refine ⟨room, _, rfl, ?_, ?_, ?_, ?_, ?_, ?_, ?_, rfl, rfl⟩
          · rfl
          · rfl
          · intro hs
            simp only [hs, ne_eq, not_true_eq_false, if_false, Option.some.injEq] at hstatus
            exact hstatus.symm
          · intro hs
            simp only [ne_eq, hs, not_false_eq_true, if_true] at hstatus
            exact hstatus
          · intro c hc hne
            simp only [hc, ne_eq, hne, not_false_eq_true, if_true] at hcap ⊢
            exact Int.toNat_of_nonneg (by omega)
          · intro hc
            cases hb : body.capacity with
            | none => simp
            | some c =>
              have := hc c hb
              simp [this]
          · show 1 ≤ Int.toNat _
            omega

theorem roomWrite_id {op : Op} {room pre : Room} (h : RoomWrite op room pre) :
    pre.id = room.id := by
  rcases h with ⟨_, rfl, _⟩ | ⟨_, rfl, _⟩ | ⟨_, _, _, _, hid, _⟩
  · rfl
  · rfl
  · exact hid

theorem postRoom_rooms (s : Store) (body : RoomBody) :
    (postRoom s body).store.rooms = s.rooms ∨
    ∃ new : Room, new.id = s.nextId ∧ new.currentOccupancy = 0 ∧ new.status = .Available ∧
      1 ≤ new.capacity ∧ (postRoom s body).store.rooms = s.rooms ++ [new] := by
  unfold postRoom
  cases hc : body.capacity with
  | none => left; rfl
  | some capacity =>
    simp only
    by_cases hv : body.roomNumber = "" ∨ capacity < 1
    · left; rw [if_pos hv]
    · rw [if_neg hv]
      cases hf : s.rooms.find? (fun r => r.roomNumber == body.roomNumber) with
      | some r0 => left; rfl
      | none =>
        right
        have hcap : 1 ≤ capacity.toNat := by
          have : ¬ capacity < 1 := fun h => hv (Or.inr h)
          omega
        refine ⟨_, ?_, ?_, ?_, ?_, rfl⟩
        · simp
        · simp
        · unfold roomPreSave
          have : ¬ (0 ≥ capacity.toNat) := by omega
          simp [this]
        · simpa using hcap

theorem deleteRoom_rooms (s : Store) (id : Id) :
    (deleteRoom s id).store.rooms = s.rooms ∨
    ∃ room, s.findRoom room.id = some room ∧ room.currentOccupancy = 0 ∧
      (deleteRoom s id).response.status = 200 ∧
      (deleteRoom s id).store.rooms = deleteOne Room.id s.rooms room.id := by
  unfold deleteRoom
  cases hf : s.findRoom id with
  | none => left; rfl
  | some room =>
    simp only
    by_cases hocc : room.currentOccupancy > 0
    · left; rw [if_pos hocc]; rfl
    · rw [if_neg hocc]
      right
      have hk := (findById_some Room.id hf).1
      refine ⟨room, ?_, by omega, rfl, rfl⟩
      rw [hk]; exact hf

/-- The room collection after one request is the old one, the old one with a
fresh empty room appended, the old one with one loaded room written back
through the save hook, or the old one with an empty room removed. -/
theorem step_rooms (isEmail : String → Bool) (s : Store) (op : Op) :
    (step isEmail s op).store.rooms = s.rooms
    ∨ (∃ new : Room, new.id = s.nextId ∧ new.currentOccupancy = 0 ∧ new.status = .Available ∧
        1 ≤ new.capacity ∧ (step isEmail s op).store.rooms = s.rooms ++ [new])
    ∨ (∃ room pre : Room, s.findRoom room.id = some room ∧ RoomWrite op room pre ∧
        (step isEmail s op).store.rooms = saveDoc Room.id s.rooms (roomPreSave pre))
    ∨ (∃ room, s.findRoom room.id = some room ∧ room.currentOccupancy = 0 ∧
        (step isEmail s op).store.rooms = deleteOne Room.id s.rooms room.id) := by
  cases op with
  | postRoom body =>
    rcases postRoom_rooms s body with h | ⟨new, h1, h2, h3, h4, h5⟩
    · left; exact h
    · right; left; exact ⟨new, h1, h2, h3, h4, h5⟩
  | putRoom id body =>
    rcases putRoom_detail s id body with
      ⟨hs, _⟩ | ⟨room, pre, hf, h1, h2, h3, h4, h5, h6, h7, _, hs⟩
    · left; simp only [step, hs]
    · right; right; left
      have hk := (findById_some Room.id hf).1
      refine ⟨room, pre, ?_,
        Or.inr (Or.inr ⟨id, body, rfl, hk, h1, h2, h3, h4, h5, h6, h7⟩), ?_⟩
      · rw [hk]; exact hf
      · simp only [step, hs]
  | deleteRoom id =>
    rcases deleteRoom_rooms s id with h | ⟨room, h1, h2, _, h3⟩
    · left; exact h
    · right; right; right; exact ⟨room, h1, h2, h3⟩
  | postStudent body =>
    left
    rcases postStudent_cases isEmail s body with hs | ⟨_, _, _, hs⟩ <;> simp only [step, hs]
  | putStudent id body =>
    left
    rcases putStudent_cases s id body with hs | ⟨_, _, _, _, _, _, hs⟩ <;> simp only [step, hs]
  | deleteStudent id =>
    left
    rcases deleteStudent_cases s id with hs | ⟨_, _, _, hs⟩ <;> simp only [step, hs]
  | postAllocation body now =>
    rcases postAllocation_cases s body now with
      ⟨hs, _⟩ | ⟨sid, rid, _, room, _, _, _, _, hfr, hlt, _, hs⟩
    · left; simp only [step, hs]
    · right; right; left
      have hk := (findById_some Room.id hfr).1
      refine ⟨room, _, ?_, Or.inl ⟨⟨body, now, rfl⟩, rfl, hlt⟩, ?_⟩
      · rw [hk]; exact hfr
      · simp only [step, hs]
  | deallocate id now =>
    rcases deallocate_cases s id now with ⟨hs, _⟩ | ⟨found, _, _, _, hs⟩
    · left; simp only [step, hs]
    · cases hfr : s.findRoom found.roomId with
      | none => left; simp only [step, hs, hfr]
      | some room =>
        by_cases hgt : room.currentOccupancy > 0
        · right; right; left
          have hk := (findById_some Room.id hfr).1
          refine ⟨room, _, ?_, Or.inr (Or.inl ⟨⟨id, now, rfl⟩, rfl, hgt⟩), ?_⟩
          · rw [hk]; exact hfr
          · simp only [step, hs, hfr, if_pos hgt]
        · left; simp only [step, hs, hfr, if_neg hgt]
  | deleteAllocation id =>
    left
    rcases deleteAllocation_cases s id with hs | ⟨_, _, _, hs⟩ <;> simp only [step, hs]

/-- Lookup form of `step_rooms`: the room found under an id after a request
is the room found before, or that room written back through the save hook. -/
theorem step_findRoom (isEmail : String → Bool) (s : Store) (op : Op) (roomId : Id)
    {r r' : Room} (hr : s.findRoom roomId = some r)
    (hr' : (step isEmail s op).store.findRoom roomId = some r') :
    r' = r ∨ ∃ pre, RoomWrite op r pre ∧ r' = roomPreSave pre := by
  unfold Store.findRoom at hr hr'
  rcases step_rooms isEmail s op with
    hsame | ⟨new, _, _, _, _, happ⟩ | ⟨room, pre, hf, hw, hsave⟩ | ⟨room, _, _, hdel⟩
  · rw [hsame, hr] at hr'
    left; exact (Option.some.inj hr').symm
  · rw [happ, findById_append, hr] at hr'
    left; exact (Option.some.inj hr').symm
  · rw [hsave, findById_saveDoc] at hr'
    split_ifs at hr' with hk
    · unfold Store.findRoom at hf
      rw [roomPreSave_id, roomWrite_id hw] at hk
      rw [hk] at hr
      have hEq : room = r := Option.some.inj (hf.symm.trans hr)
      subst hEq
      rw [hk, hf] at hr'
      right
      exact ⟨pre, hw, (Option.some.inj hr').symm⟩
    · rw [hr] at hr'
      left; exact (Option.some.inj hr').symm
  · rw [hdel, findById_deleteOne] at hr'
    split_ifs at hr' with hk
    rw [hr] at hr'
    left; exact (Option.some.inj hr').symm

/-- Membership form of `step_rooms`: a room stored after a request was stored
before, is a fresh empty room, or is a loaded room written back through the
save hook. -/
theorem step_rooms_mem (isEmail : String → Bool) (s : Store) (op : Op) {r' : Room}
    (hr' : r' ∈ (step isEmail s op).store.rooms) :
    r' ∈ s.rooms
    ∨ (r'.currentOccupancy = 0 ∧ r'.status = .Available ∧ 1 ≤ r'.capacity)
    ∨ ∃ room pre, s.findRoom room.id = some room ∧ RoomWrite op room pre ∧
        r' = roomPreSave pre := by
  rcases step_rooms isEmail s op with
    hsame | ⟨new, _, h2, h3, h4, happ⟩ | ⟨room, pre, hf, hw, hsave⟩ | ⟨room, _, _, hdel⟩
  · left; rw [← hsame]; exact hr'
  · rw [happ] at hr'
    simp only [List.mem_append, List.mem_singleton] at hr'
    rcases hr' with h | rfl
    · left; exact h
    · right; left; exact ⟨h2, h3, h4⟩
  · rw [hsave] at hr'
    rcases (mem_saveDoc Room.id).1 hr' with ⟨h, _⟩ | ⟨rfl, _⟩
    · left; exact h
    · right; right
      exact ⟨room, pre, hf, hw, rfl⟩
  · rw [hdel] at hr'
    left; exact ((mem_deleteOne Room.id).1 hr').1

/-! ## Occupancy range and room status -/

theorem sampleStoreFull_reachable : Reachable sampleIsEmail sampleStoreFull :=
  reachable_run sampleIsEmail
    [.postAllocation { studentId := some 2, roomId := some 0 } 11] sampleStore_reachable

/-- C12 fails as stated: in the reachable store `sampleStoreFull` every room is
within its capacity, the room update of room `0` with capacity `1` is
accepted, and afterwards a room has more occupants than capacity. -/
theorem occupancy_range_counterexample :
    Reachable sampleIsEmail sampleStoreFull ∧
    (∀ r ∈ sampleStoreFull.rooms, r.currentOccupancy ≤ r.capacity) ∧
    (step sampleIsEmail sampleStoreFull (.putRoom 0 { capacity := some 1 })).response.status
      = 200 ∧
    ∃ r ∈ (step sampleIsEmail sampleStoreFull (.putRoom 0 { capacity := some 1 })).store.rooms,
      r.capacity < r.currentOccupancy :=
  ⟨sampleStoreFull_reachable, by decide, by decide, by decide⟩

/-- C12 as amended (occupancy range, I2 second half): every backend request
keeps `0 <= currentOccupancy <= capacity` for every room, except a room
update whose new capacity is below the room's `currentOccupancy`. -/
theorem occupancy_range_preserved (isEmail : String → Bool) (s : Store) (op : Op)
    (h : ∀ r ∈ s.rooms, r.currentOccupancy ≤ r.capacity)
    (hput : ∀ id body r c, op = .putRoom id body → s.findRoom id = some r →
      body.capacity = some c → c ≠ 0 → (r.currentOccupancy : Int) ≤ c) :
    ∀ r ∈ (step isEmail s op).store.rooms,
      0 ≤ r.currentOccupancy ∧ r.currentOccupancy ≤ r.capacity := by
  intro r' hr'
  refine ⟨Nat.zero_le _, ?_⟩
  rcases step_rooms_mem isEmail s op hr' with hold | ⟨h0, _, _⟩ | ⟨room, pre, hf, hw, rfl⟩
  · exact h r' hold
  · omega
  · have hroom := h room (findById_some Room.id hf).2
    simp only [roomPreSave_currentOccupancy, roomPreSave_capacity]
    rcases hw with
      ⟨_, rfl, hlt⟩ | ⟨_, rfl, _⟩ | ⟨id, body, hop, hid, _, hocc, _, _, hc1, hc2, _⟩
    · exact hlt
    · exact Nat.le_trans (Nat.sub_le _ _) hroom
    · rw [hocc]
      cases hb : body.capacity with
      | none =>
        rw [hc2 (fun c hc => by rw [hb] at hc; exact absurd hc (by simp))]
        exact hroom
      | some c =>
        by_cases hz : c = 0
        · rw [hc2 (fun c' hc' => by rw [hb] at hc'; rw [← Option.some.inj hc']; exact hz)]
          exact hroom
        · have h1 := hc1 c hb hz
          have h2 := hput id body room c hop (by rw [← hid]; exact hf) hb hz
          omega

/-- C12 as amended, at the sample store: raising the capacity of room `0`
from 2 to 3 keeps every room within its capacity. -/
theorem occupancy_range_preserved_witness :
    (∀ r ∈ sampleStore.rooms, r.currentOccupancy ≤ r.capacity) ∧
    (∀ r ∈ (step sampleIsEmail sampleStore (.putRoom 0 { capacity := some 3 })).store.rooms,
      0 ≤ r.currentOccupancy ∧ r.currentOccupancy ≤ r.capacity) :=
  ⟨by decide,
    occupancy_range_preserved sampleIsEmail sampleStore (.putRoom 0 { capacity := some 3 })
      (by decide)
      (by
        intro id body r c hop hr hc _
        cases hop
        have hfind : sampleStore.findRoom 0 = some sampleRoom := by decide
        rw [hfind] at hr
        cases hr
        cases hc
        decide)⟩

theorem roomPreSave_status_eq (r : Room) :
    (roomPreSave r).status =
      if r.currentOccupancy ≥ r.capacity then .Occupied
      else if r.currentOccupancy = 0 ∧ r.status ≠ .Maintenance then .Available
      else r.status := by
  unfold roomPreSave
  split_ifs <;> rfl

/-- C13 fails as stated: room `0` of `sampleStoreFull` is full (capacity 2,
status Occupied, not Maintenance); completing allocation `3` lowers its
occupancy to 1, which differs from the capacity, and the status stays
Occupied instead of becoming Available. -/
theorem status_rederivation_counterexample :
    sampleStoreFull.findRoom 0 = some sampleRoomFull ∧
    sampleRoomFull.status ≠ .Maintenance ∧
    2 ≤ sampleRoomFull.capacity ∧
    (deallocate sampleStoreFull 3 30).response.status = 200 ∧
    (deallocate sampleStoreFull 3 30).store.findRoom 0 =
      some { sampleRoomFull with currentOccupancy := 1 } ∧
    ({ sampleRoomFull with currentOccupancy := 1 } : Room).currentOccupancy ≠
      sampleRoomFull.capacity ∧
    ({ sampleRoomFull with currentOccupancy := 1 } : Room).status ≠ .Available :=
  ⟨by decide, by decide, by decide, by decide, by decide, by decide, by decide⟩

/-- C13 as amended (status after an occupancy change): whenever a request
changes the occupancy of a room that is not flagged Maintenance, the resulting
status is Occupied if the new occupancy is at least the capacity, Available
if the new occupancy is 0, and otherwise the status the room had before; so
completing one lease of a full, Occupied room with capacity at least 2 leaves
the status Occupied. -/
theorem status_after_occupancy_change (isEmail : String → Bool) (s : Store) (op : Op)
    (roomId : Id) (r r' : Room) (hr : s.findRoom roomId = some r)
    (hr' : (step isEmail s op).store.findRoom roomId = some r')
    (hchg : r'.currentOccupancy ≠ r.currentOccupancy) (hnm : r.status ≠ .Maintenance) :
    r'.status =
      if r'.currentOccupancy ≥ r'.capacity then .Occupied
      else if r'.currentOccupancy = 0 then .Available
      else r.status := by
  rcases step_findRoom isEmail s op roomId hr hr' with rfl | ⟨pre, hw, rfl⟩
  · exact absurd rfl hchg
  · rw [roomPreSave_status_eq]
    simp only [roomPreSave_currentOccupancy, roomPreSave_capacity]
    rcases hw with ⟨_, rfl, _⟩ | ⟨_, rfl, _⟩ | ⟨_, _, _, _, _, hocc, _⟩
    · by_cases hge : r.currentOccupancy + 1 ≥ r.capacity
      · simp [hge]
      · simp [hge]
    · by_cases hge : r.currentOccupancy - 1 ≥ r.capacity
      · simp [hge]
      · by_cases hz : r.currentOccupancy - 1 = 0
        · simp [hge, hz, hnm]
        · simp [hge, hz]
    · rw [roomPreSave_currentOccupancy] at hchg
      exact absurd hocc hchg

/-- C13 as amended, at the full sample room: completing allocation `3` changes
the occupancy from 2 to 1 and the status stays Occupied. -/
theorem status_after_occupancy_change_witness :
    sampleStoreFull.findRoom 0 = some sampleRoomFull ∧
    (step sampleIsEmail sampleStoreFull (.deallocate 3 30)).store.findRoom 0 =
      some { sampleRoomFull with currentOccupancy := 1 } ∧
    ({ sampleRoomFull with currentOccupancy := 1 } : Room).status =
      (if ({ sampleRoomFull with currentOccupancy := 1 } : Room).currentOccupancy ≥
          ({ sampleRoomFull with currentOccupancy := 1 } : Room).capacity then .Occupied
       else if ({ sampleRoomFull with currentOccupancy := 1 } : Room).currentOccupancy = 0
         then .Available
       else sampleRoomFull.status) ∧
    ({ sampleRoomFull with currentOccupancy := 1 } : Room).status = .Occupied :=
  ⟨by decide, by decide,
    status_after_occupancy_change sampleIsEmail sampleStoreFull (.deallocate 3 30) 0
      sampleRoomFull { sampleRoomFull with currentOccupancy := 1 }
      (by decide) (by decide) (by decide) (by decide),
    by decide⟩

/-- C14 fails as stated: room `0` of `sampleStoreMaint` has status Maintenance
and capacity 1; allocating student `1` to it is accepted and the save at
occupancy 1 = capacity sets the status Occupied. -/
theorem maintenance_sticky_counterexample :
    sampleStoreMaint.findRoom 0 = some sampleRoomMaint ∧
    sampleRoomMaint.status = .Maintenance ∧
    (createLease sampleStoreMaint 1 0 none 10).response.status = 201 ∧
    (createLease sampleStoreMaint 1 0 none 10).store.findRoom 0 =
      some { sampleRoomMaint with currentOccupancy := 1, status := .Occupied } ∧
    (roomPreSave { sampleRoomMaint with currentOccupancy := 1 }).status ≠ .Maintenance :=
  ⟨by decide, by decide, by decide, by decide, by decide⟩

/-- C14 as amended (Maintenance below capacity): for every room whose status
is Maintenance the save hook keeps Maintenance when the occupancy is below
the capacity and sets Occupied when the occupancy is at least the capacity;
accordingly, after any request other than a room update that carries a status,
a room that was Maintenance is still Maintenance whenever its occupancy is
below its capacity, and a room written back at full occupancy is Occupied. -/
theorem maintenance_kept_below_capacity (isEmail : String → Bool) (s : Store) (op : Op)
    (roomId : Id) (r r' : Room) (hr : s.findRoom roomId = some r)
    (hr' : (step isEmail s op).store.findRoom roomId = some r')
    (hm : r.status = .Maintenance)
    (hput : ∀ id body, op = .putRoom id body → body.status = "") :
    (∀ room : Room, room.status = .Maintenance →
      (roomPreSave room).status =
        if room.currentOccupancy ≥ room.capacity then .Occupied else .Maintenance) ∧
    (r'.currentOccupancy < r'.capacity → r'.status = .Maintenance) ∧
    (r' ≠ r → r'.capacity ≤ r'.currentOccupancy → r'.status = .Occupied) := by
  have hook : ∀ room : Room, room.status = .Maintenance →
      (roomPreSave room).status =
        if room.currentOccupancy ≥ room.capacity then .Occupied else .Maintenance := by
    intro room hs
    rw [roomPreSave_status_eq]
    by_cases hge : room.currentOccupancy ≥ room.capacity
    · simp [hge]
    · simp [hge, hs]
  refine ⟨hook, ?_⟩
  rcases step_findRoom isEmail s op roomId hr hr' with rfl | ⟨pre, hw, rfl⟩
  · exact ⟨fun _ => hm, fun hne => absurd rfl hne⟩
  · have hpre : pre.status = .Maintenance := by
      rcases hw with ⟨_, rfl, _⟩ | ⟨_, rfl, _⟩ | ⟨id, body, hop, _, _, _, hst, _⟩
      · exact hm
      · exact hm
      · rw [hst (hput id body hop)]; exact hm
    simp only [roomPreSave_currentOccupancy, roomPreSave_capacity, hook pre hpre]
    constructor
    · intro hlt
      rw [if_neg (Nat.not_le_of_lt hlt)]
    · intro _ hge
      rw [if_pos hge]

/-- C14 as amended, at the maintenance room of `sampleStoreMaint`: an update of
its floor keeps Maintenance (occupancy 0 below capacity 1). -/
theorem maintenance_kept_below_capacity_witness :
    sampleStoreMaint.findRoom 0 = some sampleRoomMaint ∧
    (step sampleIsEmail sampleStoreMaint (.putRoom 0 { floor := some (some 2) })).store.findRoom 0
      = some { sampleRoomMaint with floor := some 2 } ∧
    ({ sampleRoomMaint with floor := some 2 } : Room).status = .Maintenance :=
  ⟨by decide, by decide,
    (maintenance_kept_below_capacity sampleIsEmail sampleStoreMaint
      (.putRoom 0 { floor := some (some 2) }) 0 sampleRoomMaint
      { sampleRoomMaint with floor := some 2 } (by decide) (by decide) (by decide)
      (by intro id body hop; cases hop; rfl)).2.1 (by decide)⟩

/-- C15 fails as stated: the document `sampleOverfull` (capacity 1, two
occupants, status Available) is in none of the first two cases of the rule
(occupancy differs from capacity and is not 0), yet the save hook does not
return the prior status; the document is the one that the room update of
`sampleStoreFull` with capacity `1` and status `"Available"` saves. -/
theorem status_derivation_counterexample :
    1 ≤ sampleOverfull.capacity ∧
    sampleOverfull.currentOccupancy ≠ sampleOverfull.capacity ∧
    ¬ (sampleOverfull.currentOccupancy = 0 ∧ sampleOverfull.status ≠ .Maintenance) ∧
    (roomPreSave sampleOverfull).status ≠ sampleOverfull.status ∧
    (putRoom sampleStoreFull 0 { capacity := some 1, status := "Available" }).store.findRoom 0
      = some (roomPreSave sampleOverfull) :=
  ⟨by decide, by decide, by decide, by decide, by decide⟩

/-- C15 as amended (status derivation, section 3 rule): for every room with
capacity at least 1, the save hook returns Occupied when `currentOccupancy` is
at least the capacity, Available when `currentOccupancy` is 0 and the prior
status is not Maintenance, and in every other case the prior status; no other
field is changed. -/
theorem status_derivation (r : Room) (hcap : 1 ≤ r.capacity) :
    (r.currentOccupancy ≥ r.capacity → (roomPreSave r).status = .Occupied) ∧
    (r.currentOccupancy = 0 → r.status ≠ .Maintenance →
      (roomPreSave r).status = .Available) ∧
    (¬ r.currentOccupancy ≥ r.capacity →
      ¬ (r.currentOccupancy = 0 ∧ r.status ≠ .Maintenance) →
      (roomPreSave r).status = r.status) ∧
    roomPreSave r = { r with status := (roomPreSave r).status } := by
  refine ⟨?_, ?_, ?_, ?_⟩
  · intro hge
    rw [roomPreSave_status_eq, if_pos hge]
  · intro hz hnm
    have hlt : ¬ r.currentOccupancy ≥ r.capacity := by omega
    rw [roomPreSave_status_eq, if_neg hlt, if_pos ⟨hz, hnm⟩]
  · intro hlt hno
    rw [roomPreSave_status_eq, if_neg hlt, if_neg hno]
  · unfold roomPreSave
    split_ifs <;> rfl

/-- C15 as amended, at the overfull document and at the sample room. -/
theorem status_derivation_witness :
    1 ≤ sampleOverfull.capacity ∧ (roomPreSave sampleOverfull).status = .Occupied ∧
    1 ≤ sampleRoom.capacity ∧ (roomPreSave sampleRoom).status = sampleRoom.status :=
  ⟨by decide, (status_derivation sampleOverfull (by decide)).1 (by decide),
    by decide, (status_derivation sampleRoom (by decide)).2.2.1 (by decide) (by decide)⟩

/-! ## Scenarios A and B -/

theorem createLease_success (s : Store) (studentId roomId : Id) (notes : Option String)
    (now : Date) {st : Student} {r : Room} (hst : s.findStudent studentId = some st)
    (hcur : st.currentAllocation = none) (hr : s.findRoom roomId = some r)
    (hlt : r.currentOccupancy < r.capacity) :
    createLease s studentId roomId notes now =
      { store :=
          { students := saveDoc Student.id s.students
              { st with roomId := some roomId, currentAllocation := some s.nextId }
            rooms := saveDoc Room.id s.rooms
              (roomPreSave { r with currentOccupancy := r.currentOccupancy + 1 })
            allocations := s.allocations ++
              [{ id := s.nextId, studentId := studentId, roomId := roomId,
                 allocationDate := now, notes := notes }]
            nextId := s.nextId + 1 }
        response := ⟨201, .allocation
          { id := s.nextId, studentId := studentId, roomId := roomId,
            allocationDate := now, notes := notes }⟩
        events := [.allocation_created
          { id := s.nextId, studentId := studentId, roomId := roomId,
            allocationDate := now, notes := notes }
          (roomPreSave { r with currentOccupancy := r.currentOccupancy + 1 })
          { st with roomId := some roomId, currentAllocation := some s.nextId }] } := by
  have hnot : ¬ r.currentOccupancy ≥ r.capacity := Nat.not_le_of_lt hlt
  simp [createLease, postAllocation, hst, hcur, hr, hnot]

theorem createLease_full (s : Store) (studentId roomId : Id) (notes : Option String)
    (now : Date) {st : Student} {r : Room} (hst : s.findStudent studentId = some st)
    (hcur : st.currentAllocation = none) (hr : s.findRoom roomId = some r)
    (hge : r.currentOccupancy ≥ r.capacity) :
    createLease s studentId roomId notes now = reject s 400 "Room is at full capacity" := by
  simp [createLease, postAllocation, hst, hcur, hr, hge]

theorem createLease_allocated (s : Store) (studentId roomId : Id) (notes : Option String)
    (now : Date) {st : Student} {aid : Id} (hst : s.findStudent studentId = some st)
    (hcur : st.currentAllocation = some aid) :
    createLease s studentId roomId notes now =
      reject s 400 "Student already has an active allocation" := by
  simp [createLease, postAllocation, hst, hcur]

theorem createLease_findStudent_ne (s : Store) (studentId roomId : Id)
    (notes : Option String) (now : Date) {other : Id} (hne : other ≠ studentId) :
    (createLease s studentId roomId notes now).store.findStudent other =
      s.findStudent other := by
  unfold createLease
  rcases postAllocation_cases s ⟨some studentId, some roomId, notes⟩ now with
    ⟨hs, _⟩ | ⟨sid, rid, st, r, hsid, _, hfs, _, _, _, _, hs⟩
  · rw [hs]
  · simp only [Option.some.injEq] at hsid
    subst hsid
    rw [hs]
    have hk := (findById_some Student.id hfs).1
    apply findById_saveDoc_ne Student.id
    simpa [hk] using hne

theorem createLeases_append (s : Store) (xs ys : List (Id × Id × Option String × Date)) :
    createLeases s (xs ++ ys) = createLeases (createLeases s xs) ys := by
  unfold createLeases
  rw [List.foldl_append]

theorem createLeases_findStudent (calls : List (Id × Id × Option String × Date)) :
    ∀ (s : Store) (other : Id), other ∉ calls.map (·.1) →
      (createLeases s calls).findStudent other = s.findStudent other := by
  induction calls with
  | nil => intro s other _; rfl
  | cons c cs ih =>
    intro s other hnot
    simp only [List.map_cons, List.mem_cons, not_or] at hnot
    unfold createLeases
    rw [List.foldl_cons]
    have := ih (createLease s c.1 c.2.1 c.2.2.1 c.2.2.2).store other hnot.2
    unfold createLeases at this
    rw [this]
    exact createLease_findStudent_ne s c.1 c.2.1 c.2.2.1 c.2.2.2 hnot.1

theorem not_mem_take_of_nodup {α β : Type} (f : α → β) {l : List α} (hnd : (l.map f).Nodup)
    {k : Nat} {x : α} (hx : l[k]? = some x) : f x ∉ (l.take k).map f := by
  obtain ⟨hk, rfl⟩ := List.getElem?_eq_some.1 hx
  have hsplit : l = l.take k ++ l[k] :: l.drop (k + 1) := by
    rw [← List.drop_eq_getElem_cons hk, List.take_append_drop]
  rw [hsplit, List.map_append, List.map_cons] at hnd
  have hdis := (List.nodup_append.1 hnd).2.2
  intro hmem
  have hmem2 : f l[k] ∈ f l[k] :: List.map f (l.drop (k + 1)) := List.mem_cons_self _ _
  have : f l[k] ∈ List.map f (List.take k l) := by
    simpa using hmem
  exact hdis this hmem2

theorem roomPreSave_eq (r : Room) :
    roomPreSave r =
      { r with status :=
          if r.currentOccupancy ≥ r.capacity then .Occupied
          else if r.currentOccupancy = 0 ∧ r.status ≠ .Maintenance then .Available
          else r.status } := by
  unfold roomPreSave
  split_ifs <;> rfl

theorem createLeases_singleton (s : Store) (call : Id × Id × Option String × Date) :
    createLeases s [call] = (createLease s call.1 call.2.1 call.2.2.1 call.2.2.2).store := rfl

theorem findRoom_createLease_success (s : Store) (studentId roomId : Id)
    (notes : Option String) (now : Date) {st : Student} {r : Room}
    (hst : s.findStudent studentId = some st) (hcur : st.currentAllocation = none)
    (hr : s.findRoom roomId = some r) (hlt : r.currentOccupancy < r.capacity) :
    (createLease s studentId roomId notes now).store.findRoom roomId =
      some (roomPreSave { r with currentOccupancy := r.currentOccupancy + 1 }) := by
  rw [createLease_success s studentId roomId notes now hst hcur hr hlt]
  have hk := (findById_some Room.id hr).1
  have h0 : findById Room.id s.rooms
      (Room.id (roomPreSave { r with currentOccupancy := r.currentOccupancy + 1 }))
      = some r := by
    simpa [hk] using hr
  have := findById_saveDoc_self Room.id h0
  simpa [Store.findRoom, hk] using this

theorem scenario_room_after (s : Store) (roomId : Id) (room : Room) (c : Nat)
    (calls : List (Id × Id × Option String × Date)) (hc : 1 ≤ c)
    (hroom : s.findRoom roomId = some room) (hcap : room.capacity = c)
    (hocc : room.currentOccupancy = 0) (hst : room.status = .Available)
    (hrid : ∀ call ∈ calls, call.2.1 = roomId) (hnd : (calls.map (·.1)).Nodup)
    (hfree : ∀ call ∈ calls, ∃ st, s.findStudent call.1 = some st ∧
      st.currentAllocation = none) :
    ∀ k, k ≤ c → k ≤ calls.length →
      (createLeases s (calls.take k)).findRoom roomId =
        some { room with currentOccupancy := k,
                         status := if k = c then .Occupied else .Available } := by
  intro k
  induction k with
  | zero =>
    intro _ _
    have h0 : ¬ (0 = c) := by omega
    rw [List.take_zero, if_neg h0]
    show s.findRoom roomId = _
    rw [hroom, ← hocc, ← hst]
  | succ k ih =>
    intro hkc hkl
    have hk : k < calls.length := hkl
    have hget : calls[k]? = some calls[k] := List.getElem?_eq_getElem hk
    have hmem : calls[k] ∈ calls := List.getElem_mem hk
    have hprev := ih (by omega) (by omega)
    rw [List.take_succ, hget, Option.toList_some, createLeases_append, createLeases_singleton,
      hrid _ hmem]
    obtain ⟨st, hfs, hcur⟩ := hfree _ hmem
    have hfs' : (createLeases s (calls.take k)).findStudent calls[k].1 = some st := by
      rw [createLeases_findStudent _ s _ (not_mem_take_of_nodup (·.1) hnd hget)]
      exact hfs
    rw [findRoom_createLease_success _ _ roomId _ _ hfs' hcur hprev
      (by show k < room.capacity; omega), roomPreSave_eq]
    have hk1 : ¬ (k = c) := by omega
    have hz : ¬ (k + 1 = 0) := by omega
    by_cases hfull : k + 1 = c
    · have hge : k + 1 ≥ room.capacity := by omega
      simp [hfull, hge, hcap]
    · have hge : ¬ (k + 1 ≥ room.capacity) := by omega
      simp [hfull, hge, hk1, hcap]
      omega

theorem free_of_map (s : Store) (id : Id)
    (h : (s.findStudent id).map (·.currentAllocation) = some none) :
    ∃ st, s.findStudent id = some st ∧ st.currentAllocation = none := by
  cases hf : s.findStudent id with
  | none => rw [hf] at h; exact absurd h (by simp)
  | some st =>
    rw [hf] at h
    exact ⟨st, rfl, Option.some.inj h⟩

/-- C16 (Scenario A generalised): for every capacity `c >= 1`, a room with
occupancy 0 and status Available, and `c + 1` `CreateLease` calls for that room
by `c + 1` distinct unallocated students, the call at position `k` (counted
from 0, after the first `k` calls were served) succeeds for every `k < c` and
leaves the room with `currentOccupancy = k + 1` and status Available, except
that the call that fills the room (`k + 1 = c`) leaves status Occupied; the
last call (`k = c`) is answered 400 "Room is at full capacity" and leaves the
store, hence the room, unchanged. -/
theorem scenario_A (s : Store) (roomId : Id) (room : Room) (c : Nat)
    (calls : List (Id × Id × Option String × Date)) (hc : 1 ≤ c)
    (hroom : s.findRoom roomId = some room) (hcap : room.capacity = c)
    (hocc : room.currentOccupancy = 0) (hst : room.status = .Available)
    (hlen : calls.length = c + 1)
    (hrid : ∀ call ∈ calls, call.2.1 = roomId) (hnd : (calls.map (·.1)).Nodup)
    (hfree : ∀ call ∈ calls, ∃ st, s.findStudent call.1 = some st ∧
      st.currentAllocation = none) :
    ∀ k call, calls[k]? = some call →
      (k < c →
        (createLease (createLeases s (calls.take k)) call.1 roomId call.2.2.1
          call.2.2.2).response.status = 201 ∧
        (createLease (createLeases s (calls.take k)) call.1 roomId call.2.2.1
          call.2.2.2).store.findRoom roomId =
          some { room with currentOccupancy := k + 1,
                           status := if k + 1 = c then .Occupied else .Available }) ∧
      (k = c →
        (createLease (createLeases s (calls.take k)) call.1 roomId call.2.2.1
          call.2.2.2).response = ⟨400, .message "Room is at full capacity"⟩ ∧
        (createLease (createLeases s (calls.take k)) call.1 roomId call.2.2.1
          call.2.2.2).store = createLeases s (calls.take k)) := by
  intro k call hget
  obtain ⟨hk, hcall⟩ := List.getElem?_eq_some.1 hget
  have hmem : call ∈ calls := hcall ▸ List.getElem_mem hk
  have hkc : k ≤ c := by omega
  have hprev := scenario_room_after s roomId room c calls hc hroom hcap hocc hst hrid hnd hfree
    k hkc (by omega)
  obtain ⟨st, hfs, hcur⟩ := hfree _ hmem
  have hfs' : (createLeases s (calls.take k)).findStudent call.1 = some st := by
    rw [createLeases_findStudent _ s _ (not_mem_take_of_nodup (·.1) hnd hget)]
    exact hfs
  constructor
  · intro hlt
    constructor
    · rw [createLease_success _ _ roomId _ _ hfs' hcur hprev (by show k < room.capacity; omega)]
    · have hnext := scenario_room_after s roomId room c calls hc hroom hcap hocc hst hrid hnd
        hfree (k + 1) (by omega) (by omega)
      rw [List.take_succ, hget, Option.toList_some, createLeases_append,
        createLeases_singleton, hrid _ hmem] at hnext
      exact hnext
  · intro hEq
    rw [createLease_full _ _ roomId _ _ hfs' hcur hprev (by show room.capacity ≤ k; omega)]
    exact ⟨rfl, rfl⟩

/-- C16 at `c = 2`: the fresh room `0` of `sampleStoreFresh` and the students
`1`, `2`, `3` (O1, O2, O3). -/
theorem scenario_A_witness :
    sampleStoreFresh.findRoom 0 = some sampleRoomFresh ∧
    ((createLease sampleStoreFresh 1 0 none 10).response.status = 201 ∧
      (createLease sampleStoreFresh 1 0 none 10).store.findRoom 0 =
        some { sampleRoomFresh with currentOccupancy := 1, status := .Available }) ∧
    ((createLease (createLeases sampleStoreFresh [(1, 0, none, 10)]) 2 0 none 11).response.status
        = 201 ∧
      (createLease (createLeases sampleStoreFresh [(1, 0, none, 10)]) 2 0 none 11).store.findRoom 0
        = some { sampleRoomFresh with currentOccupancy := 2, status := .Occupied }) ∧
    ((createLease (createLeases sampleStoreFresh [(1, 0, none, 10), (2, 0, none, 11)])
        3 0 none 12).response = ⟨400, .message "Room is at full capacity"⟩ ∧
      (createLease (createLeases sampleStoreFresh [(1, 0, none, 10), (2, 0, none, 11)])
        3 0 none 12).store =
        createLeases sampleStoreFresh [(1, 0, none, 10), (2, 0, none, 11)]) :=
  have hw := scenario_A sampleStoreFresh 0 sampleRoomFresh 2 sampleCallsFresh (by decide)
    (by decide) (by decide) (by decide) (by decide) (by decide) (by decide) (by decide)
    (fun call hmem => free_of_map _ _
      ((by decide : ∀ call ∈ sampleCallsFresh,
        (sampleStoreFresh.findStudent call.1).map (·.currentAllocation) = some none)
        call hmem))
  ⟨by decide, (hw 0 (1, 0, none, 10) rfl).1 (by decide),
    (hw 1 (2, 0, none, 11) rfl).1 (by decide), (hw 2 (3, 0, none, 12) rfl).2 rfl⟩

/-! ## How one request changes the student collection -/

theorem putStudent_detail (s : Store) (id : Id) (body : StudentBody) :
    (putStudent s id body).store = s ∨
    ∃ student student', s.findStudent id = some student ∧ student'.id = student.id ∧
      student'.userId = student.userId ∧ student'.roomId = student.roomId ∧
      student'.currentAllocation = student.currentAllocation ∧
      (putStudent s id body).store =
        { s with students := saveDoc Student.id s.students student' } := by
  unfold putStudent
  cases hf : s.findStudent id with
  | none => left; rfl
  | some student =>
    simp only
    by_cases h1 : body.studentId ≠ "" ∧ body.studentId ≠ student.studentId ∧
        (s.students.find? (fun st => st.studentId == body.studentId)).isSome
    · left; rw [if_pos h1]; rfl
    · rw [if_neg h1]
      by_cases h2 : body.email ≠ "" ∧ body.email ≠ student.email ∧
          (s.students.find? (fun st => st.email == body.email)).isSome
      · left; rw [if_pos h2]; rfl
      · rw [if_neg h2]
        right
        refine ⟨student, _, rfl, ?_, ?_, ?_, ?_, rfl⟩ <;> rfl

theorem studentWrite_id {s : Store} {op : Op} {student post : Student}
    (h : StudentWrite s op student post) : post.id = student.id := by
  rcases h with ⟨_, _, _, _, rfl⟩ | ⟨_, rfl⟩ | ⟨_, _, _, _, hid, _⟩
  · rfl
  · rfl
  · exact hid

/-- The student collection after one request is the old one, the old one with
a fresh unallocated student appended, the old one with one loaded student
written back, or the old one with an unallocated student removed. -/
theorem step_students (isEmail : String → Bool) (s : Store) (op : Op) :
    (step isEmail s op).store.students = s.students
    ∨ (∃ new : Student, new.id = s.nextId ∧ new.currentAllocation = none ∧
        new.roomId = none ∧ (step isEmail s op).store.students = s.students ++ [new])
    ∨ (∃ student post : Student, s.findStudent student.id = some student ∧
        StudentWrite s op student post ∧
        (step isEmail s op).store.students = saveDoc Student.id s.students post)
    ∨ (∃ student, s.findStudent student.id = some student ∧
        student.currentAllocation = none ∧
        (step isEmail s op).store.students = deleteOne Student.id s.students student.id) := by
  cases op with
  | postRoom body =>
    left
    show (postRoom s body).store.students = s.students
    unfold postRoom
    repeat' split
    all_goals rfl
  | putRoom id body =>
    left
    rcases putRoom_cases s id body with hs | ⟨_, _, _, _, _, hs⟩ <;> simp only [step, hs]
  | deleteRoom id =>
    left
    show (deleteRoom s id).store.students = s.students
    unfold deleteRoom
    repeat' split
    all_goals rfl
  | postStudent body =>
    have h : (postStudent isEmail s body).store.students = s.students ∨
        ∃ new : Student, new.id = s.nextId ∧ new.currentAllocation = none ∧
          new.roomId = none ∧
          (postStudent isEmail s body).store.students = s.students ++ [new] := by
      unfold postStudent
      split_ifs with hv
      · left; rfl
      · split
        · left; rfl
        · right
          refine ⟨_, ?_, ?_, ?_, rfl⟩ <;> rfl
    rcases h with h | h
    · left; exact h
    · right; left; exact h
  | putStudent id body =>
    rcases putStudent_detail s id body with hs | ⟨student, post, hf, h1, h0, h2, h3, hs⟩
    · left; simp only [step, hs]
    · right; right; left
      have hk := (findById_some Student.id hf).1
      refine ⟨student, post, ?_, Or.inr (Or.inr ⟨id, body, rfl, hk, h1, h0, h2, h3⟩), ?_⟩
      · rw [hk]; exact hf
      · simp only [step, hs]
  | deleteStudent id =>
    rcases deleteStudent_cases s id with hs | ⟨student, hf, hcur, hs⟩
    · left; simp only [step, hs]
    · right; right; right
      have hk := (findById_some Student.id hf).1
      refine ⟨student, ?_, hcur, by simp only [step, hs]⟩
      rw [hk]; exact hf
  | postAllocation body now =>
    rcases postAllocation_cases s body now with
      ⟨hs, _⟩ | ⟨sid, rid, student, room, _, _, hfs, hcur, hfr, _, _, hs⟩
    · left; simp only [step, hs]
    · right; right; left
      have hk := (findById_some Student.id hfs).1
      refine ⟨student, _, ?_,
        Or.inl ⟨⟨body, now, rfl⟩, hcur, rid, by rw [hfr]; simp, rfl⟩, ?_⟩
      · rw [hk]; exact hfs
      · simp only [step, hs]
  | deallocate id now =>
    rcases deallocate_cases s id now with ⟨hs, _⟩ | ⟨found, hf, hact, _, hs⟩
    · left; simp only [step, hs]
    · cases hfs : s.findStudent found.studentId with
      | none => left; simp only [step, hs, hfs]
      | some student =>
        right; right; left
        have hk := (findById_some Student.id hfs).1
        refine ⟨student, _, ?_,
          Or.inr (Or.inl ⟨⟨id, now, found, rfl, hf, hact, hk.symm⟩, rfl⟩), ?_⟩
        · rw [hk]; exact hfs
        · simp only [step, hs, hfs]
  | deleteAllocation id =>
    left
    rcases deleteAllocation_cases s id with hs | ⟨_, _, _, hs⟩ <;> simp only [step, hs]

/-- Lookup form of `step_students`: a student found under an id before a
request is afterwards found unchanged, found as written back by the handler,
or (only when unallocated) no longer found. -/
theorem step_findStudent (isEmail : String → Bool) (s : Store) (op : Op) (studentId : Id)
    {st : Student} (hst : s.findStudent studentId = some st) :
    (step isEmail s op).store.findStudent studentId = some st
    ∨ (∃ post, StudentWrite s op st post ∧
        (step isEmail s op).store.findStudent studentId = some post)
    ∨ (st.currentAllocation = none ∧
        (step isEmail s op).store.findStudent studentId = none) := by
  unfold Store.findStudent at hst ⊢
  rcases step_students isEmail s op with
    hsame | ⟨new, _, _, _, happ⟩ | ⟨student, post, hf, hw, hsave⟩ | ⟨student, hf, hcur, hdel⟩
  · left; rw [hsame]; exact hst
  · left; rw [happ, findById_append, hst]
  · rw [hsave, findById_saveDoc]
    by_cases hk : studentId = post.id
    · rw [if_pos hk]
      unfold Store.findStudent at hf
      rw [studentWrite_id hw] at hk
      rw [hk] at hst
      have hEq : student = st := Option.some.inj (hf.symm.trans hst)
      subst hEq
      right; left
      refine ⟨post, hw, ?_⟩
      rw [hk, hf]; rfl
    · rw [if_neg hk]
      left; exact hst
  · rw [hdel, findById_deleteOne]
    by_cases hk : studentId = student.id
    · rw [if_pos hk]
      unfold Store.findStudent at hf
      rw [hk] at hst
      have hEq : student = st := Option.some.inj (hf.symm.trans hst)
      subst hEq
      right; right
      exact ⟨hcur, rfl⟩
    · rw [if_neg hk]
      left; exact hst

theorem consistent_active_eq_one {s : Store} (h : Consistent s) {studentId aid : Id}
    {st : Student} (hst : s.findStudent studentId = some st)
    (hcur : st.currentAllocation = some aid) : s.activeOfStudent studentId = 1 := by
  have hfound := findById_some Student.id hst
  obtain ⟨a, ha, _, hact, hsid⟩ := h.currentIsActive st hfound.2 aid hcur
  have hpos := activeOfStudent_pos s ha hact
  have hle := consistent_activeOfStudent_le_one h studentId
  rw [hsid, hfound.1] at hpos
  omega

theorem step_keeps_current (isEmail : String → Bool) (s : Store) (op : Op)
    (studentId aid : Id) (hc : Consistent s)
    (hst : ∃ st, s.findStudent studentId = some st ∧ st.currentAllocation = some aid)
    (hop : ∀ now, op ≠ .deallocate aid now) :
    ∃ st, (step isEmail s op).store.findStudent studentId = some st ∧
      st.currentAllocation = some aid := by
  obtain ⟨st, hfs, hcur⟩ := hst
  have hfound := findById_some Student.id hfs
  rcases step_findStudent isEmail s op studentId hfs with h | ⟨post, hw, h⟩ | ⟨hnone, _⟩
  · exact ⟨st, h, hcur⟩
  · refine ⟨post, h, ?_⟩
    rcases hw with ⟨_, hnone, _⟩ | ⟨⟨id, now, found, rfl, hfa, hact, hsid⟩, _⟩ |
      ⟨_, _, _, _, _, _, _, hsame⟩
    · rw [hnone] at hcur; exact absurd hcur (by simp)
    · exfalso
      have hfa' := findById_some Allocation.id hfa
      obtain ⟨st2, hst2, k1, k2, _⟩ := hc.activeHasStudent found hfa'.2 hact
      have hEq : st2 = st :=
        nodup_key_eq Student.id hc.studentNodup hst2 hfound.2 (k1.trans hsid)
      rw [hEq, hcur] at k2
      have : aid = id := (Option.some.inj k2).trans hfa'.1
      exact hop now (by rw [this])
    · rw [hsame]; exact hcur
  · rw [hnone] at hcur; exact absurd hcur (by simp)

theorem run_keeps_current (isEmail : String → Bool) (studentId aid : Id) (ops : List Op) :
    ∀ s : Store, Consistent s →
      (∃ st, s.findStudent studentId = some st ∧ st.currentAllocation = some aid) →
      (∀ now, Op.deallocate aid now ∉ ops) →
      Consistent (run isEmail s ops) ∧
      ∃ st, (run isEmail s ops).findStudent studentId = some st ∧
        st.currentAllocation = some aid := by
  induction ops with
  | nil => intro s hc hst _; exact ⟨hc, hst⟩
  | cons op ops ih =>
    intro s hc hst hno
    rw [run_cons]
    apply ih _ (step_consistent isEmail s op hc)
    · apply step_keeps_current isEmail s op studentId aid hc hst
      intro now hEq
      exact hno now (by rw [hEq]; exact List.mem_cons_self _ _)
    · intro now hmem
      exact hno now (List.mem_cons_of_mem _ hmem)

/-- C17 (Scenario B, retry safety): after a successful `CreateLease(O, R)`, an
immediately following `CreateLease(O, R2)` for any room `R2` is answered 400
"Student already has an active allocation" and changes nothing; and when the
first call was made in a reachable store, the same holds after any further
requests that do not complete the new lease: the retry is rejected, the store
is unchanged and `O` still has exactly one Active allocation. -/
theorem retry_rejected (isEmail : String → Bool) (s : Store) (studentId roomId roomId2 : Id)
    (notes notes2 : Option String) (now now2 : Date)
    (hok : (createLease s studentId roomId notes now).response.status = 201) :
    ((createLease (createLease s studentId roomId notes now).store studentId roomId2 notes2
        now2).response = ⟨400, .message "Student already has an active allocation"⟩ ∧
      (createLease (createLease s studentId roomId notes now).store studentId roomId2 notes2
        now2).store = (createLease s studentId roomId notes now).store) ∧
    (Reachable isEmail s → ∀ ops : List Op, (∀ t, Op.deallocate s.nextId t ∉ ops) →
      (createLease (run isEmail (createLease s studentId roomId notes now).store ops)
        studentId roomId2 notes2 now2).response =
          ⟨400, .message "Student already has an active allocation"⟩ ∧
      (createLease (run isEmail (createLease s studentId roomId notes now).store ops)
        studentId roomId2 notes2 now2).store =
          run isEmail (createLease s studentId roomId notes now).store ops ∧
      (run isEmail (createLease s studentId roomId notes now).store ops).activeOfStudent
        studentId = 1) := by
  have hafter : ∃ st, (createLease s studentId roomId notes now).store.findStudent studentId
      = some st ∧ st.currentAllocation = some s.nextId := by
    unfold createLease at hok ⊢
    rcases postAllocation_cases s ⟨some studentId, some roomId, notes⟩ now with
      ⟨_, hne⟩ | ⟨sid, rid, st, r, hsid, _, hfs, _, _, _, _, hs⟩
    · exact absurd hok hne
    · simp only [Option.some.injEq] at hsid
      subst hsid
      have hks := (findById_some Student.id hfs).1
      refine ⟨{ st with roomId := some rid, currentAllocation := some s.nextId }, ?_, rfl⟩
      rw [hs]
      have h1 : findById Student.id s.students
          (Student.id { st with roomId := some rid, currentAllocation := some s.nextId })
          = some st := by
        simpa [hks] using hfs
      have := findById_saveDoc_self Student.id h1
      simpa [Store.findStudent, hks] using this
  constructor
  · obtain ⟨st, hfs, hcur⟩ := hafter
    rw [createLease_allocated _ studentId roomId2 notes2 now2 hfs hcur]
    exact ⟨rfl, rfl⟩
  · intro hreach ops hno
    have hc1 : Consistent (createLease s studentId roomId notes now).store :=
      postAllocation_consistent s _ now (reachable_consistent isEmail hreach)
    obtain ⟨hc2, st, hfs, hcur⟩ :=
      run_keeps_current isEmail studentId s.nextId ops _ hc1 hafter hno
    rw [createLease_allocated _ studentId roomId2 notes2 now2 hfs hcur]
    exact ⟨rfl, rfl, consistent_active_eq_one hc2 hfs hcur⟩

theorem sampleStoreFresh_reachable : Reachable sampleIsEmail sampleStoreFresh :=
  reachable_run sampleIsEmail _ Reachable.init

/-- C17 at `sampleStoreFresh`: student `1` is allocated to room `0` (lease `4`);
a retry is rejected at once and after `sampleRetryOps`. -/
theorem retry_rejected_witness :
    (createLease sampleStoreFresh 1 0 none 10).response.status = 201 ∧
    Reachable sampleIsEmail sampleStoreFresh ∧
    ((createLease (createLease sampleStoreFresh 1 0 none 10).store 1 0 (some "retry")
        11).response = ⟨400, .message "Student already has an active allocation"⟩ ∧
      (createLease (createLease sampleStoreFresh 1 0 none 10).store 1 0 (some "retry")
        11).store = (createLease sampleStoreFresh 1 0 none 10).store) ∧
    ((createLease (run sampleIsEmail (createLease sampleStoreFresh 1 0 none 10).store
        sampleRetryOps) 1 0 (some "retry") 11).response =
          ⟨400, .message "Student already has an active allocation"⟩ ∧
      (createLease (run sampleIsEmail (createLease sampleStoreFresh 1 0 none 10).store
        sampleRetryOps) 1 0 (some "retry") 11).store =
          run sampleIsEmail (createLease sampleStoreFresh 1 0 none 10).store sampleRetryOps ∧
      (run sampleIsEmail (createLease sampleStoreFresh 1 0 none 10).store
        sampleRetryOps).activeOfStudent 1 = 1) :=
  have hw := retry_rejected sampleIsEmail sampleStoreFresh 1 0 0 none (some "retry") 10 11
    (by decide)
  ⟨by decide, sampleStoreFresh_reachable, hw.1,
    hw.2 sampleStoreFresh_reachable sampleRetryOps (by
      intro t hmem
      have hn : sampleStoreFresh.nextId = 4 := by decide
      rw [hn] at hmem
      simp [sampleRetryOps] at hmem)⟩

/-! ## Scenario E, the defensive clamp and DeleteLease -/

/-- C18 (Scenario E): for a room with `currentOccupancy = 1` and an Active
allocation of that room, deleting the room is answered 400 "Cannot delete room
with occupants" and changes nothing; completing the allocation succeeds and
leaves the room with `currentOccupancy = 0`; deleting the room then succeeds
and the room is no longer found. -/
theorem scenario_E (s : Store) (roomId leaseId : Id) (room : Room) (lease : Allocation)
    (now : Date) (hroom : s.findRoom roomId = some room) (hocc : room.currentOccupancy = 1)
    (hlease : s.findAllocation leaseId = some lease) (hact : lease.status = .Active)
    (hrid : lease.roomId = roomId) :
    (deleteRoom s roomId).response = ⟨400, .message "Cannot delete room with occupants"⟩ ∧
    (deleteRoom s roomId).store = s ∧
    (deallocate s leaseId now).response.status = 200 ∧
    (∃ room', (deallocate s leaseId now).store.findRoom roomId = some room' ∧
      room'.currentOccupancy = 0) ∧
    (deleteRoom (deallocate s leaseId now).store roomId).response =
      ⟨200, .message "Room deleted successfully"⟩ ∧
    (deleteRoom (deallocate s leaseId now).store roomId).store.findRoom roomId = none := by
  have hgt : room.currentOccupancy > 0 := by omega
  have hkr := (findById_some Room.id hroom).1
  have hfind : (deallocate s leaseId now).store.findRoom roomId =
      some (roomPreSave { room with currentOccupancy := room.currentOccupancy - 1 }) := by
    rcases deallocate_cases s leaseId now with ⟨_, hne⟩ | ⟨found, hf, _, _, hs⟩
    · exact absurd (deallocate_active s leaseId now hlease hact).1 hne
    · have hEq : found = lease := Option.some.inj (hf.symm.trans hlease)
      subst hEq
      rw [hs]
      rw [hrid]
      simp only [hroom, if_pos hgt]
      have h0 : findById Room.id s.rooms
          (Room.id (roomPreSave { room with currentOccupancy := room.currentOccupancy - 1 }))
          = some room := by
        simpa [hkr] using hroom
      have := findById_saveDoc_self Room.id h0
      simpa [Store.findRoom, hkr] using this
  refine ⟨?_, ?_, (deallocate_active s leaseId now hlease hact).1, ?_, ?_, ?_⟩
  · simp [deleteRoom, hroom, hgt, reject]
  · simp [deleteRoom, hroom, hgt, reject]
  · exact ⟨_, hfind, by simp [hocc]⟩
  · simp [deleteRoom, hfind, hocc]
  · simp only [deleteRoom, hfind, roomPreSave_currentOccupancy, hocc]
    simp only [Nat.sub_self, gt_iff_lt, Nat.lt_irrefl, if_false, roomPreSave_id]
    unfold Store.findRoom
    rw [findById_deleteOne, if_pos hkr.symm]

/-- C18 at `sampleStore`: room `0` with the single Active allocation `3`. -/
theorem scenario_E_witness :
    sampleStore.findRoom 0 = some sampleRoom ∧ sampleRoom.currentOccupancy = 1 ∧
    sampleStore.findAllocation 3 = some sampleAllocation ∧
    (deleteRoom sampleStore 0).response = ⟨400, .message "Cannot delete room with occupants"⟩ ∧
    (deleteRoom sampleStore 0).store = sampleStore ∧
    (deallocate sampleStore 3 30).response.status = 200 ∧
    (∃ room', (deallocate sampleStore 3 30).store.findRoom 0 = some room' ∧
      room'.currentOccupancy = 0) ∧
    (deleteRoom (deallocate sampleStore 3 30).store 0).response =
      ⟨200, .message "Room deleted successfully"⟩ ∧
    (deleteRoom (deallocate sampleStore 3 30).store 0).store.findRoom 0 = none :=
  ⟨by decide, by decide, by decide,
    scenario_E sampleStore 0 3 sampleRoom sampleAllocation 30 (by decide) (by decide)
      (by decide) (by decide) (by decide)⟩

/-- C19 (defensive clamp and missing counterpart): for every Active allocation,
`CompleteLease` succeeds and stores the allocation Completed with its date,
also when its room or its student is not found; a missing room or student is
skipped (that collection is left as it was); and when the room is found, its
resulting `currentOccupancy` is `max (previous - 1) 0`. -/
theorem deallocate_clamp (s : Store) (id : Id) (now : Date) (lease : Allocation)
    (hlease : s.findAllocation id = some lease) (hact : lease.status = .Active) :
    (deallocate s id now).response.status = 200 ∧
    (deallocate s id now).store.findAllocation id =
      some { lease with deallocationDate := some now, status := .Completed } ∧
    (s.findRoom lease.roomId = none → (deallocate s id now).store.rooms = s.rooms) ∧
    (s.findStudent lease.studentId = none →
      (deallocate s id now).store.students = s.students) ∧
    (∀ r, s.findRoom lease.roomId = some r →
      ∃ r', (deallocate s id now).store.findRoom lease.roomId = some r' ∧
        (r'.currentOccupancy : Int) = max ((r.currentOccupancy : Int) - 1) 0) := by
  obtain ⟨hok, hfind⟩ := deallocate_active s id now hlease hact
  rcases deallocate_cases s id now with ⟨_, hne⟩ | ⟨found, hf, _, _, hs⟩
  · exact absurd hok hne
  · have hEq : found = lease := Option.some.inj (hf.symm.trans hlease)
    subst hEq
    refine ⟨hok, hfind, ?_, ?_, ?_⟩
    · intro hnone
      rw [hs]
      simp only [hnone]
    · intro hnone
      rw [hs]
      simp only [hnone]
    · intro r hr
      have hkr := (findById_some Room.id hr).1
      rw [hs]
      by_cases hgt : r.currentOccupancy > 0
      · refine ⟨roomPreSave { r with currentOccupancy := r.currentOccupancy - 1 }, ?_, ?_⟩
        · simp only [hr, if_pos hgt]
          have h0 : findById Room.id s.rooms
              (Room.id (roomPreSave { r with currentOccupancy := r.currentOccupancy - 1 }))
              = some r := by
            simpa [hkr] using hr
          have := findById_saveDoc_self Room.id h0
          simpa [Store.findRoom, hkr] using this
        · simp only [roomPreSave_currentOccupancy]
          omega
      · refine ⟨r, ?_, ?_⟩
        · simp only [hr, if_neg hgt]
          exact hr
        · omega

/-- C19 at `sampleStoreOrphan`: allocation `3` has neither room nor student and
is completed all the same; allocation `4` is completed although its room
counts no occupant, and the counter stays `0`. -/
theorem deallocate_clamp_witness :
    sampleStoreOrphan.findRoom 7 = none ∧ sampleStoreOrphan.findStudent 8 = none ∧
    (deallocate sampleStoreOrphan 3 30).response.status = 200 ∧
    (deallocate sampleStoreOrphan 3 30).store.rooms = sampleStoreOrphan.rooms ∧
    (deallocate sampleStoreOrphan 3 30).store.students = sampleStoreOrphan.students ∧
    (deallocate sampleStoreOrphan 4 30).response.status = 200 ∧
    (∃ r', (deallocate sampleStoreOrphan 4 30).store.findRoom 0 = some r' ∧
      (r'.currentOccupancy : Int) = max (((0 : Nat) : Int) - 1) 0) :=
  have h3 := deallocate_clamp sampleStoreOrphan 3 30
    { id := 3, studentId := 8, roomId := 7, allocationDate := 5 } (by decide) (by decide)
  have h4 := deallocate_clamp sampleStoreOrphan 4 30
    { id := 4, studentId := 1, roomId := 0, allocationDate := 6 } (by decide) (by decide)
  ⟨by decide, by decide, h3.1, h3.2.2.1 (by decide), h3.2.2.2.1 (by decide), h4.1,
    h4.2.2.2.2 { id := 0, roomNumber := "101", capacity := 2 } (by decide)⟩

theorem length_deleteOne {α : Type} (key : α → Id) {docs : List α} {d : α}
    (hnd : (docs.map key).Nodup) (hmem : d ∈ docs) :
    (deleteOne key docs (key d)).length + 1 = docs.length := by
  induction docs with
  | nil => simp at hmem
  | cons x xs ih =>
    simp only [List.map_cons, List.nodup_cons, List.mem_map, not_exists, not_and] at hnd
    obtain ⟨hfresh, hnd⟩ := hnd
    unfold deleteOne at ih ⊢
    by_cases hx : key x = key d
    · have hkeep : xs.filter (fun y => key y != key d) = xs := by
        rw [List.filter_eq_self]
        intro y hy
        have := hfresh y hy
        simpa [← hx] using this
      have h1 : (key x != key d) = false := by simp [hx]
      rw [List.filter_cons, h1]
      simp [hkeep]
    · have hmem2 : d ∈ xs := by
        rcases List.mem_cons.1 hmem with h | h
        · exact absurd (by rw [h]) hx
        · exact h
      have h1 : (key x != key d) = true := by simp [hx]
      rw [List.filter_cons, h1]
      simp only [if_true, List.length_cons]
      have := ih hnd hmem2
      omega

/-- C20 (DeleteLease acceptance): in every store and for every lease id,
`DeleteLease` succeeds (200) if and only if an allocation with that id exists
and its status is Completed; an unknown id is answered 404 "Allocation not
found"; on success the allocations left are exactly the old ones with a
different id (one document fewer when ids are unique), and the room and
student collections are unchanged. -/
theorem deleteAllocation_acceptance (s : Store) (id : Id) :
    ((deleteAllocation s id).response.status = 200 ↔
      ∃ a, s.findAllocation id = some a ∧ a.status = .Completed) ∧
    (s.findAllocation id = none →
      (deleteAllocation s id).response = ⟨404, .message "Allocation not found"⟩) ∧
    ((deleteAllocation s id).response.status = 200 →
      (∀ a, a ∈ (deleteAllocation s id).store.allocations ↔ a ∈ s.allocations ∧ a.id ≠ id) ∧
      ((s.allocations.map Allocation.id).Nodup →
        (deleteAllocation s id).store.allocations.length + 1 = s.allocations.length) ∧
      (deleteAllocation s id).store.rooms = s.rooms ∧
      (deleteAllocation s id).store.students = s.students) := by
  cases hf : s.findAllocation id with
  | none => simp [deleteAllocation, hf, reject]
  | some a =>
    have hfound := findById_some Allocation.id hf
    cases hst : a.status with
    | Active => simp [deleteAllocation, hf, reject, hst]
    | Completed =>
      have hres : deleteAllocation s id =
          { store := { s with allocations := deleteOne Allocation.id s.allocations a.id }
            response := ⟨200, .message "Allocation deleted successfully"⟩
            events := [.allocation_deleted id] } := by
        simp [deleteAllocation, hf, hst]
      rw [hres]
      refine ⟨⟨fun _ => ⟨a, rfl, hst⟩, fun _ => rfl⟩, fun h => absurd h (by simp),
        fun _ => ⟨?_, ?_, rfl, rfl⟩⟩
      · intro b
        rw [hfound.1]
        exact mem_deleteOne Allocation.id
      · intro hnd
        exact length_deleteOne Allocation.id hnd hfound.2

/-- C20 at `sampleStoreDone`: the Completed allocation `3` is deleted, the
unknown id `7` is not. -/
theorem deleteAllocation_acceptance_witness :
    (deleteAllocation sampleStoreDone 3).response.status = 200 ∧
    (deleteAllocation sampleStoreDone 7).response = ⟨404, .message "Allocation not found"⟩ ∧
    (∀ a, a ∈ (deleteAllocation sampleStoreDone 3).store.allocations ↔
      a ∈ sampleStoreDone.allocations ∧ a.id ≠ 3) ∧
    (deleteAllocation sampleStoreDone 3).store.allocations.length + 1 =
      sampleStoreDone.allocations.length ∧
    (deleteAllocation sampleStoreDone 3).store.rooms = sampleStoreDone.rooms ∧
    (deleteAllocation sampleStoreDone 3).store.students = sampleStoreDone.students :=
  have hw := (deleteAllocation_acceptance sampleStoreDone 3).2.2
    ((deleteAllocation_acceptance sampleStoreDone 3).1.2 ⟨sampleCompleted, by decide, by decide⟩)
  ⟨(deleteAllocation_acceptance sampleStoreDone 3).1.2 ⟨sampleCompleted, by decide, by decide⟩,
    (deleteAllocation_acceptance sampleStoreDone 7).2.1 (by decide),
    hw.1, hw.2.1 (by decide), hw.2.2.1, hw.2.2.2⟩

/-! ## Rejected requests and check precedence -/

/-- C21 (rejected requests write nothing): a `CreateLease` that does not succeed
is answered with one of the four failures (student not found, student already
allocated, room not found, room at full capacity), and a `CompleteLease` that
does not succeed with one of the two (allocation not found, already
completed); in each case the store after the call is the store before it and
no event is emitted. -/
theorem rejected_writes_nothing (s : Store) (studentId roomId id : Id)
    (notes : Option String) (now : Date) :
    ((createLease s studentId roomId notes now).response.status ≠ 201 →
      ((createLease s studentId roomId notes now).response =
          ⟨404, .message "Student not found"⟩ ∨
        (createLease s studentId roomId notes now).response =
          ⟨400, .message "Student already has an active allocation"⟩ ∨
        (createLease s studentId roomId notes now).response =
          ⟨404, .message "Room not found"⟩ ∨
        (createLease s studentId roomId notes now).response =
          ⟨400, .message "Room is at full capacity"⟩) ∧
      (createLease s studentId roomId notes now).store = s ∧
      (createLease s studentId roomId notes now).events = []) ∧
    ((deallocate s id now).response.status ≠ 200 →
      ((deallocate s id now).response = ⟨404, .message "Allocation not found"⟩ ∨
        (deallocate s id now).response = ⟨400, .message "Allocation already completed"⟩) ∧
      (deallocate s id now).store = s ∧ (deallocate s id now).events = []) := by
  constructor
  · intro hfail
    cases hst : s.findStudent studentId with
    | none =>
      have hres : createLease s studentId roomId notes now = reject s 404 "Student not found" := by
        simp [createLease, postAllocation, hst]
      rw [hres]
      exact ⟨Or.inl rfl, rfl, rfl⟩
    | some st =>
      cases hcur : st.currentAllocation with
      | some aid =>
        rw [createLease_allocated s studentId roomId notes now hst hcur]
        exact ⟨Or.inr (Or.inl rfl), rfl, rfl⟩
      | none =>
        cases hr : s.findRoom roomId with
        | none =>
          have hres : createLease s studentId roomId notes now =
              reject s 404 "Room not found" := by
            simp [createLease, postAllocation, hst, hcur, hr]
          rw [hres]
          exact ⟨Or.inr (Or.inr (Or.inl rfl)), rfl, rfl⟩
        | some r =>
          by_cases hge : r.currentOccupancy ≥ r.capacity
          · rw [createLease_full s studentId roomId notes now hst hcur hr hge]
            exact ⟨Or.inr (Or.inr (Or.inr rfl)), rfl, rfl⟩
          · exfalso
            apply hfail
            rw [createLease_success s studentId roomId notes now hst hcur hr
              (Nat.lt_of_not_le hge)]
  · intro hfail
    cases hf : s.findAllocation id with
    | none =>
      rw [deallocate_not_found s id now hf]
      exact ⟨Or.inl rfl, rfl, rfl⟩
    | some a =>
      cases hst : a.status with
      | Completed =>
        rw [deallocate_completed s id now hf hst]
        exact ⟨Or.inr rfl, rfl, rfl⟩
      | Active => exact absurd (deallocate_active s id now hf hst).1 hfail

/-- C21 at the sample store: a retry for the allocated student `1` and a
deallocation of the unknown allocation `7`. -/
theorem rejected_writes_nothing_witness :
    (createLease sampleStore 1 0 none 20).response.status ≠ 201 ∧
    (createLease sampleStore 1 0 none 20).store = sampleStore ∧
    (createLease sampleStore 1 0 none 20).events = [] ∧
    (deallocate sampleStore 7 20).response.status ≠ 200 ∧
    (deallocate sampleStore 7 20).store = sampleStore ∧
    (deallocate sampleStore 7 20).events = [] :=
  have h1 := (rejected_writes_nothing sampleStore 1 0 7 none 20).1 (by decide)
  have h2 := (rejected_writes_nothing sampleStore 1 0 7 none 20).2 (by decide)
  ⟨by decide, h1.2.1, h1.2.2, by decide, h2.2.1, h2.2.2⟩

/-- C30 (check precedence, maintenance rooms): `CreateLease` tests, in this
order, that the student exists, that the student is unallocated, that the room
exists and that the room has capacity, and reports the first failure: a
missing student gives "Student not found" whatever the room is, an allocated
student gives "Student already has an active allocation" also when the room
is missing or full; and the room's status is not consulted: with an
unallocated student, a room of any status (Maintenance included) with
`currentOccupancy < capacity` is accepted. -/
theorem createLease_precedence (s : Store) (studentId roomId : Id) (notes : Option String)
    (now : Date) :
    (s.findStudent studentId = none →
      (createLease s studentId roomId notes now).response =
        ⟨404, .message "Student not found"⟩) ∧
    (∀ st aid, s.findStudent studentId = some st → st.currentAllocation = some aid →
      (createLease s studentId roomId notes now).response =
        ⟨400, .message "Student already has an active allocation"⟩) ∧
    (∀ st, s.findStudent studentId = some st → st.currentAllocation = none →
      s.findRoom roomId = none →
      (createLease s studentId roomId notes now).response =
        ⟨404, .message "Room not found"⟩) ∧
    (∀ st r status, s.findStudent studentId = some st → st.currentAllocation = none →
      s.findRoom roomId = some r → r.status = status →
      r.currentOccupancy < r.capacity →
      (createLease s studentId roomId notes now).response.status = 201) := by
  refine ⟨?_, ?_, ?_, ?_⟩
  · intro hst
    simp [createLease, postAllocation, hst, reject]
  · intro st aid hst hcur
    rw [createLease_allocated s studentId roomId notes now hst hcur]; rfl
  · intro st hst hcur hr
    simp [createLease, postAllocation, hst, hcur, hr, reject]
  · intro st r _ hst hcur hr _ hlt
    rw [createLease_success s studentId roomId notes now hst hcur hr hlt]

/-- C30 at the sample stores: the allocated student `1` with the missing room
`9` is told that the student is allocated; student `1` of `sampleStoreMaint`
is accepted into the Maintenance room `0`. -/
theorem createLease_precedence_witness :
    sampleStore.findRoom 9 = none ∧
    (createLease sampleStore 1 9 none 20).response =
      ⟨400, .message "Student already has an active allocation"⟩ ∧
    sampleStoreMaint.findRoom 0 = some sampleRoomMaint ∧
    sampleRoomMaint.status = .Maintenance ∧
    (createLease sampleStoreMaint 1 0 none 20).response.status = 201 :=
  ⟨by decide,
    (createLease_precedence sampleStore 1 9 none 20).2.1 sampleStudent 3 (by decide) (by decide),
    by decide, by decide,
    (createLease_precedence sampleStoreMaint 1 0 none 20).2.2.2
      { id := 1, name := "Asha", studentId := "S1", course := "CS", contact := "1",
        email := "asha@hostel.test" }
      sampleRoomMaint .Maintenance (by decide) (by decide) (by decide) (by decide) (by decide)⟩

/-! ## Frame of the lease operations -/

theorem roomPreSave_eta (r : Room) :
    roomPreSave r = { r with status := (roomPreSave r).status } := by
  unfold roomPreSave
  split_ifs <;> rfl

/-- C29 (frame of lease operations): a successful `CreateLease(O, R)` leaves the
lookup of every student other than `O`, of every room other than `R` and of
every allocation that existed unchanged, stores `R` with only
`currentOccupancy` and `status` possibly different and `O` with only `roomId`
and `currentAllocation` possibly different; a successful `CompleteLease(L)`
leaves the lookup of every allocation other than `L`, of every room other
than `L`'s room and of every student other than `L`'s student unchanged, and
changes the same two fields of the room and of the student only. -/
theorem lease_frame (s : Store) (studentId roomId id : Id) (notes : Option String)
    (now : Date) :
    ((createLease s studentId roomId notes now).response.status = 201 →
      (∀ other, other ≠ studentId →
        (createLease s studentId roomId notes now).store.findStudent other =
          s.findStudent other) ∧
      (∀ other, other ≠ roomId →
        (createLease s studentId roomId notes now).store.findRoom other = s.findRoom other) ∧
      (∀ aid a, s.findAllocation aid = some a →
        (createLease s studentId roomId notes now).store.findAllocation aid = some a) ∧
      (∃ r occ status, s.findRoom roomId = some r ∧
        (createLease s studentId roomId notes now).store.findRoom roomId =
          some { r with currentOccupancy := occ, status := status }) ∧
      (∃ st room cur, s.findStudent studentId = some st ∧
        (createLease s studentId roomId notes now).store.findStudent studentId =
          some { st with roomId := room, currentAllocation := cur })) ∧
    (∀ lease, s.findAllocation id = some lease →
      (deallocate s id now).response.status = 200 →
      (∀ other, other ≠ id →
        (deallocate s id now).store.findAllocation other = s.findAllocation other) ∧
      (∀ other, other ≠ lease.roomId →
        (deallocate s id now).store.findRoom other = s.findRoom other) ∧
      (∀ other, other ≠ lease.studentId →
        (deallocate s id now).store.findStudent other = s.findStudent other) ∧
      (∀ r, s.findRoom lease.roomId = some r → ∃ occ status,
        (deallocate s id now).store.findRoom lease.roomId =
          some { r with currentOccupancy := occ, status := status }) ∧
      (∀ st, s.findStudent lease.studentId = some st → ∃ room cur,
        (deallocate s id now).store.findStudent lease.studentId =
          some { st with roomId := room, currentAllocation := cur })) := by
  constructor
  · intro hok
    unfold createLease at hok ⊢
    rcases postAllocation_cases s ⟨some studentId, some roomId, notes⟩ now with
      ⟨_, hne⟩ | ⟨sid, rid, st, r, hsid, hrid, hfs, _, hfr, _, _, hs⟩
    · exact absurd hok hne
    · simp only [Option.some.injEq] at hsid hrid
      subst hsid hrid
      have hks := (findById_some Student.id hfs).1
      have hkr := (findById_some Room.id hfr).1
      rw [hs]
      refine ⟨?_, ?_, ?_, ?_, ?_⟩
      · intro other hne
        apply findById_saveDoc_ne Student.id
        simpa [hks] using hne
      · intro other hne
        apply findById_saveDoc_ne Room.id
        simpa [hkr] using hne
      · intro aid a ha
        unfold Store.findAllocation at ha ⊢
        simp only
        rw [findById_append, ha]
      · refine ⟨r, r.currentOccupancy + 1,
          (roomPreSave { r with currentOccupancy := r.currentOccupancy + 1 }).status, hfr, ?_⟩
        have h0 : findById Room.id s.rooms
            (Room.id (roomPreSave { r with currentOccupancy := r.currentOccupancy + 1 }))
            = some r := by
          simpa [hkr] using hfr
        have := findById_saveDoc_self Room.id h0
        have h2 : findById Room.id (saveDoc Room.id s.rooms
            (roomPreSave { r with currentOccupancy := r.currentOccupancy + 1 })) roomId =
            some (roomPreSave { r with currentOccupancy := r.currentOccupancy + 1 }) := by
          simpa [hkr] using this
        exact h2.trans (congrArg some (roomPreSave_eta _))
      · refine ⟨st, some roomId, some s.nextId, hfs, ?_⟩
        have h1 : findById Student.id s.students
            (Student.id { st with roomId := some roomId, currentAllocation := some s.nextId })
            = some st := by
          simpa [hks] using hfs
        have := findById_saveDoc_self Student.id h1
        simpa [Store.findStudent, hks] using this
  · intro lease hlease hok
    rcases deallocate_cases s id now with ⟨_, hne⟩ | ⟨found, hf, _, _, hs⟩
    · exact absurd hok hne
    · have hEq : found = lease := Option.some.inj (hf.symm.trans hlease)
      subst hEq
      have hka := (findById_some Allocation.id hf).1
      rw [hs]
      refine ⟨?_, ?_, ?_, ?_, ?_⟩
      · intro other hne
        apply findById_saveDoc_ne Allocation.id
        simpa [hka] using hne
      · intro other hne
        cases hfr : s.findRoom found.roomId with
        | none => rfl
        | some r =>
          have hkr := (findById_some Room.id hfr).1
          by_cases hgt : r.currentOccupancy > 0
          · simp only [if_pos hgt]
            apply findById_saveDoc_ne Room.id
            simpa [hkr] using hne
          · simp only [if_neg hgt]
            rfl
      · intro other hne
        cases hfs : s.findStudent found.studentId with
        | none => rfl
        | some st =>
          have hks := (findById_some Student.id hfs).1
          apply findById_saveDoc_ne Student.id
          simpa [hks] using hne
      · intro r hfr
        have hkr := (findById_some Room.id hfr).1
        by_cases hgt : r.currentOccupancy > 0
        · refine ⟨r.currentOccupancy - 1,
            (roomPreSave { r with currentOccupancy := r.currentOccupancy - 1 }).status, ?_⟩
          simp only [hfr, if_pos hgt]
          have h0 : findById Room.id s.rooms
              (Room.id (roomPreSave { r with currentOccupancy := r.currentOccupancy - 1 }))
              = some r := by
            simpa [hkr] using hfr
          have := findById_saveDoc_self Room.id h0
          have h2 : findById Room.id (saveDoc Room.id s.rooms
              (roomPreSave { r with currentOccupancy := r.currentOccupancy - 1 }))
              found.roomId =
              some (roomPreSave { r with currentOccupancy := r.currentOccupancy - 1 }) := by
            simpa [hkr] using this
          exact h2.trans (congrArg some (roomPreSave_eta _))
        · refine ⟨r.currentOccupancy, r.status, ?_⟩
          simp only [hfr, if_neg hgt]
          exact hfr
      · intro st hfs
        have hks := (findById_some Student.id hfs).1
        refine ⟨none, none, ?_⟩
        simp only [hfs]
        have h1 : findById Student.id s.students
            (Student.id { st with roomId := none, currentAllocation := none })
            = some st := by
          simpa [hks] using hfs
        have := findById_saveDoc_self Student.id h1
        simpa [Store.findStudent, hks] using this

/-- C29 at the sample store: allocating student `2` leaves student `1` as it
was; completing allocation `3` of student `1` leaves student `2` as it was. -/
theorem lease_frame_witness :
    (createLease sampleStore 2 0 none 20).response.status = 201 ∧
    (createLease sampleStore 2 0 none 20).store.findStudent 1 = sampleStore.findStudent 1 ∧
    sampleStore.findAllocation 3 = some sampleAllocation ∧
    (deallocate sampleStore 3 20).response.status = 200 ∧
    (deallocate sampleStore 3 20).store.findStudent 2 = sampleStore.findStudent 2 :=
  ⟨by decide, ((lease_frame sampleStore 2 0 3 none 20).1 (by decide)).1 1 (by decide),
    by decide, by decide,
    ((lease_frame sampleStore 2 0 3 none 20).2 sampleAllocation (by decide)
      (by decide)).2.2.1 2 (by decide)⟩

/-! ## Field ownership -/

/-- Lookup form of `step_allocations` that names the request: the allocation
found under an id after a request is the one found before, or the one found
before written back Completed by the deallocation of that id. -/
theorem step_findAllocation (isEmail : String → Bool) (s : Store) (op : Op) (aid : Id)
    {a a' : Allocation} (ha : s.findAllocation aid = some a)
    (ha' : (step isEmail s op).store.findAllocation aid = some a') :
    a' = a ∨ ∃ now, op = .deallocate aid now ∧ a.status = .Active ∧
      a' = { a with deallocationDate := some now, status := .Completed } := by
  have hsame : (step isEmail s op).store.allocations = s.allocations → a' = a := by
    intro h
    unfold Store.findAllocation at ha ha'
    rw [h, ha] at ha'
    exact (Option.some.inj ha').symm
  cases op with
  | postRoom body => left; exact hsame (postRoom_frame s body).1
  | putRoom id body =>
    left; apply hsame
    rcases putRoom_cases s id body with hs | ⟨_, _, _, _, _, hs⟩ <;> simp only [step, hs]
  | deleteRoom id => left; exact hsame (deleteRoom_frame s id).1
  | postStudent body =>
    left; apply hsame
    rcases postStudent_cases isEmail s body with hs | ⟨_, _, _, hs⟩ <;> simp only [step, hs]
  | putStudent id body =>
    left; apply hsame
    rcases putStudent_cases s id body with hs | ⟨_, _, _, _, _, _, hs⟩ <;> simp only [step, hs]
  | deleteStudent id =>
    left; apply hsame
    rcases deleteStudent_cases s id with hs | ⟨_, _, _, hs⟩ <;> simp only [step, hs]
  | postAllocation body now =>
    left
    rcases postAllocation_cases s body now with
      ⟨hs, _⟩ | ⟨_, _, _, _, _, _, _, _, _, _, _, hs⟩
    · apply hsame; simp only [step, hs]
    · unfold Store.findAllocation at ha ha'
      simp only [step, hs] at ha'
      rw [findById_append, ha] at ha'
      exact (Option.some.inj ha').symm
  | deallocate id now =>
    rcases deallocate_cases s id now with ⟨hs, _⟩ | ⟨found, hf, hact, _, hs⟩
    · left; apply hsame; simp only [step, hs]
    · have hk := (findById_some Allocation.id hf).1
      unfold Store.findAllocation at ha ha' hf
      simp only [step, hs] at ha'
      rw [findById_saveDoc] at ha'
      by_cases hEq : aid = id
      · subst hEq
        have hfa : found = a := Option.some.inj (hf.symm.trans ha)
        subst hfa
        rw [if_pos hk.symm, ha] at ha'
        right
        exact ⟨now, rfl, hact, (Option.some.inj ha').symm⟩
      · have hne : ¬ aid = found.id := by rw [hk]; exact hEq
        rw [if_neg hne, ha] at ha'
        left; exact (Option.some.inj ha').symm
  | deleteAllocation id =>
    left
    rcases deleteAllocation_cases s id with hs | ⟨found, _, _, hs⟩
    · apply hsame; simp only [step, hs]
    · unfold Store.findAllocation at ha ha'
      simp only [step, hs] at ha'
      rw [findById_deleteOne] at ha'
      split_ifs at ha' with hk
      rw [ha] at ha'
      exact (Option.some.inj ha').symm

/-- C24 fails as stated: the room update of room `0` of `sampleStore` with
status `"Maintenance"` is accepted and changes the status of the existing room
from Available to Maintenance. -/
theorem field_ownership_counterexample :
    sampleStore.findRoom 0 = some sampleRoom ∧
    (step sampleIsEmail sampleStore (.putRoom 0 { status := "Maintenance" })).response.status
      = 200 ∧
    (step sampleIsEmail sampleStore (.putRoom 0 { status := "Maintenance" })).store.findRoom 0
      = some { sampleRoom with status := .Maintenance } ∧
    ({ sampleRoom with status := .Maintenance } : Room).status ≠ sampleRoom.status :=
  ⟨by decide, by decide, by decide, by decide⟩

/-- C24 as amended (field ownership): for every request and every record that
exists before and after it, a change of `Room.currentOccupancy`, of
`Student.currentAllocation` or of `Student.roomId` is made by `CreateLease` or
`CompleteLease` only; a change of `Room.status` by one of these or by a room
update only; a change of `Allocation.status` by `CompleteLease` of that
allocation only. In particular room create, student create and student update
change none of these fields, and a room update changes none but
`Room.status`. -/
theorem field_ownership (isEmail : String → Bool) (s : Store) (op : Op) :
    (∀ roomId r r', s.findRoom roomId = some r →
      (step isEmail s op).store.findRoom roomId = some r' →
      (r'.currentOccupancy ≠ r.currentOccupancy →
        (∃ body now, op = .postAllocation body now) ∨ (∃ id now, op = .deallocate id now)) ∧
      (r'.status ≠ r.status →
        (∃ body now, op = .postAllocation body now) ∨ (∃ id now, op = .deallocate id now) ∨
        (∃ id body, op = .putRoom id body))) ∧
    (∀ studentId st st', s.findStudent studentId = some st →
      (step isEmail s op).store.findStudent studentId = some st' →
      (st'.currentAllocation ≠ st.currentAllocation ∨ st'.roomId ≠ st.roomId) →
      (∃ body now, op = .postAllocation body now) ∨ (∃ id now, op = .deallocate id now)) ∧
    (∀ aid a a', s.findAllocation aid = some a →
      (step isEmail s op).store.findAllocation aid = some a' →
      a'.status ≠ a.status → ∃ now, op = .deallocate aid now) := by
  refine ⟨?_, ?_, ?_⟩
  · intro roomId r r' hr hr'
    rcases step_findRoom isEmail s op roomId hr hr' with rfl | ⟨pre, hw, rfl⟩
    · exact ⟨fun h => absurd rfl h, fun h => absurd rfl h⟩
    · rcases hw with ⟨hop, _, _⟩ | ⟨hop, _, _⟩ | ⟨id, body, hop, _, _, hocc, _⟩
      · exact ⟨fun _ => Or.inl hop, fun _ => Or.inl hop⟩
      · exact ⟨fun _ => Or.inr hop, fun _ => Or.inr (Or.inl hop)⟩
      · refine ⟨fun h => ?_, fun _ => Or.inr (Or.inr ⟨id, body, hop⟩)⟩
        rw [roomPreSave_currentOccupancy] at h
        exact absurd hocc h
  · intro studentId st st' hst hst' hchg
    rcases step_findStudent isEmail s op studentId hst with h | ⟨post, hw, h⟩ | ⟨_, h⟩
    · rw [h] at hst'
      have := Option.some.inj hst'
      subst this
      rcases hchg with h | h <;> exact absurd rfl h
    · rw [h] at hst'
      have := Option.some.inj hst'
      subst this
      rcases hw with ⟨hop, _⟩ | ⟨⟨id, now, _, hop, _⟩, _⟩ | ⟨_, _, _, _, _, _, hroom, hcur⟩
      · exact Or.inl hop
      · exact Or.inr ⟨id, now, hop⟩
      · rcases hchg with h | h
        · exact absurd hcur h
        · exact absurd hroom h
    · rw [h] at hst'
      exact absurd hst' (by simp)
  · intro aid a a' ha ha' hchg
    rcases step_findAllocation isEmail s op aid ha ha' with rfl | ⟨now, hop, _, _⟩
    · exact absurd rfl hchg
    · exact ⟨now, hop⟩

/-- C24 as amended, at the sample store: the completion of allocation `3`
changes the occupancy of room `0`, and the request is a deallocation. -/
theorem field_ownership_witness :
    sampleStore.findRoom 0 = some sampleRoom ∧
    (step sampleIsEmail sampleStore (.deallocate 3 30)).store.findRoom 0 =
      some { sampleRoom with currentOccupancy := 0 } ∧
    ((∃ body now, Op.deallocate 3 30 = .postAllocation body now) ∨
      (∃ id now, Op.deallocate 3 30 = .deallocate id now)) :=
  ⟨by decide, by decide,
    ((field_ownership sampleIsEmail sampleStore (.deallocate 3 30)).1 0 sampleRoom
      { sampleRoom with currentOccupancy := 0 } (by decide) (by decide)).1 (by decide)⟩

/-! ## Status of full and of empty rooms -/

theorem roomPreSave_statusOk (pre : Room) (hcap : 1 ≤ pre.capacity) :
    StatusOk (roomPreSave pre) := by
  unfold StatusOk
  simp only [roomPreSave_capacity, roomPreSave_currentOccupancy, roomPreSave_status_eq]
  refine ⟨hcap, ?_, ?_⟩
  · intro hge
    rw [if_pos hge]
  · intro hz
    have hlt : ¬ pre.currentOccupancy ≥ pre.capacity := by omega
    rw [if_neg hlt]
    by_cases hm : pre.status = .Maintenance
    · right
      have : ¬ (pre.currentOccupancy = 0 ∧ pre.status ≠ .Maintenance) := fun h => h.2 hm
      rw [if_neg this]; exact hm
    · left
      rw [if_pos ⟨hz, hm⟩]

theorem step_statusOk (isEmail : String → Bool) (s : Store) (op : Op)
    (h : ∀ r ∈ s.rooms, StatusOk r) : ∀ r ∈ (step isEmail s op).store.rooms, StatusOk r := by
  intro r' hr'
  rcases step_rooms_mem isEmail s op hr' with hold | ⟨h0, hav, hcap⟩ | ⟨room, pre, hf, hw, rfl⟩
  · exact h r' hold
  · refine ⟨hcap, ?_, fun _ => Or.inl hav⟩
    intro hge
    omega
  · apply roomPreSave_statusOk
    have hroom := (h room (findById_some Room.id hf).2).1
    rcases hw with ⟨_, rfl, _⟩ | ⟨_, rfl, _⟩ | ⟨_, _, _, _, _, _, _, _, _, _, hc⟩
    · exact hroom
    · exact hroom
    · exact hc

theorem reachable_statusOk (isEmail : String → Bool) {s : Store}
    (h : Reachable isEmail s) : ∀ r ∈ s.rooms, StatusOk r := by
  induction h with
  | init => intro r hr; simp [Store.empty] at hr
  | next op _ ih => exact step_statusOk isEmail _ op ih

/-- C27 (full rooms are Occupied): in every store reachable from the empty
store by serving backend requests one at a time, room updates with an
explicit status included, every room with `currentOccupancy >= capacity` has
status Occupied and every room with `currentOccupancy = 0` has status
Available or Maintenance. -/
theorem full_rooms_occupied (isEmail : String → Bool) (s : Store)
    (h : Reachable isEmail s) :
    ∀ r ∈ s.rooms,
      (r.currentOccupancy ≥ r.capacity → r.status = .Occupied) ∧
      (r.currentOccupancy = 0 → r.status = .Available ∨ r.status = .Maintenance) :=
  fun r hr => (reachable_statusOk isEmail h r hr).2

/-- C27 at the full sample room after a room update that asks for status
`"Available"` and capacity `1`: the stored status is Occupied. -/
theorem full_rooms_occupied_witness :
    Reachable sampleIsEmail
      (step sampleIsEmail sampleStoreFull
        (.putRoom 0 { capacity := some 1, status := "Available" })).store ∧
    roomPreSave sampleOverfull ∈
      (step sampleIsEmail sampleStoreFull
        (.putRoom 0 { capacity := some 1, status := "Available" })).store.rooms ∧
    (roomPreSave sampleOverfull).currentOccupancy ≥ (roomPreSave sampleOverfull).capacity ∧
    (roomPreSave sampleOverfull).status = .Occupied :=
  have hre : Reachable sampleIsEmail
      (step sampleIsEmail sampleStoreFull
        (.putRoom 0 { capacity := some 1, status := "Available" })).store :=
    Reachable.next _ sampleStoreFull_reachable
  ⟨hre, by decide, by decide,
    (full_rooms_occupied sampleIsEmail _ hre (roomPreSave sampleOverfull) (by decide)).1
      (by decide)⟩

/-! ## Occupancy summary -/

theorem foldl_add_eq_sum {α : Type} (f : α → Nat) (l : List α) :
    ∀ acc : Nat, l.foldl (fun sum x => sum + f x) acc = acc + (l.map f).sum := by
  induction l with
  | nil => intro acc; simp
  | cons x xs ih =>
    intro acc
    rw [List.foldl_cons, ih, List.map_cons, List.sum_cons]
    omega

theorem sum_sub_eq (rooms : List Room) :
    (rooms.map (fun r => (r.capacity : Int) - (r.currentOccupancy : Int))).sum =
      ((rooms.map Room.capacity).sum : Int) - ((rooms.map Room.currentOccupancy).sum : Int) := by
  induction rooms with
  | nil => simp
  | cons r rs ih =>
    simp only [List.map_cons, List.sum_cons, ih]
    push_cast
    omega

theorem count_by_status (rooms : List Room) :
    rooms.length = countDocuments rooms .Available + countDocuments rooms .Occupied +
      countDocuments rooms .Maintenance := by
  unfold countDocuments
  induction rooms with
  | nil => simp
  | cons r rs ih =>
    simp only [List.filter_cons, List.length_cons]
    cases hs : r.status <;> simp <;> omega

/-- C23 (GetOccupancySummary): for every room collection the summary reports
the number of rooms, the numbers of rooms with status Available, Occupied and
Maintenance (which add up to the number of rooms), the sum of the capacities,
the sum of the occupancy counters, and as `availableBeds` their difference,
which is the sum over the rooms of `capacity - currentOccupancy`. -/
theorem statsSummary_correct (s : Store) :
    (statsSummary s).totalRooms = s.rooms.length ∧
    (statsSummary s).availableRooms = s.rooms.countP (fun r => r.status = .Available) ∧
    (statsSummary s).occupiedRooms = s.rooms.countP (fun r => r.status = .Occupied) ∧
    (statsSummary s).maintenanceRooms = s.rooms.countP (fun r => r.status = .Maintenance) ∧
    (statsSummary s).totalRooms = (statsSummary s).availableRooms +
      (statsSummary s).occupiedRooms + (statsSummary s).maintenanceRooms ∧
    (statsSummary s).totalCapacity = (s.rooms.map Room.capacity).sum ∧
    (statsSummary s).totalOccupied = (s.rooms.map Room.currentOccupancy).sum ∧
    (statsSummary s).availableBeds =
      ((statsSummary s).totalCapacity : Int) - ((statsSummary s).totalOccupied : Int) ∧
    (statsSummary s).availableBeds =
      (s.rooms.map (fun r => (r.capacity : Int) - (r.currentOccupancy : Int))).sum := by
  have hcount : ∀ st : RoomStatus,
      countDocuments s.rooms st = s.rooms.countP (fun r => r.status = st) := by
    intro st
    unfold countDocuments
    rw [List.countP_eq_length_filter]
    congr 1
  have hcap : s.rooms.foldl (fun sum room => sum + room.capacity) 0 =
      (s.rooms.map Room.capacity).sum := by
    rw [foldl_add_eq_sum Room.capacity]; simp
  have hocc : s.rooms.foldl (fun sum room => sum + room.currentOccupancy) 0 =
      (s.rooms.map Room.currentOccupancy).sum := by
    rw [foldl_add_eq_sum Room.currentOccupancy]; simp
  refine ⟨rfl, hcount _, hcount _, hcount _, count_by_status s.rooms, hcap, hocc, rfl, ?_⟩
  show ((s.rooms.foldl (fun sum room => sum + room.capacity) 0 : Nat) : Int) -
      ((s.rooms.foldl (fun sum room => sum + room.currentOccupancy) 0 : Nat) : Int) = _
  rw [hcap, hocc, sum_sub_eq]

/-! ## Event emission -/

theorem emits_failure (op : Op) (s : Store) (status : Nat) (body : Body)
    (h200 : status ≠ 200) (h201 : status ≠ 201) :
    Emits op { store := s, response := ⟨status, body⟩ } := by
  refine ⟨fun h => ?_, fun _ => rfl⟩
  rcases h with h | h
  · exact absurd h h200
  · exact absurd h h201

theorem emits_success (op : Op) (s : Store) (status : Nat) (body : Body) (e : Event)
    (hs : status = 200 ∨ status = 201) (hp : op.publishes e) (hi : e.inStore s) :
    Emits op { store := s, response := ⟨status, body⟩, events := [e] } :=
  ⟨fun _ => ⟨e, rfl, hp, hi⟩, fun h => absurd hs h⟩

theorem postRoom_emits (s : Store) (body : RoomBody) :
    Emits (.postRoom body) (postRoom s body) := by
  unfold postRoom
  cases hc : body.capacity with
  | none => exact emits_failure _ _ _ _ (by decide) (by decide)
  | some capacity =>
    simp only
    by_cases hv : body.roomNumber = "" ∨ capacity < 1
    · rw [if_pos hv]; exact emits_failure _ _ _ _ (by decide) (by decide)
    · rw [if_neg hv]
      cases hf : s.rooms.find? (fun r => r.roomNumber == body.roomNumber) with
      | some r0 => exact emits_failure _ _ _ _ (by decide) (by decide)
      | none =>
        refine emits_success _ _ _ _ _ (Or.inr rfl) ?_ ?_
        · exact trivial
        show _ ∈ s.rooms ++ [_]
        simp

theorem putRoom_emits (s : Store) (id : Id) (body : RoomBody) :
    Emits (.putRoom id body) (putRoom s id body) := by
  unfold putRoom
  cases hf : s.findRoom id with
  | none => exact emits_failure _ _ _ _ (by decide) (by decide)
  | some room =>
    simp only
    by_cases h1 : body.roomNumber ≠ "" ∧ body.roomNumber ≠ room.roomNumber ∧
        (s.rooms.find? (fun r => r.roomNumber == body.roomNumber)).isSome
    · rw [if_pos h1]; exact emits_failure _ _ _ _ (by decide) (by decide)
    · rw [if_neg h1]
      split
      · exact emits_failure _ _ _ _ (by decide) (by decide)
      · split
        · exact emits_failure _ _ _ _ (by decide) (by decide)
        · refine emits_success _ _ _ _ _ (Or.inl rfl) ?_ ?_
          · exact trivial
          exact (mem_saveDoc Room.id).2
            (Or.inr ⟨rfl, room, (findById_some Room.id hf).2, by simp⟩)

theorem deleteRoom_emits (s : Store) (id : Id) :
    Emits (.deleteRoom id) (deleteRoom s id) := by
  unfold deleteRoom
  cases hf : s.findRoom id with
  | none => exact emits_failure _ _ _ _ (by decide) (by decide)
  | some room =>
    simp only
    by_cases hocc : room.currentOccupancy > 0
    · rw [if_pos hocc]; exact emits_failure _ _ _ _ (by decide) (by decide)
    · rw [if_neg hocc]
      refine emits_success _ _ _ _ _ (Or.inl rfl) ?_ ?_
      · exact rfl
      intro r hr
      rw [(findById_some Room.id hf).1] at hr
      exact ((mem_deleteOne Room.id).1 hr).2

theorem postStudent_emits (isEmail : String → Bool) (s : Store) (body : StudentBody) :
    Emits (.postStudent body) (postStudent isEmail s body) := by
  unfold postStudent
  split_ifs with hv
  · exact emits_failure _ _ _ _ (by decide) (by decide)
  · split
    · exact emits_failure _ _ _ _ (by decide) (by decide)
    · refine emits_success _ _ _ _ _ (Or.inr rfl) ?_ ?_
      · exact trivial
      show _ ∈ s.students ++ [_]
      simp

theorem putStudent_emits (s : Store) (id : Id) (body : StudentBody) :
    Emits (.putStudent id body) (putStudent s id body) := by
  unfold putStudent
  cases hf : s.findStudent id with
  | none => exact emits_failure _ _ _ _ (by decide) (by decide)
  | some student =>
    simp only
    by_cases h1 : body.studentId ≠ "" ∧ body.studentId ≠ student.studentId ∧
        (s.students.find? (fun st => st.studentId == body.studentId)).isSome
    · rw [if_pos h1]; exact emits_failure _ _ _ _ (by decide) (by decide)
    · rw [if_neg h1]
      by_cases h2 : body.email ≠ "" ∧ body.email ≠ student.email ∧
          (s.students.find? (fun st => st.email == body.email)).isSome
      · rw [if_pos h2]; exact emits_failure _ _ _ _ (by decide) (by decide)
      · rw [if_neg h2]
        refine emits_success _ _ _ _ _ (Or.inl rfl) ?_ ?_
        · exact trivial
        exact (mem_saveDoc Student.id).2
          (Or.inr ⟨rfl, student, (findById_some Student.id hf).2, rfl⟩)

theorem deleteStudent_emits (s : Store) (id : Id) :
    Emits (.deleteStudent id) (deleteStudent s id) := by
  unfold deleteStudent
  cases hf : s.findStudent id with
  | none => exact emits_failure _ _ _ _ (by decide) (by decide)
  | some student =>
    simp only
    by_cases hcur : student.currentAllocation.isSome = true
    · rw [if_pos hcur]; exact emits_failure _ _ _ _ (by decide) (by decide)
    · rw [if_neg hcur]
      refine emits_success _ _ _ _ _ (Or.inl rfl) ?_ ?_
      · exact rfl
      intro st hst
      rw [(findById_some Student.id hf).1] at hst
      exact ((mem_deleteOne Student.id).1 hst).2

theorem postAllocation_emits (s : Store) (body : AllocationBody) (now : Date) :
    Emits (.postAllocation body now) (postAllocation s body now) := by
  unfold postAllocation
  cases hs : body.studentId with
  | none => exact emits_failure _ _ _ _ (by decide) (by decide)
  | some studentId =>
    cases hr : body.roomId with
    | none => exact emits_failure _ _ _ _ (by decide) (by decide)
    | some roomId =>
      simp only
      cases hst : s.findStudent studentId with
      | none => exact emits_failure _ _ _ _ (by decide) (by decide)
      | some student =>
        simp only
        by_cases hcur : student.currentAllocation.isSome = true
        · rw [if_pos hcur]; exact emits_failure _ _ _ _ (by decide) (by decide)
        · rw [if_neg hcur]
          cases hrm : s.findRoom roomId with
          | none => exact emits_failure _ _ _ _ (by decide) (by decide)
          | some room =>
            simp only
            by_cases hfull : room.currentOccupancy ≥ room.capacity
            · rw [if_pos hfull]; exact emits_failure _ _ _ _ (by decide) (by decide)
            · rw [if_neg hfull]
              refine emits_success _ _ _ _ _ (Or.inr rfl) ?_ ?_
              · exact trivial
              · refine ⟨?_, ?_, ?_⟩
                · show _ ∈ s.allocations ++ [_]
                  simp
                · exact (mem_saveDoc Room.id).2
                    (Or.inr ⟨rfl, room, (findById_some Room.id hrm).2, by simp⟩)
                · exact (mem_saveDoc Student.id).2
                    (Or.inr ⟨rfl, student, (findById_some Student.id hst).2, rfl⟩)

theorem deallocate_emits (s : Store) (id : Id) (now : Date) :
    Emits (.deallocate id now) (deallocate s id now) := by
  unfold deallocate
  cases hf : s.findAllocation id with
  | none => exact emits_failure _ _ _ _ (by decide) (by decide)
  | some found =>
    simp only
    by_cases hdone : found.status = .Completed
    · rw [if_pos hdone]; exact emits_failure _ _ _ _ (by decide) (by decide)
    · rw [if_neg hdone]
      refine emits_success _ _ _ _ _ (Or.inl rfl) ?_ ?_
      · exact trivial
      · refine ⟨?_, ?_, ?_⟩
        · exact (mem_saveDoc Allocation.id).2
            (Or.inr ⟨rfl, found, (findById_some Allocation.id hf).2, rfl⟩)
        · intro x hx
          cases hfr : s.findRoom found.roomId with
          | none => simp [hfr] at hx
          | some room =>
            by_cases hgt : room.currentOccupancy > 0
            · simp only [hfr, if_pos hgt, Option.some.injEq] at hx ⊢
              subst hx
              exact (mem_saveDoc Room.id).2
                (Or.inr ⟨rfl, room, (findById_some Room.id hfr).2, by simp⟩)
            · simp only [hfr, if_neg hgt, Option.some.injEq] at hx ⊢
              subst hx
              exact (findById_some Room.id hfr).2
        · intro x hx
          cases hfs : s.findStudent found.studentId with
          | none => simp [hfs] at hx
          | some student =>
            simp only [hfs, Option.some.injEq] at hx ⊢
            subst hx
            exact (mem_saveDoc Student.id).2
              (Or.inr ⟨rfl, student, (findById_some Student.id hfs).2, rfl⟩)

theorem deleteAllocation_emits (s : Store) (id : Id) :
    Emits (.deleteAllocation id) (deleteAllocation s id) := by
  unfold deleteAllocation
  cases hf : s.findAllocation id with
  | none => exact emits_failure _ _ _ _ (by decide) (by decide)
  | some allocation =>
    simp only
    by_cases hact : allocation.status = .Active
    · rw [if_pos hact]; exact emits_failure _ _ _ _ (by decide) (by decide)
    · rw [if_neg hact]
      refine emits_success _ _ _ _ _ (Or.inl rfl) ?_ ?_
      · exact rfl
      intro a ha
      rw [(findById_some Allocation.id hf).1] at ha
      exact ((mem_deleteOne Allocation.id).1 ha).2

/-- C22 (event emission): every backend request that succeeds (200 or 201)
emits exactly one event; the event has the type that belongs to the request
and its payload is the state after the request's writes (the documents it
carries are the stored ones, a deleted id names no stored document); every
request that fails emits no event. -/
theorem event_emission (isEmail : String → Bool) (s : Store) (op : Op) :
    ((step isEmail s op).response.succeeded →
      ∃ e, (step isEmail s op).events = [e] ∧ op.publishes e ∧
        e.inStore (step isEmail s op).store) ∧
    (¬ (step isEmail s op).response.succeeded → (step isEmail s op).events = []) := by
  cases op with
  | postRoom body => exact postRoom_emits s body
  | putRoom id body => exact putRoom_emits s id body
  | deleteRoom id => exact deleteRoom_emits s id
  | postStudent body => exact postStudent_emits isEmail s body
  | putStudent id body => exact putStudent_emits s id body
  | deleteStudent id => exact deleteStudent_emits s id
  | postAllocation body now => exact postAllocation_emits s body now
  | deallocate id now => exact deallocate_emits s id now
  | deleteAllocation id => exact deleteAllocation_emits s id

/-- C22 at the sample store: the completion of allocation `3` emits one
`allocation_completed` event, the rejected deletion of room `0` none. -/
theorem event_emission_witness :
    (step sampleIsEmail sampleStore (.deallocate 3 30)).response.succeeded ∧
    (∃ e, (step sampleIsEmail sampleStore (.deallocate 3 30)).events = [e] ∧
      (Op.deallocate 3 30).publishes e ∧
      e.inStore (step sampleIsEmail sampleStore (.deallocate 3 30)).store) ∧
    ¬ (step sampleIsEmail sampleStore (.deleteRoom 0)).response.succeeded ∧
    (step sampleIsEmail sampleStore (.deleteRoom 0)).events = [] :=
  have hok : (step sampleIsEmail sampleStore (.deallocate 3 30)).response.succeeded :=
    Or.inl (by decide)
  have hno : ¬ (step sampleIsEmail sampleStore (.deleteRoom 0)).response.succeeded := by
    intro h
    rcases h with h | h <;> exact absurd h (by decide)
  ⟨hok, (event_emission sampleIsEmail sampleStore (.deallocate 3 30)).1 hok, hno,
    (event_emission sampleIsEmail sampleStore (.deleteRoom 0)).2 hno⟩

/-! ## Create / Complete round trip -/

/-- C28 fails as stated: `sampleStoreStale` satisfies I1, I2 and I3; the
`CreateLease` of student `1` for room `0` succeeds and produces allocation `2`;
the `CompleteLease` that follows succeeds; but the student's `roomId` is null
afterwards, not the value it had before the `CreateLease`. -/
theorem round_trip_counterexample :
    I1 sampleStoreStale ∧ I2 sampleStoreStale ∧ I3 sampleStoreStale ∧
    (createLease sampleStoreStale 1 0 none 10).response.status = 201 ∧
    (deallocate (createLease sampleStoreStale 1 0 none 10).store 2 20).response.status = 200 ∧
    ((deallocate (createLease sampleStoreStale 1 0 none 10).store 2 20).store.findStudent 1).map
        (·.roomId) ≠
      (sampleStoreStale.findStudent 1).map (·.roomId) :=
  ⟨by decide, by decide, by decide, by decide, by decide, by decide⟩

theorem saveDoc_append_fresh {α : Type} (key : α → Id) (docs : List α) (old new : α)
    (hfresh : ∀ d ∈ docs, key d ≠ key new) (hk : key old = key new) :
    saveDoc key (docs ++ [old]) new = docs ++ [new] := by
  have h1 : saveDoc key (docs ++ [old]) new = saveDoc key docs new ++ saveDoc key [old] new := by
    unfold saveDoc
    rw [List.map_append]
  rw [h1, saveDoc_eq_self key hfresh]
  simp [saveDoc, hk]

/-- C28 as amended (round trip): in every store with fresh allocation ids in
which the student `O` carries no room reference, for every successful
`CreateLease(O, R)`, producing allocation `L`, an immediately following
`CompleteLease(L)` succeeds, the room `R` has its former `currentOccupancy`,
the student `O` is stored exactly as before (`currentAllocation` and `roomId`
null again), the allocation collection is the old one followed by `L` with
status Completed, and no room or student document is added or removed. -/
theorem round_trip (s : Store) (studentId roomId : Id) (notes : Option String)
    (now now2 : Date) (hfresh : s.findAllocation s.nextId = none)
    (hok : (createLease s studentId roomId notes now).response.status = 201)
    (hnull : ∀ st, s.findStudent studentId = some st → st.roomId = none) :
    (deallocate (createLease s studentId roomId notes now).store s.nextId now2).response.status
      = 200 ∧
    (∃ r r2, s.findRoom roomId = some r ∧
      (deallocate (createLease s studentId roomId notes now).store s.nextId
        now2).store.findRoom roomId = some r2 ∧
      r2.currentOccupancy = r.currentOccupancy) ∧
    (deallocate (createLease s studentId roomId notes now).store s.nextId
      now2).store.findStudent studentId = s.findStudent studentId ∧
    (deallocate (createLease s studentId roomId notes now).store s.nextId
      now2).store.allocations =
      s.allocations ++
        [{ id := s.nextId, studentId := studentId, roomId := roomId, allocationDate := now,
           deallocationDate := some now2, status := .Completed, notes := notes }] ∧
    (deallocate (createLease s studentId roomId notes now).store s.nextId
      now2).store.rooms.map Room.id = s.rooms.map Room.id ∧
    (deallocate (createLease s studentId roomId notes now).store s.nextId
      now2).store.students.map Student.id = s.students.map Student.id := by
  have hcases := postAllocation_cases s ⟨some studentId, some roomId, notes⟩ now
  unfold createLease at hok ⊢
  rcases hcases with ⟨_, hne⟩ | ⟨sid, rid, st, r, hsid, hrid, hfs, hcur, hfr, hlt, _, hs⟩
  · exact absurd hok hne
  · simp only [Option.some.injEq] at hsid hrid
    subst hsid hrid
    have hks := (findById_some Student.id hfs).1
    have hkr := (findById_some Room.id hfr).1
    have hroomId := hnull st hfs
    rw [hs]
    -- the store after the first call
    have hL : Store.findAllocation
        { students := saveDoc Student.id s.students
            { st with roomId := some roomId, currentAllocation := some s.nextId }
          rooms := saveDoc Room.id s.rooms
            (roomPreSave { r with currentOccupancy := r.currentOccupancy + 1 })
          allocations := s.allocations ++
            [{ id := s.nextId, studentId := studentId, roomId := roomId,
               allocationDate := now, notes := notes }]
          nextId := s.nextId + 1 } s.nextId =
        some { id := s.nextId, studentId := studentId, roomId := roomId,
               allocationDate := now, notes := notes } := by
      unfold Store.findAllocation at hfresh ⊢
      simp only
      rw [findById_append, hfresh]
      simp
    have hR : Store.findRoom
        { students := saveDoc Student.id s.students
            { st with roomId := some roomId, currentAllocation := some s.nextId }
          rooms := saveDoc Room.id s.rooms
            (roomPreSave { r with currentOccupancy := r.currentOccupancy + 1 })
          allocations := s.allocations ++
            [{ id := s.nextId, studentId := studentId, roomId := roomId,
               allocationDate := now, notes := notes }]
          nextId := s.nextId + 1 } roomId =
        some (roomPreSave { r with currentOccupancy := r.currentOccupancy + 1 }) := by
      have h0 : findById Room.id s.rooms
          (Room.id (roomPreSave { r with currentOccupancy := r.currentOccupancy + 1 }))
          = some r := by
        simpa [hkr] using hfr
      have := findById_saveDoc_self Room.id h0
      simpa [Store.findRoom, hkr] using this
    have hS : Store.findStudent
        { students := saveDoc Student.id s.students
            { st with roomId := some roomId, currentAllocation := some s.nextId }
          rooms := saveDoc Room.id s.rooms
            (roomPreSave { r with currentOccupancy := r.currentOccupancy + 1 })
          allocations := s.allocations ++
            [{ id := s.nextId, studentId := studentId, roomId := roomId,
               allocationDate := now, notes := notes }]
          nextId := s.nextId + 1 } studentId =
        some { st with roomId := some roomId, currentAllocation := some s.nextId } := by
      have h1 : findById Student.id s.students
          (Student.id { st with roomId := some roomId, currentAllocation := some s.nextId })
          = some st := by
        simpa [hks] using hfs
      have := findById_saveDoc_self Student.id h1
      simpa [Store.findStudent, hks] using this
    obtain ⟨hok2, _⟩ := deallocate_active _ s.nextId now2 hL rfl
    rcases deallocate_cases _ s.nextId now2 with ⟨_, hne⟩ | ⟨found, hf, _, _, hs2⟩
    · exact absurd hok2 hne
    · have hEq := Option.some.inj (hf.symm.trans hL)
      subst hEq
      refine ⟨hok2, ?_, ?_, ?_, ?_, ?_⟩
      · refine ⟨r, roomPreSave
          { (roomPreSave { r with currentOccupancy := r.currentOccupancy + 1 }) with
            currentOccupancy :=
              (roomPreSave { r with currentOccupancy := r.currentOccupancy + 1
                }).currentOccupancy - 1 }, hfr, ?_, by simp⟩
        rw [hs2]
        have hgt : (roomPreSave { r with currentOccupancy := r.currentOccupancy + 1
            }).currentOccupancy > 0 := by simp
        simp only [hR, if_pos hgt]
        have h0 := @findById_saveDoc_self Room Room.id
          (saveDoc Room.id s.rooms
            (roomPreSave { r with currentOccupancy := r.currentOccupancy + 1 }))
          (roomPreSave
            { (roomPreSave { r with currentOccupancy := r.currentOccupancy + 1 }) with
              currentOccupancy :=
                (roomPreSave { r with currentOccupancy := r.currentOccupancy + 1
                  }).currentOccupancy - 1 })
          (roomPreSave { r with currentOccupancy := r.currentOccupancy + 1 })
          (by simpa [Store.findRoom, hkr] using hR)
        simpa [Store.findRoom, hkr] using h0
      · rw [hs2]
        simp only [hS]
        have h0 := @findById_saveDoc_self Student Student.id
          (saveDoc Student.id s.students
            { st with roomId := some roomId, currentAllocation := some s.nextId })
          ({ st with roomId := none, currentAllocation := none } : Student)
          { st with roomId := some roomId, currentAllocation := some s.nextId }
          (by simpa [Store.findStudent, hks] using hS)
        have hst : ({ st with roomId := none, currentAllocation := none } : Student) = st := by
          cases st
          simp_all
        rw [hfs, ← hst]
        simpa [Store.findStudent, hks, hst] using h0
      · rw [hs2]
        simp only
        apply saveDoc_append_fresh Allocation.id
        · intro d hd
          exact (findById_eq_none Allocation.id).1 hfresh d hd
        · rfl
      · rw [hs2]
        have hgt : (roomPreSave { r with currentOccupancy := r.currentOccupancy + 1
            }).currentOccupancy > 0 := by simp
        simp only [hR, if_pos hgt, map_key_saveDoc]
      · rw [hs2]
        simp only [hS, map_key_saveDoc]

/-- C28 as amended, at the sample store: student `2` (no room reference) is
allocated to room `0` as allocation `4` and the allocation is completed. -/
theorem round_trip_witness :
    sampleStore.findAllocation sampleStore.nextId = none ∧
    (createLease sampleStore 2 0 none 20).response.status = 201 ∧
    sampleStore.findStudent 2 = some sampleStudent2 ∧ sampleStudent2.roomId = none ∧
    (deallocate (createLease sampleStore 2 0 none 20).store sampleStore.nextId
      30).response.status = 200 ∧
    (deallocate (createLease sampleStore 2 0 none 20).store sampleStore.nextId
      30).store.findStudent 2 = sampleStore.findStudent 2 ∧
    (deallocate (createLease sampleStore 2 0 none 20).store sampleStore.nextId
      30).store.allocations =
      sampleStore.allocations ++
        [{ id := sampleStore.nextId, studentId := 2, roomId := 0, allocationDate := 20,
           deallocationDate := some 30, status := .Completed, notes := none }] :=
  have hw := round_trip sampleStore 2 0 none 20 30 (by decide) (by decide)
    (by
      intro st h
      have hfind : sampleStore.findStudent 2 = some sampleStudent2 := by decide
      rw [hfind] at h
      cases h
      rfl)
  ⟨by decide, by decide, by decide, by decide, hw.1, hw.2.2.1, hw.2.2.2.1⟩

/-! ## Concurrent creates -/

/-- C25 fails as stated: for the room `0` of `sampleStoreOne` (capacity 1,
occupancy 0) and the distinct unallocated students `1` and `2`, under the
schedule `sampleSchedule` both calls succeed (201); the final
`currentOccupancy` is 1 while two Active allocations reference the room. -/
theorem concurrent_creates_counterexample :
    sampleStoreOne.findRoom 0 =
      some { id := 0, roomNumber := "S1", capacity := 1, currentOccupancy := 0 } ∧
    (sampleStoreOne.findStudent 1).map (·.currentAllocation) = some none ∧
    (sampleStoreOne.findStudent 2).map (·.currentAllocation) = some none ∧
    (∃ e1 a1 e2 a2,
      (interleave ⟨1, 0, none, 10⟩ ⟨2, 0, none, 11⟩ sampleStoreOne sampleSchedule).first =
        .done ⟨201, .allocation a1⟩ e1 ∧
      (interleave ⟨1, 0, none, 10⟩ ⟨2, 0, none, 11⟩ sampleStoreOne sampleSchedule).second =
        .done ⟨201, .allocation a2⟩ e2) ∧
    ((interleave ⟨1, 0, none, 10⟩ ⟨2, 0, none, 11⟩ sampleStoreOne
      sampleSchedule).store.findRoom 0).map (·.currentOccupancy) = some 1 ∧
    (interleave ⟨1, 0, none, 10⟩ ⟨2, 0, none, 11⟩ sampleStoreOne
      sampleSchedule).store.activeInRoom 0 = 2 := by
  refine ⟨by decide, by decide, by decide, ?_, by decide, by decide⟩
  exact ⟨_, _, _, _, rfl, rfl⟩

/-- A handler run that is not interrupted is the handler `postAllocation`:
five steps from the start give its store, response and events. -/
theorem createPhaseRun_createLease (c : CreateCall) (s : Store) :
    createPhaseRun c 5 (s, .findStudent) =
      ((createLease s c.studentId c.roomId c.notes c.now).store,
       .done (createLease s c.studentId c.roomId c.notes c.now).response
         (createLease s c.studentId c.roomId c.notes c.now).events) := by
  unfold createLease postAllocation
  simp only [createPhaseRun]
  cases hst : s.findStudent c.studentId with
  | none => simp [createPhaseStep, hst, reject]
  | some st =>
    by_cases hcur : st.currentAllocation.isSome = true
    · simp [createPhaseStep, hst, hcur, reject]
    · cases hr : s.findRoom c.roomId with
      | none => simp [createPhaseStep, hst, hcur, hr, reject]
      | some r =>
        by_cases hge : r.currentOccupancy ≥ r.capacity
        · simp [createPhaseStep, hst, hcur, hr, hge, reject]
        · simp [createPhaseStep, hst, hcur, hr, hge]

theorem foldl_interleaveStep_true (c1 c2 : CreateCall) (n : Nat) (st : InFlight) :
    (List.replicate n true).foldl (interleaveStep c1 c2) st =
      { store := (createPhaseRun c1 n (st.store, st.first)).1
        first := (createPhaseRun c1 n (st.store, st.first)).2
        second := st.second } := by
  induction n generalizing st with
  | zero => rfl
  | succ n ih =>
    rw [List.replicate_succ, List.foldl_cons, ih]
    simp [interleaveStep, createPhaseRun]

theorem foldl_interleaveStep_false (c1 c2 : CreateCall) (n : Nat) (st : InFlight) :
    (List.replicate n false).foldl (interleaveStep c1 c2) st =
      { store := (createPhaseRun c2 n (st.store, st.second)).1
        first := st.first
        second := (createPhaseRun c2 n (st.store, st.second)).2 } := by
  induction n generalizing st with
  | zero => rfl
  | succ n ih =>
    rw [List.replicate_succ, List.foldl_cons, ih]
    simp [interleaveStep, createPhaseRun]

/-- Five further steps of a run that has answered change nothing. -/
theorem createPhaseRun_done (c : CreateCall) (n : Nat) (s : Store) (r : Response)
    (e : List Event) : createPhaseRun c n (s, .done r e) = (s, .done r e) := by
  induction n with
  | zero => rfl
  | succ n ih => simpa [createPhaseRun, createPhaseStep] using ih

/-- Serving the first call to its end and then the second is `createLease`
followed by `createLease`. -/
theorem interleave_serial_true (c1 c2 : CreateCall) (s : Store) :
    interleave c1 c2 s (serialSchedule true) =
      { store := (createLease (createLease s c1.studentId c1.roomId c1.notes c1.now).store
          c2.studentId c2.roomId c2.notes c2.now).store
        first := .done (createLease s c1.studentId c1.roomId c1.notes c1.now).response
          (createLease s c1.studentId c1.roomId c1.notes c1.now).events
        second := .done
          (createLease (createLease s c1.studentId c1.roomId c1.notes c1.now).store
            c2.studentId c2.roomId c2.notes c2.now).response
          (createLease (createLease s c1.studentId c1.roomId c1.notes c1.now).store
            c2.studentId c2.roomId c2.notes c2.now).events } := by
  unfold interleave serialSchedule
  rw [List.foldl_append, foldl_interleaveStep_true]
  show (List.replicate 5 false).foldl (interleaveStep c1 c2) _ = _
  rw [foldl_interleaveStep_false, createPhaseRun_createLease, createPhaseRun_createLease]

/-- Serving the second call to its end and then the first is `createLease`
followed by `createLease`. -/
theorem interleave_serial_false (c1 c2 : CreateCall) (s : Store) :
    interleave c1 c2 s (serialSchedule false) =
      { store := (createLease (createLease s c2.studentId c2.roomId c2.notes c2.now).store
          c1.studentId c1.roomId c1.notes c1.now).store
        first := .done
          (createLease (createLease s c2.studentId c2.roomId c2.notes c2.now).store
            c1.studentId c1.roomId c1.notes c1.now).response
          (createLease (createLease s c2.studentId c2.roomId c2.notes c2.now).store
            c1.studentId c1.roomId c1.notes c1.now).events
        second := .done (createLease s c2.studentId c2.roomId c2.notes c2.now).response
          (createLease s c2.studentId c2.roomId c2.notes c2.now).events } := by
  unfold interleave serialSchedule
  rw [List.foldl_append, foldl_interleaveStep_false]
  show (List.replicate 5 true).foldl (interleaveStep c1 c2) _ = _
  rw [foldl_interleaveStep_true, createPhaseRun_createLease, createPhaseRun_createLease]

/-- Two `CreateLease` calls for the last slot of a room served one after the
other: the first is answered 201, the second "Room is at full capacity", and
the room ends with occupancy 1. -/
theorem createLease_twice (s : Store) (c1 c2 : CreateCall) (r : Room) (o1 o2 : Student)
    (hroom : c1.roomId = c2.roomId) (hr : s.findRoom c1.roomId = some r)
    (hcap : r.capacity = 1) (hocc : r.currentOccupancy = 0)
    (hne : c1.studentId ≠ c2.studentId)
    (ho1 : s.findStudent c1.studentId = some o1) (h1 : o1.currentAllocation = none)
    (ho2 : s.findStudent c2.studentId = some o2) (h2 : o2.currentAllocation = none) :
    (∃ a e, (createLease s c1.studentId c1.roomId c1.notes c1.now).response =
        ⟨201, .allocation a⟩ ∧
      (createLease s c1.studentId c1.roomId c1.notes c1.now).events = e) ∧
    createLease (createLease s c1.studentId c1.roomId c1.notes c1.now).store
        c2.studentId c2.roomId c2.notes c2.now =
      reject (createLease s c1.studentId c1.roomId c1.notes c1.now).store 400
        "Room is at full capacity" ∧
    ((createLease s c1.studentId c1.roomId c1.notes c1.now).store.findRoom c1.roomId).map
      (·.currentOccupancy) = some 1 := by
  have hlt : r.currentOccupancy < r.capacity := by omega
  have hroom1 := findRoom_createLease_success s c1.studentId c1.roomId c1.notes c1.now
    ho1 h1 hr hlt
  have hst2 : (createLease s c1.studentId c1.roomId c1.notes c1.now).store.findStudent
      c2.studentId = some o2 := by
    rw [createLease_findStudent_ne s c1.studentId c1.roomId c1.notes c1.now (Ne.symm hne)]
    exact ho2
  have hroom2 : (createLease s c1.studentId c1.roomId c1.notes c1.now).store.findRoom
      c2.roomId = some (roomPreSave { r with currentOccupancy := r.currentOccupancy + 1 }) := by
    rw [← hroom]
    exact hroom1
  refine ⟨?_, ?_, ?_⟩
  · rw [createLease_success s c1.studentId c1.roomId c1.notes c1.now ho1 h1 hr hlt]
    exact ⟨_, _, rfl, rfl⟩
  · refine createLease_full _ c2.studentId c2.roomId c2.notes c2.now hst2 h2 hroom2 ?_
    simp only [roomPreSave_currentOccupancy, roomPreSave_capacity]
    show r.capacity ≤ r.currentOccupancy + 1
    omega
  · rw [hroom1]
    simp [hocc]

/-- C25 (as amended): for a room R with capacity 1 and occupancy 0 and two
distinct unallocated students O1 and O2, when the two concurrent
`CreateLease(O1, R)` and `CreateLease(O2, R)` calls are served one after the
other (in either order), exactly one call succeeds - the one served first -,
the other fails with "Room is at full capacity", and the final
`R.currentOccupancy` is 1. -/
theorem serial_creates (s : Store) (c1 c2 : CreateCall) (r : Room) (o1 o2 : Student)
    (hroom : c1.roomId = c2.roomId) (hr : s.findRoom c1.roomId = some r)
    (hcap : r.capacity = 1) (hocc : r.currentOccupancy = 0)
    (hne : c1.studentId ≠ c2.studentId)
    (ho1 : s.findStudent c1.studentId = some o1) (h1 : o1.currentAllocation = none)
    (ho2 : s.findStudent c2.studentId = some o2) (h2 : o2.currentAllocation = none) :
    ((∃ a e, (interleave c1 c2 s (serialSchedule true)).first =
        .done ⟨201, .allocation a⟩ e) ∧
      (interleave c1 c2 s (serialSchedule true)).second =
        .done ⟨400, .message "Room is at full capacity"⟩ [] ∧
      ((interleave c1 c2 s (serialSchedule true)).store.findRoom c1.roomId).map
        (·.currentOccupancy) = some 1) ∧
    ((∃ a e, (interleave c1 c2 s (serialSchedule false)).second =
        .done ⟨201, .allocation a⟩ e) ∧
      (interleave c1 c2 s (serialSchedule false)).first =
        .done ⟨400, .message "Room is at full capacity"⟩ [] ∧
      ((interleave c1 c2 s (serialSchedule false)).store.findRoom c1.roomId).map
        (·.currentOccupancy) = some 1) := by
  constructor
  · obtain ⟨⟨a, e, hres, hev⟩, hsecond, hfinal⟩ :=
      createLease_twice s c1 c2 r o1 o2 hroom hr hcap hocc hne ho1 h1 ho2 h2
    rw [interleave_serial_true, hsecond]
    refine ⟨⟨a, e, ?_⟩, rfl, hfinal⟩
    show CreatePhase.done _ _ = _
    rw [hres, hev]
  · obtain ⟨⟨a, e, hres, hev⟩, hsecond, hfinal⟩ :=
      createLease_twice s c2 c1 r o2 o1 hroom.symm (hroom ▸ hr) hcap hocc (Ne.symm hne)
        ho2 h2 ho1 h1
    rw [interleave_serial_false, hsecond]
    refine ⟨⟨a, e, ?_⟩, rfl, ?_⟩
    · show CreatePhase.done _ _ = _
      rw [hres, hev]
    · show ((createLease s c2.studentId c2.roomId c2.notes c2.now).store.findRoom
        c1.roomId).map (·.currentOccupancy) = some 1
      rw [hroom]
      exact hfinal

/-- C25 (as amended) at `sampleStoreOne`: the calls of the students `1` and `2`
for the room `0`. -/
theorem serial_creates_witness :
    (⟨1, 0, none, 10⟩ : CreateCall).roomId = (⟨2, 0, none, 11⟩ : CreateCall).roomId ∧
    sampleStoreOne.findRoom (⟨1, 0, none, 10⟩ : CreateCall).roomId =
      some { id := 0, roomNumber := "S1", capacity := 1 } ∧
    (⟨1, 0, none, 10⟩ : CreateCall).studentId ≠ (⟨2, 0, none, 11⟩ : CreateCall).studentId ∧
    sampleStoreOne.findStudent 1 =
      some { id := 1, name := "O1", studentId := "S1", course := "CS", contact := "1",
             email := "o1@hostel.test" } ∧
    sampleStoreOne.findStudent 2 =
      some { id := 2, name := "O2", studentId := "S2", course := "CS", contact := "2",
             email := "o2@hostel.test" } ∧
    ((∃ a e, (interleave ⟨1, 0, none, 10⟩ ⟨2, 0, none, 11⟩ sampleStoreOne
        (serialSchedule true)).first = .done ⟨201, .allocation a⟩ e) ∧
      (interleave ⟨1, 0, none, 10⟩ ⟨2, 0, none, 11⟩ sampleStoreOne
        (serialSchedule true)).second =
        .done ⟨400, .message "Room is at full capacity"⟩ [] ∧
      ((interleave ⟨1, 0, none, 10⟩ ⟨2, 0, none, 11⟩ sampleStoreOne
        (serialSchedule true)).store.findRoom 0).map (·.currentOccupancy) = some 1) ∧
    ((∃ a e, (interleave ⟨1, 0, none, 10⟩ ⟨2, 0, none, 11⟩ sampleStoreOne
        (serialSchedule false)).second = .done ⟨201, .allocation a⟩ e) ∧
      (interleave ⟨1, 0, none, 10⟩ ⟨2, 0, none, 11⟩ sampleStoreOne
        (serialSchedule false)).first =
        .done ⟨400, .message "Room is at full capacity"⟩ [] ∧
      ((interleave ⟨1, 0, none, 10⟩ ⟨2, 0, none, 11⟩ sampleStoreOne
        (serialSchedule false)).store.findRoom 0).map (·.currentOccupancy) = some 1) :=
  ⟨rfl, by decide, by decide, by decide, by decide,
    serial_creates sampleStoreOne ⟨1, 0, none, 10⟩ ⟨2, 0, none, 11⟩
      { id := 0, roomNumber := "S1", capacity := 1 }
      { id := 1, name := "O1", studentId := "S1", course := "CS", contact := "1",
        email := "o1@hostel.test" }
      { id := 2, name := "O2", studentId := "S2", course := "CS", contact := "2",
        email := "o2@hostel.test" }
      rfl (by decide) rfl rfl (by decide) (by decide) rfl (by decide) rfl⟩

/-! ## Store errors during the writes -/

/-- A create request that fails a check attempts no write, so it is answered
as by `postAllocation` whichever write would throw. -/
theorem postAllocationFailing_rejected (s : Store) (body : AllocationBody) (now : Date)
    (fail : FailingWrite) (h : (postAllocation s body now).response.status ≠ 201) :
    postAllocationFailing s body now fail = postAllocation s body now := by
  unfold postAllocationFailing
  unfold postAllocation at h ⊢
  split
  · split
    · rfl
    · split
      · rfl
      · split
        · rfl
        · split
          · rfl
          · exfalso
            simp_all
  · rfl

/-- A deallocate request that fails a check attempts no write, so it is
answered as by `deallocate` whichever write would throw. -/
theorem deallocateFailing_rejected (s : Store) (id : Id) (now : Date)
    (fail : FailingWrite) (h : (deallocate s id now).response.status ≠ 200) :
    deallocateFailing s id now fail = deallocate s id now := by
  unfold deallocateFailing
  unfold deallocate at h ⊢
  split
  · rfl
  · split
    · rfl
    · exfalso
      simp_all

/-- C26 fails as stated: in `sampleStore` (which satisfies I1-I3) the
`CreateLease` of student `2` for room `0` whose `room.save()` throws is
answered 500 and leaves its new Active allocation `4` in the store, with the
room and student records unchanged, so I2 and I3 no longer hold; the
`CompleteLease` of allocation `3` whose `room.save()` throws is answered 500
and leaves the allocation Completed while the room still counts it, so I2 no
longer holds. -/
theorem atomic_commit_counterexample :
    (I1 sampleStore ∧ I2 sampleStore ∧ I3 sampleStore) ∧
    ((postAllocationFailing sampleStore ⟨some 2, some 0, none⟩ 10 .room).response =
        ⟨500, .thrown⟩ ∧
      (postAllocationFailing sampleStore ⟨some 2, some 0, none⟩ 10 .room).store.findAllocation 4 =
        some { id := 4, studentId := 2, roomId := 0, allocationDate := 10 } ∧
      sampleStore.findAllocation 4 = none ∧
      ¬ I2 (postAllocationFailing sampleStore ⟨some 2, some 0, none⟩ 10 .room).store ∧
      ¬ I3 (postAllocationFailing sampleStore ⟨some 2, some 0, none⟩ 10 .room).store) ∧
    ((deallocateFailing sampleStore 3 10 .room).response = ⟨500, .thrown⟩ ∧
      ((deallocateFailing sampleStore 3 10 .room).store.findAllocation 3).map (·.status) =
        some .Completed ∧
      (sampleStore.findAllocation 3).map (·.status) = some .Active ∧
      ¬ I2 (deallocateFailing sampleStore 3 10 .room).store) := by
  refine ⟨⟨by decide, by decide, by decide⟩, ⟨by decide, by decide, by decide, by decide,
    by decide⟩, by decide, by decide, by decide, by decide⟩

/-- C26 (as amended): a store error at a record write that a lease handler
attempts is answered 500 with no event, and the writes made before it stay
visible - there is no rollback. For every `CreateLease` that passes its
checks: if `Allocation.create` fails the store is unchanged; if `room.save`
fails the new Active allocation is visible and nothing else has changed; if
`student.save` fails the allocation and the room write are visible and the
student records are unchanged. For every `CompleteLease` that passes its
checks: if `allocation.save` fails the store is unchanged; if `room.save`
fails (room found at occupancy above 0) the allocation is stored Completed and
nothing else has changed; if `student.save` fails (student found) the
allocation is stored Completed, the room write - made when the room is found
at occupancy above 0 - is visible, and the student records are unchanged. -/
theorem failing_write_effects (s : Store) (now : Date) :
    (∀ (studentId roomId : Id) (notes : Option String) (st : Student) (r : Room),
      s.findStudent studentId = some st → st.currentAllocation = none →
      s.findRoom roomId = some r → r.currentOccupancy < r.capacity →
      postAllocationFailing s ⟨some studentId, some roomId, notes⟩ now .allocation =
        { store := s, response := ⟨500, .thrown⟩ } ∧
      postAllocationFailing s ⟨some studentId, some roomId, notes⟩ now .room =
        { store := { s with
            allocations := s.allocations ++
              [{ id := s.nextId, studentId := studentId, roomId := roomId,
                 allocationDate := now, notes := notes }]
            nextId := s.nextId + 1 }
          response := ⟨500, .thrown⟩ } ∧
      postAllocationFailing s ⟨some studentId, some roomId, notes⟩ now .student =
        { store := { s with
            rooms := saveDoc Room.id s.rooms
              (roomPreSave { r with currentOccupancy := r.currentOccupancy + 1 })
            allocations := s.allocations ++
              [{ id := s.nextId, studentId := studentId, roomId := roomId,
                 allocationDate := now, notes := notes }]
            nextId := s.nextId + 1 }
          response := ⟨500, .thrown⟩ }) ∧
    (∀ (id : Id) (a : Allocation),
      s.findAllocation id = some a → a.status ≠ .Completed →
      deallocateFailing s id now .allocation = { store := s, response := ⟨500, .thrown⟩ } ∧
      (∀ r : Room, s.findRoom a.roomId = some r → 0 < r.currentOccupancy →
        deallocateFailing s id now .room =
          { store := { s with
              allocations := saveDoc Allocation.id s.allocations
                { a with deallocationDate := some now, status := .Completed } }
            response := ⟨500, .thrown⟩ }) ∧
      (∀ st : Student, s.findStudent a.studentId = some st →
        (∀ r : Room, s.findRoom a.roomId = some r → 0 < r.currentOccupancy →
          deallocateFailing s id now .student =
            { store := { s with
                rooms := saveDoc Room.id s.rooms
                  (roomPreSave { r with currentOccupancy := r.currentOccupancy - 1 })
                allocations := saveDoc Allocation.id s.allocations
                  { a with deallocationDate := some now, status := .Completed } }
              response := ⟨500, .thrown⟩ }) ∧
        ((∀ r : Room, s.findRoom a.roomId = some r → r.currentOccupancy = 0) →
          deallocateFailing s id now .student =
            { store := { s with
                allocations := saveDoc Allocation.id s.allocations
                  { a with deallocationDate := some now, status := .Completed } }
              response := ⟨500, .thrown⟩ }))) := by
  constructor
  · intro studentId roomId notes st r hst hcur hr hlt
    have hcur' : st.currentAllocation.isSome = false := by rw [hcur]; rfl
    have hnge : ¬ r.currentOccupancy ≥ r.capacity := by omega
    refine ⟨?_, ?_, ?_⟩
    · simp [postAllocationFailing, hst, hcur', hr, hnge]
    · simp [postAllocationFailing, hst, hcur', hr, hnge]
    · simp [postAllocationFailing, hst, hcur', hr, hnge]
  · intro id a ha hactive
    refine ⟨?_, ?_, ?_⟩
    · simp [deallocateFailing, ha, hactive]
    · intro r hr hpos
      simp [deallocateFailing, ha, hactive, hr, hpos]
    · intro st hst
      constructor
      · intro r hr hpos
        simp [deallocateFailing, ha, hactive, hr, hpos, hst]
      · intro hzero
        cases hr : s.findRoom a.roomId with
        | none => simp [deallocateFailing, ha, hactive, hr, hst]
        | some r =>
          have h0 : r.currentOccupancy = 0 := hzero r hr
          simp [deallocateFailing, ha, hactive, hr, hst, h0]

/-- C26 (as amended) at three stores: the `CreateLease` of student `1` for
room `0` in `sampleStoreFresh` (which holds no allocation), the
`CompleteLease` of allocation `3` in `sampleStore` (room `0` at occupancy 1),
and the `CompleteLease` of allocation `4` in `sampleStoreOrphan` (room `0` at
occupancy 0, so no room write is made). -/
theorem failing_write_effects_witness :
    (sampleStoreFresh.findStudent 1 =
        some { id := 1, name := "O1", studentId := "S1", course := "CS", contact := "1",
               email := "o1@hostel.test" } ∧
      sampleStoreFresh.findRoom 0 = some sampleRoomFresh ∧
      sampleRoomFresh.currentOccupancy < sampleRoomFresh.capacity ∧
      sampleStoreFresh.allocations = [] ∧
      postAllocationFailing sampleStoreFresh ⟨some 1, some 0, none⟩ 20 .allocation =
        { store := sampleStoreFresh, response := ⟨500, .thrown⟩ } ∧
      postAllocationFailing sampleStoreFresh ⟨some 1, some 0, none⟩ 20 .room =
        { store := { sampleStoreFresh with
            allocations := sampleStoreFresh.allocations ++
              [{ id := sampleStoreFresh.nextId, studentId := 1, roomId := 0,
                 allocationDate := 20, notes := none }]
            nextId := sampleStoreFresh.nextId + 1 }
          response := ⟨500, .thrown⟩ } ∧
      postAllocationFailing sampleStoreFresh ⟨some 1, some 0, none⟩ 20 .student =
        { store := { sampleStoreFresh with
            rooms := saveDoc Room.id sampleStoreFresh.rooms
              (roomPreSave { sampleRoomFresh with
                currentOccupancy := sampleRoomFresh.currentOccupancy + 1 })
            allocations := sampleStoreFresh.allocations ++
              [{ id := sampleStoreFresh.nextId, studentId := 1, roomId := 0,
                 allocationDate := 20, notes := none }]
            nextId := sampleStoreFresh.nextId + 1 }
          response := ⟨500, .thrown⟩ }) ∧
    (sampleStore.findAllocation 3 = some sampleAllocation ∧
      sampleAllocation.status ≠ .Completed ∧
      sampleStore.findRoom sampleAllocation.roomId = some sampleRoom ∧
      0 < sampleRoom.currentOccupancy ∧
      sampleStore.findStudent sampleAllocation.studentId = some sampleStudent ∧
      deallocateFailing sampleStore 3 20 .allocation =
        { store := sampleStore, response := ⟨500, .thrown⟩ } ∧
      deallocateFailing sampleStore 3 20 .room =
        { store := { sampleStore with
            allocations := saveDoc Allocation.id sampleStore.allocations
              { sampleAllocation with deallocationDate := some 20, status := .Completed } }
          response := ⟨500, .thrown⟩ } ∧
      deallocateFailing sampleStore 3 20 .student =
        { store := { sampleStore with
            rooms := saveDoc Room.id sampleStore.rooms
              (roomPreSave { sampleRoom with
                currentOccupancy := sampleRoom.currentOccupancy - 1 })
            allocations := saveDoc Allocation.id sampleStore.allocations
              { sampleAllocation with deallocationDate := some 20, status := .Completed } }
          response := ⟨500, .thrown⟩ }) ∧
    (sampleStoreOrphan.findAllocation 4 =
        some { id := 4, studentId := 1, roomId := 0, allocationDate := 6 } ∧
      (sampleStoreOrphan.findStudent 1).isSome = true ∧
      (sampleStoreOrphan.findRoom 0).map (·.currentOccupancy) = some 0 ∧
      deallocateFailing sampleStoreOrphan 4 20 .student =
        { store := { sampleStoreOrphan with
            allocations := saveDoc Allocation.id sampleStoreOrphan.allocations
              { id := 4, studentId := 1, roomId := 0, allocationDate := 6,
                deallocationDate := some 20, status := .Completed } }
          response := ⟨500, .thrown⟩ }) :=
  ⟨⟨by decide, by decide, by decide, by decide,
      (failing_write_effects sampleStoreFresh 20).1 1 0 none
        { id := 1, name := "O1", studentId := "S1", course := "CS", contact := "1",
          email := "o1@hostel.test" }
        sampleRoomFresh (by decide) rfl (by decide) (by decide)⟩,
    ⟨by decide, by decide, by decide, by decide, by decide,
      ((failing_write_effects sampleStore 20).2 3 sampleAllocation (by decide)
        (by decide)).1,
      ((failing_write_effects sampleStore 20).2 3 sampleAllocation (by decide)
        (by decide)).2.1 sampleRoom (by decide) (by decide),
      (((failing_write_effects sampleStore 20).2 3 sampleAllocation (by decide)
        (by decide)).2.2 sampleStudent (by decide)).1 sampleRoom (by decide) (by decide)⟩,
    ⟨by decide, by decide, by decide,
      (((failing_write_effects sampleStoreOrphan 20).2 4
        { id := 4, studentId := 1, roomId := 0, allocationDate := 6 } (by decide)
        (by decide)).2.2
        { id := 1, name := "Asha", studentId := "S1", course := "CS", contact := "1",
          email := "asha@hostel.test", roomId := some 0, currentAllocation := some 4 }
        (by decide)).2
        (fun r hr => by
          have h : some r = some { id := 0, roomNumber := "101", capacity := 2 } :=
            hr.symm.trans (by decide)
          cases h
          rfl)⟩⟩

end Hostel
